import Mathlib

/-!
ICMP ping output processing (`src/libs/zbxicmpping/icmpping.c`).

A shallow embedding of the fping output parser and of the source-IP option
detection of `icmpping.c`, together with theorems about them.

Conventions of the embedding:

* a C string is the `List Char` of its characters before the terminating NUL;
  a pointer into a string is the suffix it points at (`p + k` is `List.drop k`);
* `double` latencies are exact rationals (`ℚ`);
* `int` counters are natural numbers (no counter of the code is ever
  decremented and signed overflow is not modelled);
* the host array is a `List ZBX_FPING_HOST`, a host pointer is an index.
-/

namespace Icmpping

/-! ## C library functions used by the code -/

/-- The `isspace` of the C locale: space, `\t`, `\n`, `\v`, `\f`, `\r`. -/
def isspace (c : Char) : Bool :=
  c == ' ' || c == '\t' || c == '\n' || c == '\x0b' || c == '\x0c' || c == '\r'

/-- The `isdigit` of C. -/
def isdigit (c : Char) : Bool :=
  '0'.toNat ≤ c.toNat && c.toNat ≤ '9'.toNat

/-- Value of a decimal digit character. -/
def digitVal (c : Char) : Nat := c.toNat - '0'.toNat

/-- Value of a sequence of decimal digits, most significant digit first. -/
def digitsVal (ds : List Char) : Nat :=
  ds.foldl (fun acc c => 10 * acc + digitVal c) 0

/-- The C function `strstr(hay, needle)`: the offset of the first occurrence
of `needle` in `hay`, or `none` for a NULL result.  The returned pointer is
`hay.drop off`. -/
def strstr : List Char → List Char → Option Nat
  | [], needle => if needle.isEmpty then some 0 else none
  | c :: cs, needle =>
    if needle.isPrefixOf (c :: cs) then some 0
    else (strstr cs needle).map (· + 1)

/-- The C function `strchr(s, ch)`: the offset of the first occurrence of the
character `ch` in `s`, or `none` for a NULL result. -/
def strchr : List Char → Char → Option Nat
  | [], _ => none
  | c :: cs, ch => if c == ch then some 0 else (strchr cs ch).map (· + 1)

/-- The run of decimal digits at the start of `s`, as a number. -/
def leadingDigits (s : List Char) : Nat := digitsVal (s.takeWhile isdigit)

/-- The C function `atoi`: optional white space, optional sign, then the
longest run of decimal digits (no digits give 0).  Values outside the range of
`int` are undefined behaviour in C and are not modelled. -/
def atoi (s : List Char) : Int :=
  match s.dropWhile isspace with
  | [] => 0
  | c :: t =>
    if c = '-' then - (leadingDigits t : Int)
    else if c = '+' then (leadingDigits t : Int)
    else (leadingDigits (c :: t) : Int)

/-- The exponent of a decimal floating constant, read behind the `e` or `E`:
an optional sign and a run of digits (no digits: no exponent, value 0). -/
def atofExponent (s : List Char) : Int :=
  match s with
  | [] => 0
  | c :: t =>
    if c = '-' then - (leadingDigits t : Int)
    else if c = '+' then (leadingDigits t : Int)
    else (leadingDigits (c :: t) : Int)

/-- The digits of the fraction, read behind the integer digits: the digits
following a `.`, or nothing when there is no `.`. -/
def atofFraction (s : List Char) : List Char :=
  match s with
  | [] => []
  | c :: t => if c = '.' then t.takeWhile isdigit else []

/-- What follows the fraction read by `atofFraction`. -/
def atofAfterFraction (s : List Char) : List Char :=
  match s with
  | [] => []
  | c :: t => if c = '.' then t.dropWhile isdigit else c :: t

/-- The optional exponent part: an `e` or `E` and the exponent behind it. -/
def atofExponentPart (s : List Char) : Int :=
  match s with
  | [] => 0
  | c :: t => if c = 'e' ∨ c = 'E' then atofExponent t else 0

/-- The unsigned decimal floating constant at the start of `s`: digits, an
optional `.` with more digits, and (when at least one digit was read) an
optional exponent. -/
def atofUnsigned (s : List Char) : ℚ :=
  let ip := s.takeWhile isdigit
  let fp := atofFraction (s.dropWhile isdigit)
  let rest := atofAfterFraction (s.dropWhile isdigit)
  let mant : ℚ := (digitsVal ip : ℚ) + (digitsVal fp : ℚ) / (10 : ℚ) ^ fp.length
  let e : Int := if ip.isEmpty && fp.isEmpty then 0 else atofExponentPart rest
  mant * (10 : ℚ) ^ e

/-- The C function `atof` on decimal input: optional white space, optional
sign, decimal floating constant; 0 when no number can be read.  The result is
the exact rational value.  The hexadecimal, `inf` and `nan` forms of `strtod`
have no rational counterpart here: such input is read as its leading decimal
part. -/
def atof (s : List Char) : ℚ :=
  match s.dropWhile isspace with
  | [] => 0
  | c :: t =>
    if c = '-' then - atofUnsigned t
    else if c = '+' then atofUnsigned t
    else atofUnsigned (c :: t)

/-! ## Data model -/

/-- The `ZBX_FPING_HOST` record: address, latency statistics in seconds,
received and sent counters, and the per-request response bitmap `status`.  The
`double` fields are exact rationals: the rounding of floating-point arithmetic
is not represented. -/
structure ZBX_FPING_HOST where
  addr : List Char
  min : ℚ
  sum : ℚ
  max : ℚ
  rcv : Nat
  cnt : Nat
  status : List Bool
deriving DecidableEq

/-- Bit of `fping_existence` set when the IPv4 binary is executable. -/
def FPING_EXISTS : Nat := 1

/-- Bit of `fping_existence` set when the IPv6 binary is executable. -/
def FPING6_EXISTS : Nat := 2

/-- What the parser reads from its surroundings: whether the build has
`HAVE_IPV6`, the result of `config_icmpping->get_source_ip()` (`none` for
NULL) and the `fping_existence` bit mask computed by `process_ping`. -/
structure ParseEnv where
  have_ipv6 : Bool
  source_ip : Option (List Char)
  fping_existence : Nat
deriving DecidableEq

/-! ## Redirected responses -/

/-- The marker fping puts in front of the address a redirected response came
from. -/
def redirect_marker : List Char := " [<-".toList

/-- Function `process_fping_redirected_response`: `none` is the FAIL result,
`some l` is SUCCEED with `l` the contents of `linebuf` afterwards.  When the
marker `" [<-"` is found at `p_start` and a `']'` at `p_end` behind it, and
redirects are allowed, `memmove(p_start, p_end + 1, ...)` cuts the marker out
(`p_end` is an offset from `p_start` here). -/
def process_fping_redirected_response (linebuf : List Char) (allow_redirect : Nat) :
    Option (List Char) :=
  match strstr linebuf redirect_marker with
  | none => some linebuf
  | some p_start =>
    match strchr (linebuf.drop p_start) ']' with
    | none => none
    | some p_end =>
      if allow_redirect = 0 then none
      else some (linebuf.take p_start ++ (linebuf.drop p_start).drop (p_end + 1))

/-! ## Host resolution -/

/-- The search loop of `validate_host_address_in_fping_output`: index of the
first host whose address equals `token`. -/
def find_host (token : List Char) : List ZBX_FPING_HOST → Option Nat
  | [] => none
  | h :: hs => if token = h.addr then some 0 else (find_host token hs).map (· + 1)

/-- Function `validate_host_address_in_fping_output`: the text before the
first space of the line is compared with the address of every host, in order;
`none` is FAIL (no space in the line, or no host matched), `some i` is SUCCEED
with `*host = &hosts[i]`. -/
def validate_host_address_in_fping_output (linebuf : List Char)
    (hosts : List ZBX_FPING_HOST) : Option Nat :=
  match strchr linebuf ' ' with
  | none => none
  | some p_end => find_host (linebuf.take p_end) hosts

/-! ## Per-packet acknowledgments -/

/-- Function `process_response_to_individual_fping_request`: `linebuf_p` points
at the `'['`.  The index is `atoi(linebuf_p + 1)`; it is ignored when out of
`[0, requests_count)` or when `linebuf_p + 2` contains `" timed out "`,
otherwise `host->status[response_idx] = 1`.  (When the line ends with the
`'['`, `linebuf_p + 2` lies behind the terminating NUL, in what earlier lines
left in the buffer; the model reads an empty text there.) -/
def process_response_to_individual_fping_request (host : ZBX_FPING_HOST)
    (linebuf_p : List Char) (requests_count : Nat) : ZBX_FPING_HOST :=
  let response_idx := atoi (linebuf_p.drop 1)
  if 0 > response_idx ∨ response_idx ≥ (requests_count : Int) then host
  else if (strstr (linebuf_p.drop 2) " timed out ".toList).isSome then host
  else { host with status := host.status.set response_idx.toNat true }

/-! ## Summary statistics -/

/-- The statements under `if (1 == host->status[response_idx])` in
`process_fping_statistics`, after `sec` has been computed: min and max are
replaced when nothing was received before or `sec` is beyond them, `sec` is
added to sum and rcv is incremented. -/
def fping_fold_sec (host : ZBX_FPING_HOST) (sec : ℚ) : ZBX_FPING_HOST :=
  { host with
    min := if host.rcv = 0 ∨ host.min > sec then sec else host.min
    max := if host.rcv = 0 ∨ host.max < sec then sec else host.max
    sum := host.sum + sec
    rcv := host.rcv + 1 }

/-- The body of the `do ... while` loop of `process_fping_statistics` for one
`response_idx`: when the bitmap entry is set, the token at `linebuf_p` is read
with `atof`, converted from milliseconds to seconds and folded into the
statistics of the host. -/
def fping_statistics_sample (host : ZBX_FPING_HOST) (linebuf_p : List Char)
    (response_idx : Nat) : ZBX_FPING_HOST :=
  if host.status.getD response_idx false then fping_fold_sec host (atof linebuf_p / 1000)
  else host

/-- The `do ... while` loop of `process_fping_statistics`.  `more` is
`requests_count - 1 - response_idx`, so that the test
`++response_idx < requests_count` of the code is `more ≠ 0`; the second test
moves `linebuf_p` to the next space, `strchr(linebuf_p + 1, ' ')`.  (When the
summary text is empty, `linebuf_p + 1` lies behind the terminating NUL, in what
earlier lines left in the buffer; the model reads an empty text there.) -/
def fping_statistics_loop : Nat → Nat → List Char → ZBX_FPING_HOST → ZBX_FPING_HOST
  | 0, response_idx, linebuf_p, host => fping_statistics_sample host linebuf_p response_idx
  | more + 1, response_idx, linebuf_p, host =>
    let host1 := fping_statistics_sample host linebuf_p response_idx
    match strchr (linebuf_p.drop 1) ' ' with
    | none => host1
    | some off =>
      fping_statistics_loop more (response_idx + 1) ((linebuf_p.drop 1).drop off) host1

/-- Function `process_fping_statistics`: the loop over the tokens of the
summary line, then `host->cnt += requests_count`, then (only in the
`HAVE_IPV6` build) the reset of the first `requests_count` bitmap entries when
`cnt` equals `requests_count`, no source IP is configured and both binaries
exist. -/
def process_fping_statistics (env : ParseEnv) (host : ZBX_FPING_HOST)
    (linebuf_p : List Char) (requests_count : Nat) : ZBX_FPING_HOST :=
  let host1 := fping_statistics_loop (requests_count - 1) 0 linebuf_p host
  let host2 := { host1 with cnt := host1.cnt + requests_count }
  if env.have_ipv6 ∧ host2.cnt = requests_count ∧ env.source_ip = none ∧
      env.fping_existence &&& FPING_EXISTS ≠ 0 ∧
      env.fping_existence &&& FPING6_EXISTS ≠ 0 then
    { host2 with status := List.replicate requests_count false ++
        host2.status.drop requests_count }
  else host2

/-! ## Line dispatch -/

/-- Function `process_fping_output_line`: redirect normalisation, host
resolution, the search for `" : "`, the `"duplicate for"` filter, then the
dispatch on the character behind `" : "`: `'['` is a per-packet
acknowledgment, anything else a summary line.  The result is the host array
afterwards. -/
def process_fping_output_line (env : ParseEnv) (linebuf : List Char)
    (hosts : List ZBX_FPING_HOST) (requests_count : Nat) (allow_redirect : Nat) :
    List ZBX_FPING_HOST :=
  match process_fping_redirected_response linebuf allow_redirect with
  | none => hosts
  | some linebuf1 =>
    match validate_host_address_in_fping_output linebuf1 hosts with
    | none => hosts
    | some i =>
      match hosts.get? i with
      | none => hosts
      | some host =>
        match strstr linebuf1 " : ".toList with
        | none => hosts
        | some off =>
          if (strstr linebuf1 "duplicate for".toList).isSome then hosts
          else
            let linebuf_p := linebuf1.drop (off + 3)
            if linebuf_p.head? = some '[' then
              hosts.set i (process_response_to_individual_fping_request host linebuf_p
                requests_count)
            else
              hosts.set i (process_fping_statistics env host linebuf_p requests_count)

/-! ## The whole output -/

/-- Result codes of the library that the modelled functions return. -/
inductive ZbxResult where
  | SUCCEED
  | FAIL
  | NOTSUPPORTED
  | TIMEOUT_ERROR
deriving DecidableEq

/-- Modelled from the spec: `zbx_rtrim` of the string library is not among the
sources; as it is used on the line-oriented output it removes every trailing
character of the line that occurs in `charlist`. -/
def zbx_rtrim (s : List Char) (charlist : List Char) : List Char :=
  (s.reverse.dropWhile (fun c => charlist.contains c)).reverse

/-- The `do ... while` loop of `process_fping_output` over the lines that
`zbx_fgets` delivers: each line is trimmed of its line feed and handed to
`process_fping_output_line`. -/
def process_fping_output_lines (env : ParseEnv) (lines : List (List Char))
    (hosts : List ZBX_FPING_HOST) (requests_count : Nat) (allow_redirect : Nat) :
    List ZBX_FPING_HOST :=
  lines.foldl (fun hs linebuf =>
    process_fping_output_line env (zbx_rtrim linebuf ['\n']) hs requests_count allow_redirect)
    hosts

/-- Function `process_fping_output`: `lines` is what the successive
`zbx_fgets` calls read from the pipe.  Without a first line the result is
NOTSUPPORTED and no host is touched; otherwise every bitmap is allocated with
`requests_count` zero entries, every line is processed and the result is
SUCCEED.  (The bitmaps are freed at the end; the model leaves their last
contents in place.) -/
def process_fping_output (env : ParseEnv) (lines : List (List Char))
    (hosts : List ZBX_FPING_HOST) (requests_count : Nat) (allow_redirect : Nat) :
    ZbxResult × List ZBX_FPING_HOST :=
  match lines with
  | [] => (ZbxResult.NOTSUPPORTED, hosts)
  | _ :: _ =>
    let hosts1 := hosts.map
      (fun h => { h with status := List.replicate requests_count false })
    (ZbxResult.SUCCEED,
      process_fping_output_lines env lines hosts1 requests_count allow_redirect)

/-! ## Source IP option detection -/

/-- The test `'-' == p[0] && X == p[1] && (isspace(p[2]) || ',' == p[2])` of
`get_source_ip_option` for the option letter `X`. -/
def is_option_line (letter : Char) (p : List Char) : Bool :=
  match p with
  | c0 :: c1 :: c2 :: _ => c0 == '-' && c1 == letter && (isspace c2 || c2 == ',')
  | _ => false

/-- The `while` loop of `get_source_ip_option` over the lines of the help
text: leading white space is skipped; a `-I` line stores `"-I"` and continues,
a `-S` line stores `"-S"` and leaves the loop. -/
def source_ip_option_scan : List (List Char) → Option (List Char) → Option (List Char)
  | [], option => option
  | tmp :: rest, option =>
    let p := tmp.dropWhile isspace
    if is_option_line 'I' p then source_ip_option_scan rest (some "-I".toList)
    else if is_option_line 'S' p then some "-S".toList
    else source_ip_option_scan rest option

/-- Function `get_source_ip_option`: `help` is `none` when `popen` fails
(nothing is changed then) and otherwise the lines that `zbx_fgets` reads from
the help output.  The result is the pair of `*option` and `*checked`
afterwards. -/
def get_source_ip_option (help : Option (List (List Char)))
    (option : Option (List Char)) (checked : Nat) : Option (List Char) × Nat :=
  match help with
  | none => (option, checked)
  | some lines => (source_ip_option_scan lines option, 1)

/-! ## Vocabulary of the statements -/

/-- The latencies, in seconds, of the tokens whose bitmap entry is set: token
`i` counts when `status[i]` is true, and its value is `atof` of the token
divided by 1000. -/
def sampleSeconds : List Bool → List (List Char) → List ℚ
  | b :: bs, t :: ts =>
    if b then (atof t / 1000) :: sampleSeconds bs ts else sampleSeconds bs ts
  | _, _ => []

/-- The summary text made of the given tokens, separated by single spaces. -/
def joinTokens (tokens : List (List Char)) : List Char :=
  [' '].intercalate tokens

/-- A token of a summary line: not empty and without white space. -/
def IsToken (t : List Char) : Prop :=
  t ≠ [] ∧ ∀ c ∈ t, isspace c = false

/-- The decimal text of a packet index as fping prints it between the square
brackets: the digits of the number, behind a `-` when it is negative. -/
def indexText : Int → List Char
  | Int.ofNat n => Nat.toDigits 10 n
  | Int.negSucc n => '-' :: Nat.toDigits 10 (n + 1)

/-- The host for which a line is handed to `process_fping_statistics`, if it
is: the line passes the redirect step, its leading token is the address of
host `i`, it contains `" : "` and no `"duplicate for"`, and the text behind the
first `" : "` does not start with `'['`. -/
def summary_line_host (linebuf : List Char) (hosts : List ZBX_FPING_HOST)
    (allow_redirect : Nat) : Option Nat :=
  match process_fping_redirected_response linebuf allow_redirect with
  | none => none
  | some linebuf1 =>
    match validate_host_address_in_fping_output linebuf1 hosts with
    | none => none
    | some i =>
      match strstr linebuf1 " : ".toList with
      | none => none
      | some off =>
        if (strstr linebuf1 "duplicate for".toList).isSome then none
        else if (linebuf1.drop (off + 3)).head? = some '[' then none
        else some i

/-- The number of lines of the output that are handed to
`process_fping_statistics` for host `i`. -/
def summary_line_count (lines : List (List Char)) (hosts : List ZBX_FPING_HOST)
    (allow_redirect : Nat) (i : Nat) : Nat :=
  lines.countP (fun l => summary_line_host (zbx_rtrim l ['\n']) hosts allow_redirect == some i)

/-- The environment of the example of the specification: dual-stack build, no
source IP, both binaries present. -/
def example_env : ParseEnv := ⟨true, none, 3⟩

/-- The host of the example of the specification: address `8.8.8.8`, zeroed
statistics, bitmap `[true, true, true, false, true]`. -/
def example_host : ZBX_FPING_HOST :=
  ⟨"8.8.8.8".toList, 0, 0, 0, 0, 0, [true, true, true, false, true]⟩

/-- Modelled from the spec: the 1 KiB bound `ZBX_KIBIBYTE` on probe output; the
constant is defined in a header that is not among the sources. -/
def ZBX_KIBIBYTE : Nat := 1024

/-- Modelled from the spec: `zbx_snprintf` of the string library is not among
the sources; it writes the formatted text, cut to `count - 1` characters, into
a buffer of `count` bytes and returns the number of characters written.  The
formatted text is passed as `text`; `%d`, `%li` and `%u` are `indexText`. -/
def zbx_snprintf (count : Nat) (text : List Char) : List Char :=
  text.take (count - 1)

/-- Modelled from the spec: `zbx_strlcpy` of the string library is not among
the sources; it copies the text, cut to `siz - 1` characters. -/
def zbx_strlcpy (src : List Char) (siz : Nat) : List Char :=
  src.take (siz - 1)

/-- One call that starts a subprocess, with its command line: `zbx_execute`
for an interval probe or an IPv6 support probe, `popen` for the help text or
for the ping run itself. -/
inductive Spawn where
  | interval_probe (cmd : List Char)
  | help_probe (cmd : List Char)
  | ipv6_probe (cmd : List Char)
  | ping_run (cmd : List Char)
deriving DecidableEq

/-- What `zbx_execute` hands back: its return value, the captured output
(read by the code only when the return value is SUCCEED) and the error
text. -/
structure ExecResult where
  ret : ZbxResult
  out : List Char
  err : List Char
deriving DecidableEq

/-- Everything `process_ping` obtains from outside of `icmpping.c`: the build
option, constants of headers, the configuration callbacks, the clock, the file
system and the subprocesses.  `execute` is `zbx_execute` on a command line;
`help` is `popen` on a help command followed by the `zbx_fgets` calls (`none`
when `popen` fails); `popen` is `popen` on the ping command followed by the
`zbx_fgets` calls and `pclose` (the lines read and `WIFSIGNALED(rc)`);
`address_family` is `get_address_family` on the source IP (its error text, or
whether the family is `PF_INET`); `linebuf_init` is what the freshly allocated
`linebuf` holds. -/
structure PingWorld where
  have_ipv6 : Bool
  MAX_STRING_LEN : Nat
  now : Int
  fping_location : List Char
  fping6_location : List Char
  source_ip : Option (List Char)
  tmpdir : List Char
  progname : List Char
  thread_id : Int
  fping_executable : Bool
  fping6_executable : Bool
  access_strerror : List Char
  source_ip_is_ip4 : Bool
  address_family : Except (List Char) Bool
  execute : List Char → ExecResult
  help : List Char → Option (List (List Char))
  fopen_ok : Bool
  fopen_strerror : List Char
  popen : List Char → Option (List (List Char) × Bool)
  popen_strerror : List Char
  linebuf_init : List Char

/-! ## Minimum interval detection -/

/-- The candidate intervals of `get_interval_option`, in the order tried. -/
def fping_intervals : List Nat := [0, 1, 10]

/-- The probes of `get_interval_option` in the order of its two nested loops:
for every host in turn, the intervals 0, 1 and 10. -/
def interval_probes : List ZBX_FPING_HOST → List (List Char × Nat)
  | [] => []
  | h :: hs => fping_intervals.map (fun iv => (h.addr, iv)) ++ interval_probes hs

/-- The command line of one interval probe, `"%s -c1 -t50 -i%u %s"`. -/
def interval_command (world : PingWorld) (fping dst : List Char) (interval : Nat) :
    List Char :=
  zbx_snprintf world.MAX_STRING_LEN
    (fping ++ " -c1 -t50 -i".toList ++ Nat.toDigits 10 interval ++ " ".toList ++ dst)

/-- The body of the inner loop of `get_interval_option` behind the call of
`zbx_execute`: `some (ret, value, error)` when the function leaves through
`goto out` with these values, `none` when the loop goes on.  In order: time
out, execution failure, the two `You need` messages, and, for an output below
1 KiB, the echo of the target address and the `" as root"` message. -/
def interval_probe_verdict (cmd dst : List Char) (interval : Nat) (r : ExecResult)
    (value : Int) (error : List Char) (max_error_len : Nat) :
    Option (ZbxResult × Int × List Char) :=
  if r.ret = ZbxResult.TIMEOUT_ERROR then
    some (ZbxResult.FAIL, value,
      zbx_snprintf max_error_len ("Timeout while executing \"".toList ++ cmd ++ "\"".toList))
  else if r.ret ≠ ZbxResult.SUCCEED then
    some (ZbxResult.FAIL, value,
      zbx_snprintf max_error_len
        ("Cannot execute \"".toList ++ cmd ++ "\": ".toList ++ r.err))
  else
    match strstr r.out "You need i >= ".toList with
    | some off =>
      some (ZbxResult.SUCCEED, atoi (r.out.drop (off + "You need i >= ".toList.length)), error)
    | none =>
      match strstr r.out "You need -i >= ".toList with
      | some off =>
        some (ZbxResult.SUCCEED, atoi (r.out.drop (off + "You need -i >= ".toList.length)),
          error)
      | none =>
        if ZBX_KIBIBYTE > r.out.length then
          if (r.out.dropWhile isspace).length ≥ dst.length ∧
              (strstr (r.out.dropWhile isspace) dst).isSome then
            some (ZbxResult.SUCCEED, (interval : Int), error)
          else if (strstr r.out " as root".toList).isSome then
            some (ZbxResult.FAIL, value, zbx_strlcpy (zbx_rtrim r.out ['\n']) max_error_len)
          else none
        else none

/-- The outcome of `get_interval_option`: return value, `*value` and the error
buffer afterwards, and the calls of `zbx_execute` it made. -/
structure IntervalDetection where
  ret : ZbxResult
  value : Int
  error : List Char
  spawned : List Spawn
deriving DecidableEq

/-- The loops of `get_interval_option` over the remaining probes; `out` is
the output of the last probe (`none` for NULL).  When no probe is left the
function fails with the last output as diagnostic if that is not empty and
below 1 KiB, and with `"Cannot detect the minimum interval of %s"`
otherwise. -/
def get_interval_option_loop (world : PingWorld) (fping : List Char) (max_error_len : Nat) :
    List (List Char × Nat) → Option (List Char) → Int → List Char → List Spawn →
      IntervalDetection
  | [], out, value, _, spawned =>
    let generic := zbx_snprintf max_error_len
      ("Cannot detect the minimum interval of ".toList ++ fping)
    match out with
    | none => ⟨ZbxResult.FAIL, value, generic, spawned⟩
    | some o =>
      if ZBX_KIBIBYTE > o.length ∧ o.length ≠ 0 then
        ⟨ZbxResult.FAIL, value, zbx_strlcpy (zbx_rtrim o ['\n']) max_error_len, spawned⟩
      else ⟨ZbxResult.FAIL, value, generic, spawned⟩
  | (dst, interval) :: rest, _, value, error, spawned =>
    let cmd := interval_command world fping dst interval
    let r := world.execute cmd
    match interval_probe_verdict cmd dst interval r value error max_error_len with
    | some (ret, value1, error1) =>
      ⟨ret, value1, error1, spawned ++ [Spawn.interval_probe cmd]⟩
    | none =>
      get_interval_option_loop world fping max_error_len rest (some r.out) value error
        (spawned ++ [Spawn.interval_probe cmd])

/-- Function `get_interval_option`: `value` and `error` are `*value` and the
error buffer before the call. -/
def get_interval_option (world : PingWorld) (fping : List Char)
    (hosts : List ZBX_FPING_HOST) (value : Int) (error : List Char) (max_error_len : Nat) :
    IntervalDetection :=
  get_interval_option_loop world fping max_error_len (interval_probes hosts) none value
    error []

/-! ## IPv6 support detection -/

/-- Function `get_ipv6_support`: the probe `"%s -6 -c1 -t50 %s"` reports
support when it succeeds with an output below 1 KiB that contains the target
address, or when it times out.  The result comes with the call made. -/
def get_ipv6_support (world : PingWorld) (fping dst : List Char) : ZbxResult × Spawn :=
  let cmd := zbx_snprintf world.MAX_STRING_LEN
    (fping ++ " -6 -c1 -t50 ".toList ++ dst)
  let r := world.execute cmd
  if (r.ret = ZbxResult.SUCCEED ∧ ZBX_KIBIBYTE > r.out.length ∧ (strstr r.out dst).isSome) ∨
      r.ret = ZbxResult.TIMEOUT_ERROR then
    (ZbxResult.SUCCEED, Spawn.ipv6_probe cmd)
  else (ZbxResult.FAIL, Spawn.ipv6_probe cmd)

/-! ## The capability cache -/

/-- The value of `packet_interval` and `packet_interval6` that stands for "not
detected yet". -/
def FPING_UNINITIALIZED_VALUE : Int := -2

/-- The life time of the detected options, in seconds. -/
def FPING_CHECK_EXPIRED : Int := 3600

/-- The static variables of `icmpping.c`.  `fping_ipv6_supported` holds
`FPING_UNINITIALIZED_VALUE` (here `none`) or the result of `get_ipv6_support`
(here `some`); the model relies on `FPING_UNINITIALIZED_VALUE` being different
from SUCCEED and FAIL, whose values are defined outside the sources. -/
structure FpingCache where
  source_ip_checked : Nat
  source_ip_option : Option (List Char)
  source_ip6_checked : Nat
  source_ip6_option : Option (List Char)
  packet_interval : Int
  packet_interval6 : Int
  fping_ipv6_supported : Option ZbxResult
  fping_check_reset_at : Int
deriving DecidableEq

/-- The first step of `process_ping`: once more than `FPING_CHECK_EXPIRED`
seconds have passed since `fping_check_reset_at`, the detected options are
reset (the IPv6 ones only exist in the `HAVE_IPV6` build).  Both calls of
`time(NULL)` are taken to return `now`. -/
def expire_fping_options (world : PingWorld) (cache : FpingCache) : FpingCache :=
  if world.now - cache.fping_check_reset_at > FPING_CHECK_EXPIRED then
    if world.have_ipv6 then
      { cache with
        fping_check_reset_at := world.now
        source_ip_checked := 0
        packet_interval := FPING_UNINITIALIZED_VALUE
        source_ip6_checked := 0
        packet_interval6 := FPING_UNINITIALIZED_VALUE
        fping_ipv6_supported := none }
    else
      { cache with
        fping_check_reset_at := world.now
        source_ip_checked := 0
        packet_interval := FPING_UNINITIALIZED_VALUE }
  else cache

/-! ## Building the invocation -/

/-- The local state of `process_ping` while it prepares the invocation: the
static variables, the error buffer, the subprocess calls made so far,
`fping_existence` and the two parameter buffers. -/
structure PingState where
  cache : FpingCache
  error : List Char
  spawned : List Spawn
  fping_existence : Nat
  params : List Char
  params6 : List Char
deriving DecidableEq

/-- The checks of the binaries with `access(..., X_OK)`.  In the `HAVE_IPV6`
build they compute `fping_existence` and fail when both binaries are missing;
otherwise they fail when fping is missing or when the source IP is not an
IPv4 address. -/
def ping_check_binaries (world : PingWorld) (max_error_len : Nat) (s : PingState) :
    Except PingState PingState :=
  if world.have_ipv6 then
    let e1 := if world.fping_executable then s.fping_existence ||| FPING_EXISTS
      else s.fping_existence
    if world.fping6_executable then
      Except.ok { s with fping_existence := e1 ||| FPING6_EXISTS }
    else if e1 &&& FPING_EXISTS = 0 then
      Except.error { s with
        fping_existence := e1
        error := zbx_snprintf max_error_len
          ("At least one of '".toList ++ world.fping_location ++ "', '".toList ++
            world.fping6_location ++ "' must exist. Both are missing in the system.".toList) }
    else Except.ok { s with fping_existence := e1 }
  else if world.fping_executable = false then
    Except.error { s with
      error := zbx_snprintf max_error_len
        (world.fping_location ++ ": ".toList ++ world.access_strerror) }
  else
    match world.source_ip with
    | none => Except.ok s
    | some ip =>
      if world.source_ip_is_ip4 = false then
        Except.error { s with
          error := zbx_snprintf max_error_len
            ("You should enable IPv6 support to use IPv6 family address for SourceIP '".toList
              ++ ip ++ "'.".toList) }
      else Except.ok s

/-- The size of the buffers `params` and `params6`. -/
def PARAMS_SIZE : Nat := 70

/-- One `zbx_snprintf(params + offset, sizeof(params) - offset, ...)`, where
`offset` is the length of what the buffer holds. -/
def append_param (params text : List Char) : List Char :=
  params ++ zbx_snprintf (PARAMS_SIZE - params.length) text

/-- The parameters that do not depend on the binary: `-C%d`, then `-p%d`,
`-b%d` and `-t%d` for the values that are not 0. -/
def ping_base_params (requests_count : Nat) (interval size timeout : Int) : List Char :=
  let p0 := zbx_snprintf PARAMS_SIZE ("-C".toList ++ indexText (requests_count : Int))
  let p1 := if interval ≠ 0 then append_param p0 (" -p".toList ++ indexText interval) else p0
  let p2 := if size ≠ 0 then append_param p1 (" -b".toList ++ indexText size) else p1
  if timeout ≠ 0 then append_param p2 (" -t".toList ++ indexText timeout) else p2

/-- The detection of the minimum interval of fping and the `-i%d` parameter.
In the `HAVE_IPV6` build this is done when fping exists, in both builds only
for a batch that is not empty. -/
def ping_detect_interval (world : PingWorld) (max_error_len : Nat)
    (hosts : List ZBX_FPING_HOST) (s : PingState) : Except PingState PingState :=
  if (world.have_ipv6 = false ∨ s.fping_existence &&& FPING_EXISTS ≠ 0) ∧ hosts.length ≠ 0 then
    if s.cache.packet_interval = FPING_UNINITIALIZED_VALUE then
      let d := get_interval_option world world.fping_location hosts s.cache.packet_interval
        s.error max_error_len
      let s1 := { s with
        cache := { s.cache with packet_interval := d.value }
        error := d.error
        spawned := s.spawned ++ d.spawned }
      if d.ret ≠ ZbxResult.SUCCEED then Except.error s1
      else Except.ok { s1 with params := append_param s1.params (" -i".toList ++ indexText d.value) }
    else
      Except.ok { s with
        params := append_param s.params (" -i".toList ++ indexText s.cache.packet_interval) }
  else Except.ok s

/-- The detection of the minimum interval of fping6 and the `-i%d` parameter
of `params6`; this step only exists in the `HAVE_IPV6` build. -/
def ping_detect_interval6 (world : PingWorld) (max_error_len : Nat)
    (hosts : List ZBX_FPING_HOST) (s : PingState) : Except PingState PingState :=
  if world.have_ipv6 = true ∧ s.fping_existence &&& FPING6_EXISTS ≠ 0 ∧ hosts.length ≠ 0 then
    if s.cache.packet_interval6 = FPING_UNINITIALIZED_VALUE then
      let d := get_interval_option world world.fping6_location hosts s.cache.packet_interval6
        s.error max_error_len
      let s1 := { s with
        cache := { s.cache with packet_interval6 := d.value }
        error := d.error
        spawned := s.spawned ++ d.spawned }
      if d.ret ≠ ZbxResult.SUCCEED then Except.error s1
      else
        Except.ok { s1 with params6 := append_param s1.params6 (" -i".toList ++ indexText d.value) }
    else
      Except.ok { s with
        params6 := append_param s.params6 (" -i".toList ++ indexText s.cache.packet_interval6) }
  else Except.ok s

/-- The command line of the help probe of `get_source_ip_option`. -/
def help_command (world : PingWorld) (fping : List Char) : List Char :=
  zbx_snprintf world.MAX_STRING_LEN (fping ++ " -h 2>&1".toList)

/-- The source IP parameter of fping: with a source IP configured (and, in the
`HAVE_IPV6` build, fping existing) the option is detected unless it has been
checked, and `" %s%s"` is written behind the parameters when an option is
known. -/
def ping_source_ip (world : PingWorld) (s : PingState) : PingState :=
  match world.source_ip with
  | none => s
  | some ip =>
    if world.have_ipv6 = false ∨ s.fping_existence &&& FPING_EXISTS ≠ 0 then
      let s1 :=
        if s.cache.source_ip_checked = 0 then
          let r := get_source_ip_option (world.help (help_command world world.fping_location))
            s.cache.source_ip_option s.cache.source_ip_checked
          { s with
            cache := { s.cache with source_ip_option := r.1, source_ip_checked := r.2 }
            spawned := s.spawned ++ [Spawn.help_probe (help_command world world.fping_location)] }
        else s
      match s1.cache.source_ip_option with
      | none => s1
      | some option => { s1 with params := append_param s1.params (' ' :: option ++ ip) }
    else s

/-- The source IP parameter of fping6 (`HAVE_IPV6` build only), as
`ping_source_ip` with the variables of fping6. -/
def ping_source_ip6 (world : PingWorld) (s : PingState) : PingState :=
  match world.source_ip with
  | none => s
  | some ip =>
    if world.have_ipv6 = true ∧ s.fping_existence &&& FPING6_EXISTS ≠ 0 then
      let s1 :=
        if s.cache.source_ip6_checked = 0 then
          let r := get_source_ip_option (world.help (help_command world world.fping6_location))
            s.cache.source_ip6_option s.cache.source_ip6_checked
          { s with
            cache := { s.cache with source_ip6_option := r.1, source_ip6_checked := r.2 }
            spawned := s.spawned ++
              [Spawn.help_probe (help_command world world.fping6_location)] }
        else s
      match s1.cache.source_ip6_option with
      | none => s1
      | some option => { s1 with params6 := append_param s1.params6 (' ' :: option ++ ip) }
    else s

/-- The part of `process_ping` from the expiry of the options to the source IP
parameters: `Except.error` is a `goto out`. -/
def ping_prepare (world : PingWorld) (cache : FpingCache) (hosts : List ZBX_FPING_HOST)
    (requests_count : Nat) (interval size timeout : Int) (error : List Char)
    (max_error_len : Nat) : Except PingState PingState :=
  let s0 : PingState := ⟨expire_fping_options world cache, error, [], 0, [], []⟩
  match ping_check_binaries world max_error_len s0 with
  | Except.error s => Except.error s
  | Except.ok s1 =>
    let base := ping_base_params requests_count interval size timeout
    let s2 := { s1 with params := base, params6 := if world.have_ipv6 then base else [] }
    match ping_detect_interval world max_error_len hosts s2 with
    | Except.error s => Except.error s
    | Except.ok s3 =>
      match ping_detect_interval6 world max_error_len hosts s3 with
      | Except.error s => Except.error s
      | Except.ok s4 => Except.ok (ping_source_ip6 world (ping_source_ip world s4))

/-- The name of the file with the addresses, `"%s/%s_%li.pinger"`. -/
def ping_filename (world : PingWorld) : List Char :=
  zbx_snprintf world.MAX_STRING_LEN
    (world.tmpdir ++ "/".toList ++ world.progname ++ "_".toList ++ indexText world.thread_id ++
      ".pinger".toList)

/-- The size of `linebuf`, `MAX_STRING_LEN + requests_count * response_time_chars_max`. -/
def linebuf_size (world : PingWorld) (requests_count : Nat) : Nat :=
  world.MAX_STRING_LEN + requests_count * 20

/-- The invocation of one binary, `"%s %s 2>&1 <%s"`, followed by `";"` in the
branch without source IP. -/
def ping_invocation (world : PingWorld) (location params suffix : List Char) : List Char :=
  location ++ " ".toList ++ params ++ " 2>&1 <".toList ++ ping_filename world ++ suffix

/-- The command line of the `HAVE_IPV6` build with a source IP: the address
family of the source IP selects the binary, which has to exist. -/
def ping_command_source_ip (world : PingWorld) (requests_count : Nat) (max_error_len : Nat)
    (s : PingState) : Except PingState (PingState × List Char) :=
  match world.address_family with
  | Except.error e => Except.error { s with error := e }
  | Except.ok is_inet =>
    if is_inet then
      if s.fping_existence &&& FPING_EXISTS = 0 then
        Except.error { s with
          error := zbx_snprintf max_error_len
            ("File '".toList ++ world.fping_location ++
              "' cannot be found in the system.".toList) }
      else
        Except.ok (s, zbx_snprintf (linebuf_size world requests_count)
          (ping_invocation world world.fping_location s.params []))
    else
      if s.fping_existence &&& FPING6_EXISTS = 0 then
        Except.error { s with
          error := zbx_snprintf max_error_len
            ("File '".toList ++ world.fping6_location ++
              "' cannot be found in the system.".toList) }
      else
        Except.ok (s, zbx_snprintf (linebuf_size world requests_count)
          (ping_invocation world world.fping6_location s.params6 []))

/-- The command line of the `HAVE_IPV6` build without source IP.  When fping
exists its IPv6 support is detected unless known (with the address of the
first host; the code reads `hosts[0]` also in an empty batch, the model takes
an empty address then) and its invocation is written at the start of
`linebuf`; when fping6 exists and IPv6 support of fping is not SUCCEED, the
invocation of fping6 is written behind.  Without any write `linebuf` keeps
what it held. -/
def ping_command_dual (world : PingWorld) (requests_count : Nat)
    (hosts : List ZBX_FPING_HOST) (s : PingState) : PingState × List Char :=
  let s1 :=
    if s.fping_existence &&& FPING_EXISTS ≠ 0 then
      match s.cache.fping_ipv6_supported with
      | none =>
        let r := get_ipv6_support world world.fping_location
          ((hosts.head?.map (fun h => h.addr)).getD [])
        { s with
          cache := { s.cache with fping_ipv6_supported := some r.1 }
          spawned := s.spawned ++ [r.2] }
      | some _ => s
    else s
  let written :=
    if s.fping_existence &&& FPING_EXISTS ≠ 0 then
      some (zbx_snprintf (linebuf_size world requests_count)
        (ping_invocation world world.fping_location s1.params [';']))
    else none
  let offset := (written.getD []).length
  if s1.fping_existence &&& FPING6_EXISTS ≠ 0 ∧
      s1.cache.fping_ipv6_supported ≠ some ZbxResult.SUCCEED then
    (s1, written.getD [] ++ zbx_snprintf (linebuf_size world requests_count - offset)
      (ping_invocation world world.fping6_location s1.params6 [';']))
  else (s1, written.getD world.linebuf_init)

/-- The command line that `process_ping` writes into `linebuf`. -/
def ping_build_command (world : PingWorld) (requests_count : Nat) (max_error_len : Nat)
    (hosts : List ZBX_FPING_HOST) (s : PingState) : Except PingState (PingState × List Char) :=
  if world.have_ipv6 then
    match world.source_ip with
    | some _ => ping_command_source_ip world requests_count max_error_len s
    | none => Except.ok (ping_command_dual world requests_count hosts s)
  else
    Except.ok (s, zbx_snprintf (linebuf_size world requests_count)
      (ping_invocation world world.fping_location s.params []))

/-- What `process_ping` leaves behind: its return value, the error buffer, the
static variables, the hosts, the subprocess calls in their order, the two
parameter buffers and, when `popen` was reached, the command line passed to
it. -/
structure PingResult where
  ret : ZbxResult
  error : List Char
  cache : FpingCache
  hosts : List ZBX_FPING_HOST
  spawned : List Spawn
  params : List Char
  params6 : List Char
  command : Option (List Char)
deriving DecidableEq

/-- The return of `process_ping` through `goto out` before `popen`. -/
def ping_failed (s : PingState) (hosts : List ZBX_FPING_HOST) : PingResult :=
  ⟨ZbxResult.NOTSUPPORTED, s.error, s.cache, hosts, s.spawned, s.params, s.params6, none⟩

/-- The end of `process_ping`: the address file is written, the command is
started with `popen`, its output is processed by `process_fping_output`, and
after `pclose` the result is FAIL when the subprocess was ended by a signal;
otherwise the error buffer receives `"fping failed: %s"` with the last
contents of `linebuf`: `"no output"`, or the last line read, without its line
feed and without the redirect marker when that was cut out. -/
def ping_run (world : PingWorld) (hosts : List ZBX_FPING_HOST) (requests_count : Nat)
    (allow_redirect : Nat) (max_error_len : Nat) (s : PingState) (linebuf : List Char) :
    PingResult :=
  if world.fopen_ok = false then
    ping_failed { s with
      error := zbx_snprintf max_error_len
        (ping_filename world ++ ": ".toList ++ world.fopen_strerror) } hosts
  else
    match world.popen linebuf with
    | none =>
      { ping_failed { s with
          error := zbx_snprintf max_error_len
            (linebuf ++ ": ".toList ++ world.popen_strerror)
          spawned := s.spawned ++ [Spawn.ping_run linebuf] } hosts with
        command := some linebuf }
    | some (lines, signaled) =>
      let r := process_fping_output ⟨world.have_ipv6, world.source_ip, s.fping_existence⟩
        lines hosts requests_count allow_redirect
      let linebuf1 :=
        match lines.getLast? with
        | none => zbx_snprintf (linebuf_size world requests_count) "no output".toList
        | some l =>
          (process_fping_redirected_response (zbx_rtrim l ['\n']) allow_redirect).getD
            (zbx_rtrim l ['\n'])
      { ret := if signaled then ZbxResult.FAIL
          else if r.1 = ZbxResult.SUCCEED then ZbxResult.SUCCEED else ZbxResult.NOTSUPPORTED
        error := if signaled then s.error
          else zbx_snprintf max_error_len ("fping failed: ".toList ++ linebuf1)
        cache := s.cache
        hosts := r.2
        spawned := s.spawned ++ [Spawn.ping_run linebuf]
        params := s.params
        params6 := s.params6
        command := some linebuf }

/-- Function `process_ping`, from the static variables `cache` and the
contents `error` of the error buffer; the number of hosts is the length of
`hosts`. -/
def process_ping (world : PingWorld) (cache : FpingCache) (hosts : List ZBX_FPING_HOST)
    (requests_count : Nat) (interval size timeout : Int) (allow_redirect : Nat)
    (error : List Char) (max_error_len : Nat) : PingResult :=
  match ping_prepare world cache hosts requests_count interval size timeout error
      max_error_len with
  | Except.error s => ping_failed s hosts
  | Except.ok s =>
    match ping_build_command world requests_count max_error_len hosts s with
    | Except.error s1 => ping_failed s1 hosts
    | Except.ok (s1, linebuf) =>
      ping_run world hosts requests_count allow_redirect max_error_len s1 linebuf

/-- Function `zbx_ping`: it returns what `process_ping` returns (and logs the
error when that is NOTSUPPORTED). -/
def zbx_ping (world : PingWorld) (cache : FpingCache) (hosts : List ZBX_FPING_HOST)
    (requests_count : Nat) (period size timeout : Int) (allow_redirect : Nat)
    (error : List Char) (max_error_len : Nat) : ZbxResult :=
  (process_ping world cache hosts requests_count period size timeout allow_redirect error
    max_error_len).ret

/-- A world for the examples: dual-stack build, both binaries executable, no
source IP, every `zbx_execute` succeeding with the output `out`, no help text
and a ping run without output. -/
def example_world (out : List Char) : PingWorld where
  have_ipv6 := true
  MAX_STRING_LEN := 2048
  now := 100000
  fping_location := "/usr/sbin/fping".toList
  fping6_location := "/usr/sbin/fping6".toList
  source_ip := none
  tmpdir := "/tmp".toList
  progname := "zabbix_server".toList
  thread_id := 7
  fping_executable := true
  fping6_executable := true
  access_strerror := "No such file or directory".toList
  source_ip_is_ip4 := true
  address_family := Except.ok true
  execute := fun _ => ⟨ZbxResult.SUCCEED, out, []⟩
  help := fun _ => some []
  fopen_ok := true
  fopen_strerror := "Permission denied".toList
  popen := fun _ => some ([], false)
  popen_strerror := "Cannot allocate memory".toList
  linebuf_init := []

/-- A cache in which nothing has been detected and that has just been
reset. -/
def example_cache : FpingCache :=
  ⟨0, none, 0, none, FPING_UNINITIALIZED_VALUE, FPING_UNINITIALIZED_VALUE, none, 100000⟩

/-- Whether a subprocess call is a capability probe of the detection of the
minimum interval or of the source IP option. -/
def isCapabilityProbe : Spawn → Bool
  | Spawn.interval_probe _ => true
  | Spawn.help_probe _ => true
  | Spawn.ipv6_probe _ => false
  | Spawn.ping_run _ => false

/-- Whether the preparation step of fping applies: always in the single-stack
build, in the `HAVE_IPV6` build when fping exists. -/
abbrev fping_in_use (world : PingWorld) (s : PingState) : Prop :=
  world.have_ipv6 = false ∨ s.fping_existence &&& FPING_EXISTS ≠ 0

/-- Whether the preparation step of fping6 applies: in the `HAVE_IPV6` build
when fping6 exists. -/
abbrev fping6_in_use (world : PingWorld) (s : PingState) : Prop :=
  world.have_ipv6 = true ∧ s.fping_existence &&& FPING6_EXISTS ≠ 0

/-- What every step of the preparation keeps: the time of the last reset and
the IPv6 support flag stay as they are, and the subprocess calls that are
added are capability probes. -/
def PrepStep (s t : PingState) : Prop :=
  t.cache.fping_check_reset_at = s.cache.fping_check_reset_at ∧
    t.cache.fping_ipv6_supported = s.cache.fping_ipv6_supported ∧
    ∃ extra, t.spawned = s.spawned ++ extra ∧ ∀ e ∈ extra, isCapabilityProbe e = true

/-- The argument string of one binary as the specification describes it:
`-C<requests_count>`, then ` -p<interval>`, ` -b<size>` and ` -t<timeout>` for
the values that are not 0, ` -i<minimum interval>` for a batch that is not
empty, and ` <flag><source IP>` when a source IP is configured and a flag is
known. -/
def params_text (requests_count : Nat) (interval size timeout : Int) (hosts_count : Nat)
    (min_interval : Int) (flag source_ip : Option (List Char)) : List Char :=
  "-C".toList ++ indexText (requests_count : Int) ++
    (if interval ≠ 0 then " -p".toList ++ indexText interval else []) ++
    (if size ≠ 0 then " -b".toList ++ indexText size else []) ++
    (if timeout ≠ 0 then " -t".toList ++ indexText timeout else []) ++
    (if hosts_count ≠ 0 then " -i".toList ++ indexText min_interval else []) ++
    (match source_ip, flag with
      | some ip, some f => ' ' :: f ++ ip
      | _, _ => [])

/-- A world with the source IP `192.168.1.10`, a help text that offers `-S`,
and probes that print the address of the host. -/
def example_world_source_ip : PingWorld :=
  { example_world "8.8.8.8 : xmt/rcv/%loss = 1/1/0%".toList with
    source_ip := some "192.168.1.10".toList
    help := fun _ => some ["   -S, --src=IP       set source address\n".toList] }

/-- The state in which the preparation leaves the example with a source IP:
one host `8.8.8.8`, 3 requests, interval 1000, size 56 and no timeout. -/
def example_prepared : PingState :=
  match ping_prepare example_world_source_ip example_cache
      [⟨"8.8.8.8".toList, 0, 0, 0, 0, 0, []⟩] 3 1000 56 0 [] 256 with
  | Except.ok s => s
  | Except.error s => s

/-- The example world with an fping whose IPv6 support probe (the command
with ` -6 `) fails, while every other probe prints the address of the host. -/
def example_world_no_ipv6_support : PingWorld :=
  { example_world "8.8.8.8 : xmt/rcv/%loss = 1/1/0%".toList with
    execute := fun cmd =>
      if (strstr cmd " -6 ".toList).isSome then ⟨ZbxResult.FAIL, [], []⟩
      else ⟨ZbxResult.SUCCEED, "8.8.8.8 : xmt/rcv/%loss = 1/1/0%".toList, []⟩ }

/-- The state that a preparation ends with, on either exit. -/
def prepared_state (r : Except PingState PingState) : PingState :=
  match r with
  | Except.ok s => s
  | Except.error s => s

/-- The example world with a source IP in which fping is missing and the
interval probes of fping6 time out. -/
def example_world_fping_missing_timeout : PingWorld :=
  { example_world_source_ip with
    fping_executable := false
    execute := fun _ => ⟨ZbxResult.TIMEOUT_ERROR, [], []⟩ }

/-- The example world with a source IP in which fping is missing. -/
def example_world_fping_missing : PingWorld :=
  { example_world_source_ip with fping_executable := false }

/-- The example world one minute later, after fping has been removed; the
buffer for the command line comes from `zbx_malloc` with the contents
`(uninitialised)`. -/
def example_world_fping_removed : PingWorld :=
  { example_world "8.8.8.8 : xmt/rcv/%loss = 1/1/0%".toList with
    now := 100060
    fping_executable := false
    linebuf_init := "(uninitialised)".toList }

/-- The example world with an fping that answers the probes of `7.7.7.7` with
the intervals 0 and 1 by the first line of its usage text, times out on the
probe of `7.7.7.7` with the interval 10, and prints the address for every
other probe. -/
def example_world_timeout_at_10 : PingWorld :=
  { example_world [] with
    execute := fun cmd =>
      if (strstr cmd "-i10 7.7.7.7".toList).isSome then ⟨ZbxResult.TIMEOUT_ERROR, [], []⟩
      else if (strstr cmd "7.7.7.7".toList).isSome then
        ⟨ZbxResult.SUCCEED, "Usage: fping [options] [targets...]\n".toList, []⟩
      else ⟨ZbxResult.SUCCEED, "8.8.8.8 : xmt/rcv/%loss = 1/1/0%".toList, []⟩ }

/-- A line of a help text offers the option with the given letter: after its
leading white space it starts with `-`, the letter, and a white space
character or a comma. -/
def OffersOption (letter : Char) (l : List Char) : Prop :=
  ∃ (ws rest : List Char) (c : Char),
    l = ws ++ '-' :: letter :: c :: rest ∧ (∀ x ∈ ws, isspace x = true) ∧
      (isspace c = true ∨ c = ',')

/-- The example world with a source IP whose fping prints a help text without
`-I` and `-S`, two hours after the last reset of the detected options. -/
def example_world_no_flag : PingWorld :=
  { example_world_source_ip with
    now := 107200
    help := fun _ => some ["Usage: fping [options] [targets...]\n".toList,
      "   -c, --count=N      count mode (send N pings to each target)\n".toList] }

/-- The iterations of the `do ... while` loop of `process_fping_statistics`, in
order: for each one the `response_idx` with which `host->status` is read and
the text `linebuf_p` points at.  The arguments are those of
`fping_statistics_loop`. -/
def fping_statistics_trace : Nat → Nat → List Char → List (Nat × List Char)
  | 0, response_idx, linebuf_p => [(response_idx, linebuf_p)]
  | more + 1, response_idx, linebuf_p =>
    (response_idx, linebuf_p) ::
      match strchr (linebuf_p.drop 1) ' ' with
      | none => []
      | some off => fping_statistics_trace more (response_idx + 1) ((linebuf_p.drop 1).drop off)

/-- The acknowledgment line that fping prints for the request `idx` of the
host `addr`: `<addr> : [<idx>]<rest>`. -/
def ack_line (addr : List Char) (idx : Nat) (rest : List Char) : List Char :=
  addr ++ (" : ".toList ++ ('[' :: (indexText (idx : Int) ++ ']' :: rest)))

/-- The summary line of the host `addr` with the given tokens:
`<addr> : <token> <token> ...`. -/
def summary_line (addr : List Char) (tokens : List (List Char)) : List Char :=
  addr ++ (" : ".toList ++ joinTokens tokens)

/-- A line without redirect marker, without `"duplicate for"` and without a
line feed inside. -/
def PlainLine (l : List Char) : Prop :=
  ¬ redirect_marker <:+: l ∧ ¬ "duplicate for".toList <:+: l ∧ '\n' ∉ l

/-- The output of two passes for one host, as `zbx_fgets` delivers it: the
acknowledgment lines and the summary line of the first pass, then those of the
second pass, each line ending with a line feed.  An acknowledgment is given by
its index and the text behind the `]`. -/
def two_pass_output (addr : List Char) (acks1 : List (Nat × List Char))
    (tokens1 : List (List Char)) (acks2 : List (Nat × List Char))
    (tokens2 : List (List Char)) : List (List Char) :=
  (acks1.map (fun a => ack_line addr a.1 a.2) ++ [summary_line addr tokens1] ++
    acks2.map (fun a => ack_line addr a.1 a.2) ++ [summary_line addr tokens2]).map
    (fun l => l ++ ['\n'])

theorem strchr_eq_none_iff (s : List Char) (ch : Char) : strchr s ch = none ↔ ch ∉ s := by
  induction s with
  | nil => simp [strchr]
  | cons c cs ih =>
    by_cases h : c = ch
    · simp [strchr, h]
    · have h2 : ¬ ch = c := fun e => h e.symm
      simp [strchr, h, h2, ih]

theorem strchr_append_of_not_mem (t r : List Char) (ch : Char) (h : ch ∉ t) :
    strchr (t ++ ch :: r) ch = some t.length := by
  induction t with
  | nil => simp [strchr]
  | cons c cs ih =>
    have hc : ¬ c = ch := fun e => h (by simp [e])
    have hcs : ch ∉ cs := fun m => h (by simp [m])
    simp [strchr, hc, ih hcs]

theorem strchr_some_split (s : List Char) (ch : Char) (off : Nat)
    (h : strchr s ch = some off) :
    s = s.take off ++ ch :: s.drop (off + 1) ∧ ch ∉ s.take off := by
  induction s generalizing off with
  | nil => simp [strchr] at h
  | cons c cs ih =>
    by_cases hc : c = ch
    · simp [strchr, hc] at h
      subst h; simp [hc]
    · simp only [strchr, beq_iff_eq, hc, if_false, Option.map_eq_some'] at h
      obtain ⟨o, ho, rfl⟩ := h
      obtain ⟨h1, h2⟩ := ih o ho
      refine ⟨?_, ?_⟩
      · simp only [List.take_succ_cons, List.drop_succ_cons, List.cons_append]
        rw [← h1]
      · simp only [List.take_succ_cons, List.mem_cons, not_or]
        exact ⟨fun e => hc e.symm, h2⟩

theorem strstr_eq_none_iff (hay needle : List Char) :
    strstr hay needle = none ↔ ¬ needle <:+: hay := by
  induction hay with
  | nil =>
    cases needle <;> simp [strstr]
  | cons c cs ih =>
    by_cases h : needle.isPrefixOf (c :: cs)
    · have h2 : needle <+: c :: cs := List.isPrefixOf_iff_prefix.mp h
      simp [strstr, h, h2.isInfix]
    · have h2 : ¬ needle <+: c :: cs := fun p => h (List.isPrefixOf_iff_prefix.mpr p)
      simp only [strstr, h, Bool.false_eq_true, if_false, Option.map_eq_none', ih,
        List.infix_cons_iff, not_or]
      tauto

theorem strstr_some_split (hay needle : List Char) (off : Nat)
    (h : strstr hay needle = some off) :
    hay = hay.take off ++ needle ++ hay.drop (off + needle.length) := by
  induction hay generalizing off with
  | nil =>
    cases needle with
    | nil => simp
    | cons a as => simp [strstr] at h
  | cons c cs ih =>
    by_cases hp : needle.isPrefixOf (c :: cs)
    · simp only [strstr, hp, if_true, Option.some.injEq] at h
      subst h
      obtain ⟨t, ht⟩ := List.isPrefixOf_iff_prefix.mp hp
      rw [← ht]; simp
    · simp only [strstr, hp, Bool.false_eq_true, if_false, Option.map_eq_some'] at h
      obtain ⟨o, ho, rfl⟩ := h
      have := ih o ho
      simp only [List.take_succ_cons, List.cons_append, List.append_assoc]
      rw [show o + 1 + needle.length = (o + needle.length) + 1 by omega, List.drop_succ_cons]
      congr 1
      simpa using this

/-! ## The number readers stop at a space -/

theorem takeWhile_isdigit_append_space (t r : List Char) :
    (t ++ ' ' :: r).takeWhile isdigit = t.takeWhile isdigit := by
  induction t with
  | nil => simp [List.takeWhile, isdigit]
  | cons c cs ih => simp [List.takeWhile_cons, ih]

theorem dropWhile_isdigit_append_space (t r : List Char) :
    (t ++ ' ' :: r).dropWhile isdigit = t.dropWhile isdigit ++ ' ' :: r := by
  induction t with
  | nil => simp [List.dropWhile, isdigit]
  | cons c cs ih =>
    by_cases h : isdigit c = true
    · simp [List.dropWhile_cons, h, ih]
    · simp [List.dropWhile_cons, h]

theorem leadingDigits_append_space (t r : List Char) :
    leadingDigits (t ++ ' ' :: r) = leadingDigits t := by
  simp [leadingDigits, takeWhile_isdigit_append_space]

theorem atofExponent_append_space (t r : List Char) :
    atofExponent (t ++ ' ' :: r) = atofExponent t := by
  cases t with
  | nil => simp [atofExponent, leadingDigits, isdigit, digitsVal]
  | cons c cs =>
    have h := leadingDigits_append_space (c :: cs) r
    simp only [List.cons_append] at h
    simp [atofExponent, leadingDigits_append_space, h]

theorem atofFraction_append_space (t r : List Char) :
    atofFraction (t ++ ' ' :: r) = atofFraction t := by
  cases t with
  | nil => simp [atofFraction]
  | cons c cs => simp [atofFraction, takeWhile_isdigit_append_space]

theorem atofAfterFraction_append_space (t r : List Char) :
    atofAfterFraction (t ++ ' ' :: r) = atofAfterFraction t ++ ' ' :: r := by
  cases t with
  | nil => simp [atofAfterFraction]
  | cons c cs =>
    by_cases h : c = '.'
    · simp [atofAfterFraction, h, dropWhile_isdigit_append_space]
    · simp [atofAfterFraction, h]

theorem atofExponentPart_append_space (t r : List Char) :
    atofExponentPart (t ++ ' ' :: r) = atofExponentPart t := by
  cases t with
  | nil => simp [atofExponentPart]
  | cons c cs => simp [atofExponentPart, atofExponent_append_space]

theorem atofUnsigned_append_space (t r : List Char) :
    atofUnsigned (t ++ ' ' :: r) = atofUnsigned t := by
  simp only [atofUnsigned, takeWhile_isdigit_append_space, dropWhile_isdigit_append_space,
    atofFraction_append_space, atofAfterFraction_append_space, atofExponentPart_append_space]

theorem atof_cons_space (s : List Char) : atof (' ' :: s) = atof s := by
  simp [atof, isspace]

/-- A non-empty token without white space is read by `atof` without looking
at what follows the space behind it. -/
theorem atof_token_append_space (t r : List Char) (hne : t ≠ [])
    (hws : ∀ c ∈ t, isspace c = false) : atof (t ++ ' ' :: r) = atof t := by
  cases t with
  | nil => exact absurd rfl hne
  | cons c cs =>
    have hc : isspace c = false := hws c (by simp)
    have h := atofUnsigned_append_space (c :: cs) r
    simp only [List.cons_append] at h
    simp [atof, List.dropWhile_cons, hc, atofUnsigned_append_space, h]

/-! ## The loop over the tokens of a summary line -/

theorem joinTokens_cons_cons (t t2 : List Char) (ts : List (List Char)) :
    joinTokens (t :: t2 :: ts) = t ++ ' ' :: joinTokens (t2 :: ts) := by
  simp [joinTokens, List.intercalate, List.intersperse]

theorem joinTokens_singleton (t : List Char) : joinTokens [t] = t := by
  simp [joinTokens, List.intercalate, List.intersperse]

theorem fping_fold_sec_status (host : ZBX_FPING_HOST) (sec : ℚ) :
    (fping_fold_sec host sec).status = host.status := rfl

theorem fping_statistics_sample_status (host : ZBX_FPING_HOST) (p : List Char) (idx : Nat) :
    (fping_statistics_sample host p idx).status = host.status := by
  unfold fping_statistics_sample
  split <;> rfl

theorem space_not_mem_of_token (t : List Char) (h : ∀ c ∈ t, isspace c = false) :
    ' ' ∉ t := by
  intro hm
  have := h ' ' hm
  simp [isspace] at this

/-- On a text made of as many tokens as bitmap entries remain, the loop folds
exactly the latencies of the tokens whose entry is set. -/
theorem fping_statistics_loop_tokens (toks : List (List Char)) :
    ∀ (idx : Nat) (host : ZBX_FPING_HOST) (pre : List Char),
      (pre = [] ∨ pre = [' ']) → toks ≠ [] →
      toks.length = (host.status.drop idx).length →
      (∀ t ∈ toks, IsToken t) →
      fping_statistics_loop (toks.length - 1) idx (pre ++ joinTokens toks) host =
        (sampleSeconds (host.status.drop idx) toks).foldl fping_fold_sec host := by
  induction toks with
  | nil => intro idx host pre _ h; exact absurd rfl h
  | cons t ts ih =>
    intro idx host pre hpre _ hlen htok
    have ht : IsToken t := htok t (by simp)
    obtain ⟨b, bs, hbs⟩ : ∃ b bs, host.status.drop idx = b :: bs := by
      cases h : host.status.drop idx with
      | nil => rw [h] at hlen; simp at hlen
      | cons b bs => exact ⟨b, bs, rfl⟩
    have hget : host.status.getD idx false = b := by
      have := congrArg List.head? hbs
      simp only [List.head?_drop, List.head?_cons] at this
      simp [List.getD, this]
    cases ts with
    | nil =>
      have hat : atof (pre ++ t) = atof t := by
        rcases hpre with rfl | rfl
        · simp
        · simp [atof_cons_space]
      have hbs2 : bs = [] := by
        rw [hbs] at hlen
        simpa using hlen.symm
      subst hbs2
      simp only [List.length_singleton, Nat.sub_self, fping_statistics_loop,
        joinTokens_singleton, fping_statistics_sample, hget, hbs, hat]
      cases b <;> simp [sampleSeconds]
    | cons t2 ts2 =>
      have hat : atof (pre ++ (t ++ ' ' :: joinTokens (t2 :: ts2))) = atof t := by
        rcases hpre with rfl | rfl
        · simpa using atof_token_append_space t _ ht.1 ht.2
        · simpa [atof_cons_space] using atof_token_append_space t _ ht.1 ht.2
      obtain ⟨u, hu, hdrop⟩ : ∃ u, ' ' ∉ u ∧
          (pre ++ (t ++ ' ' :: joinTokens (t2 :: ts2))).drop 1 =
            u ++ ' ' :: joinTokens (t2 :: ts2) := by
        rcases hpre with rfl | rfl
        · cases t with
          | nil => exact absurd rfl ht.1
          | cons c cs =>
            refine ⟨cs, ?_, by simp⟩
            intro hm
            exact space_not_mem_of_token (c :: cs) ht.2 (by simp [hm])
        · exact ⟨t, space_not_mem_of_token t ht.2, by simp⟩
      have hstat := fping_statistics_sample_status host
        (pre ++ (t ++ ' ' :: joinTokens (t2 :: ts2))) idx
      have hrec := ih (idx + 1)
        (fping_statistics_sample host (pre ++ (t ++ ' ' :: joinTokens (t2 :: ts2))) idx)
        [' '] (Or.inr rfl) (by simp)
        (by
          rw [hstat]
          have : host.status.drop (idx + 1) = bs := by
            have := congrArg List.tail hbs
            simpa [List.tail_drop] using this
          rw [this]; rw [hbs] at hlen; simpa using hlen)
        (fun x hx => htok x (by simp [hx]))
      have hbs1 : host.status.drop (idx + 1) = bs := by
        have := congrArg List.tail hbs
        simpa [List.tail_drop] using this
      rw [hstat, hbs1] at hrec
      simp only [List.length_cons, Nat.add_sub_cancel, joinTokens_cons_cons,
        fping_statistics_loop, hdrop, strchr_append_of_not_mem _ _ _ hu,
        List.drop_left, hbs]
      simp only [List.length_cons, Nat.add_sub_cancel, List.singleton_append] at hrec
      rw [hrec]
      simp only [fping_statistics_sample, hget, hat]
      cases b <;> simp [sampleSeconds]

/-! ## Folding latencies into the statistics -/

theorem foldl_fping_fold_sec_rcv (secs : List ℚ) (host : ZBX_FPING_HOST) :
    (secs.foldl fping_fold_sec host).rcv = host.rcv + secs.length := by
  induction secs generalizing host with
  | nil => simp
  | cons s ss ih => simp [ih, fping_fold_sec]; omega

theorem foldl_fping_fold_sec_cnt (secs : List ℚ) (host : ZBX_FPING_HOST) :
    (secs.foldl fping_fold_sec host).cnt = host.cnt := by
  induction secs generalizing host with
  | nil => simp
  | cons s ss ih => simp [ih, fping_fold_sec]

theorem foldl_fping_fold_sec_status (secs : List ℚ) (host : ZBX_FPING_HOST) :
    (secs.foldl fping_fold_sec host).status = host.status := by
  induction secs generalizing host with
  | nil => simp
  | cons s ss ih => simp [ih, fping_fold_sec]

theorem foldl_fping_fold_sec_addr (secs : List ℚ) (host : ZBX_FPING_HOST) :
    (secs.foldl fping_fold_sec host).addr = host.addr := by
  induction secs generalizing host with
  | nil => simp
  | cons s ss ih => simp [ih, fping_fold_sec]

theorem sampleSeconds_length (bs : List Bool) :
    ∀ ts : List (List Char), bs.length = ts.length →
      (sampleSeconds bs ts).length = bs.count true := by
  induction bs with
  | nil => intro ts _; simp [sampleSeconds]
  | cons b bs ih =>
    intro ts h
    cases ts with
    | nil => simp at h
    | cons t ts =>
      have := ih ts (by simpa using h)
      cases b <;> simp [sampleSeconds, this]

theorem process_fping_statistics_stats (env : ParseEnv) (host : ZBX_FPING_HOST)
    (p : List Char) (N : Nat) :
    (process_fping_statistics env host p N).rcv =
        (fping_statistics_loop (N - 1) 0 p host).rcv ∧
      (process_fping_statistics env host p N).sum =
        (fping_statistics_loop (N - 1) 0 p host).sum ∧
      (process_fping_statistics env host p N).min =
        (fping_statistics_loop (N - 1) 0 p host).min ∧
      (process_fping_statistics env host p N).max =
        (fping_statistics_loop (N - 1) 0 p host).max ∧
      (process_fping_statistics env host p N).cnt =
        (fping_statistics_loop (N - 1) 0 p host).cnt + N ∧
      (process_fping_statistics env host p N).addr =
        (fping_statistics_loop (N - 1) 0 p host).addr := by
  unfold process_fping_statistics
  simp only
  split <;> simp

/-- On a summary text of exactly `N` tokens the loop of
`process_fping_statistics` folds the latencies of the set bitmap entries. -/
theorem fping_statistics_loop_summary (host : ZBX_FPING_HOST) (tokens : List (List Char))
    (N : Nat) (hN : 1 ≤ N) (hb : host.status.length = N) (ht : tokens.length = N)
    (htok : ∀ t ∈ tokens, IsToken t) :
    fping_statistics_loop (N - 1) 0 (joinTokens tokens) host =
      (sampleSeconds host.status tokens).foldl fping_fold_sec host := by
  have hne : tokens ≠ [] := by
    intro h; rw [h] at ht; simp at ht; omega
  have := fping_statistics_loop_tokens tokens 0 host [] (Or.inl rfl) hne
    (by simp [ht, hb]) htok
  simpa [ht] using this

/-! ## Redirected responses -/

theorem strstr_isSome_of_infix (hay needle : List Char) (h : needle <:+: hay) :
    ∃ off, strstr hay needle = some off := by
  cases hs : strstr hay needle with
  | none => exact absurd h ((strstr_eq_none_iff hay needle).mp hs)
  | some off => exact ⟨off, rfl⟩

/-- C2: a line with the redirect marker `" [<-"` leaves every host as it is
when redirects are not allowed or when no `']'` follows the marker (the first
one, which is the one `strstr` finds). -/
theorem process_fping_output_line_redirect_discarded (env : ParseEnv)
    (hosts : List ZBX_FPING_HOST) (N allow : Nat) (line : List Char)
    (hmark : redirect_marker <:+: line)
    (h : allow = 0 ∨
      ∀ off, strstr line redirect_marker = some off → ']' ∉ line.drop off) :
    process_fping_output_line env line hosts N allow = hosts := by
  obtain ⟨off, hoff⟩ := strstr_isSome_of_infix line redirect_marker hmark
  have hnone : process_fping_redirected_response line allow = none := by
    unfold process_fping_redirected_response
    rw [hoff]
    cases hc : strchr (line.drop off) ']' with
    | none => simp [hc]
    | some p_end =>
      rcases h with h | h
      · simp [h, hc]
      · have := (strchr_eq_none_iff (line.drop off) ']').mpr (h off hoff)
        rw [this] at hc
        exact absurd hc (by simp)
  unfold process_fping_output_line
  rw [hnone]

/-- C2, the example of the specification: the redirected acknowledgment of
`8.8.8.8` processed with redirects disallowed leaves `bitmap[0]` false. -/
theorem process_fping_output_line_redirect_discarded_witness :
    redirect_marker <:+:
        "8.8.8.8 : [0], 84 bytes, 0.61 ms (0.61 avg, 0% loss) [<- 192.168.1.2]".toList ∧
      process_fping_output_line example_env
        "8.8.8.8 : [0], 84 bytes, 0.61 ms (0.61 avg, 0% loss) [<- 192.168.1.2]".toList
        [⟨"8.8.8.8".toList, 0, 0, 0, 0, 0, [false]⟩] 1 0 =
        [⟨"8.8.8.8".toList, 0, 0, 0, 0, 0, [false]⟩] :=
  have hm : redirect_marker <:+:
      "8.8.8.8 : [0], 84 bytes, 0.61 ms (0.61 avg, 0% loss) [<- 192.168.1.2]".toList :=
    ⟨"8.8.8.8 : [0], 84 bytes, 0.61 ms (0.61 avg, 0% loss)".toList, " 192.168.1.2]".toList,
      by decide⟩
  ⟨hm, process_fping_output_line_redirect_discarded example_env _ 1 0 _ hm (Or.inl rfl)⟩

theorem process_fping_redirected_response_of_no_marker (l : List Char) (allow : Nat)
    (hl : ¬ redirect_marker <:+: l) :
    process_fping_redirected_response l allow = some l := by
  unfold process_fping_redirected_response
  rw [(strstr_eq_none_iff l redirect_marker).mpr hl]

theorem strchr_take_eq_takeWhile (s : List Char) (ch : Char) (off : Nat)
    (h : strchr s ch = some off) : s.take off = s.takeWhile (fun c => c != ch) := by
  induction s generalizing off with
  | nil => simp [strchr] at h
  | cons c cs ih =>
    by_cases hc : c = ch
    · simp [strchr, hc] at h
      subst h
      simp [hc]
    · simp only [strchr, beq_iff_eq, hc, if_false, Option.map_eq_some'] at h
      obtain ⟨o, ho, rfl⟩ := h
      simp [List.takeWhile_cons, hc, ih o ho]

theorem find_host_eq_none (token : List Char) (hosts : List ZBX_FPING_HOST)
    (h : ∀ host ∈ hosts, host.addr ≠ token) : find_host token hosts = none := by
  induction hosts with
  | nil => rfl
  | cons x xs ih =>
    have hx : ¬ token = x.addr := fun e => h x (by simp) e.symm
    simp [find_host, hx, ih (fun y hy => h y (by simp [hy]))]

theorem space_mem_of_redirect_marker (line : List Char) (h : redirect_marker <:+: line) :
    ' ' ∈ line := by
  obtain ⟨s, t, rfl⟩ := h
  simp [redirect_marker]

/-- C4: a line without any space, or whose leading token (the text before the
first space of the line after redirect normalisation) is the address of no
host of the batch, leaves every host as it is. -/
theorem process_fping_output_line_unknown_address (env : ParseEnv)
    (hosts : List ZBX_FPING_HOST) (N allow : Nat) (line : List Char)
    (h : ' ' ∉ line ∨
      ∀ lb, process_fping_redirected_response line allow = some lb →
        ∀ host ∈ hosts, host.addr ≠ lb.takeWhile (fun c => c != ' ')) :
    process_fping_output_line env line hosts N allow = hosts := by
  unfold process_fping_output_line
  cases hr : process_fping_redirected_response line allow with
  | none => rfl
  | some lb =>
    have hv : validate_host_address_in_fping_output lb hosts = none := by
      unfold validate_host_address_in_fping_output
      cases hc : strchr lb ' ' with
      | none => rfl
      | some p_end =>
        rcases h with h | h
        · exfalso
          have hno : ¬ redirect_marker <:+: line :=
            fun hm => h (space_mem_of_redirect_marker line hm)
          rw [process_fping_redirected_response_of_no_marker line allow hno] at hr
          have hlb : lb = line := (Option.some.inj hr).symm
          rw [hlb, (strchr_eq_none_iff line ' ').mpr h] at hc
          exact absurd hc (by simp)
        · simp only
          rw [strchr_take_eq_takeWhile lb ' ' p_end hc]
          exact find_host_eq_none _ _ (h lb hr)
    simp only [hv]

/-- C4, an instance: an acknowledgment of `9.9.9.9` changes nothing in a batch
that only holds `8.8.8.8`. -/
theorem process_fping_output_line_unknown_address_witness :
    process_fping_output_line example_env
        "9.9.9.9 : [0], 64 bytes, 9.37 ms (9.37 avg, 0% loss)".toList
        [⟨"8.8.8.8".toList, 0, 0, 0, 0, 0, [false]⟩] 1 1 =
      [⟨"8.8.8.8".toList, 0, 0, 0, 0, 0, [false]⟩] :=
  process_fping_output_line_unknown_address example_env _ 1 1 _
    (Or.inr (by
      intro lb hlb host hhost
      have h1 : lb = "9.9.9.9 : [0], 64 bytes, 9.37 ms (9.37 avg, 0% loss)".toList :=
        (Option.some.inj hlb).symm
      simp only [List.mem_singleton] at hhost
      rw [h1, hhost]
      decide))

/-! ## Duplicate lines -/

/-- C5 as stated fails: with redirects allowed, the text `"duplicate for"`
inside the redirect marker is cut out before the line is examined, and the
line is processed as a summary line (sent grows from 0 to 1). -/
theorem process_fping_output_line_duplicate_counterexample :
    "duplicate for".toList <:+: "8.8.8.8 : 1.0 [<- duplicate for]".toList ∧
      process_fping_output_line example_env "8.8.8.8 : 1.0 [<- duplicate for]".toList
        [⟨"8.8.8.8".toList, 0, 0, 0, 0, 0, [false]⟩] 1 1 =
        [⟨"8.8.8.8".toList, 0, 0, 0, 0, 1, [false]⟩] ∧
      process_fping_output_line example_env "8.8.8.8 : 1.0 [<- duplicate for]".toList
        [⟨"8.8.8.8".toList, 0, 0, 0, 0, 0, [false]⟩] 1 1 ≠
        [⟨"8.8.8.8".toList, 0, 0, 0, 0, 0, [false]⟩] :=
  ⟨⟨"8.8.8.8 : 1.0 [<- ".toList, "]".toList, by decide⟩, by decide, by decide⟩

/-- C5, amended: a line whose text after redirect normalisation contains
`"duplicate for"` leaves every host as it is, whatever its address, its shape
and the value of `allow_redirect`. -/
theorem process_fping_output_line_duplicate (env : ParseEnv)
    (hosts : List ZBX_FPING_HOST) (N allow : Nat) (line : List Char)
    (h : ∀ lb, process_fping_redirected_response line allow = some lb →
      "duplicate for".toList <:+: lb) :
    process_fping_output_line env line hosts N allow = hosts := by
  unfold process_fping_output_line
  cases hr : process_fping_redirected_response line allow with
  | none => rfl
  | some lb =>
    obtain ⟨off, hoff⟩ := strstr_isSome_of_infix lb _ (h lb hr)
    simp only [hoff, Option.isSome_some, if_true]
    split
    · rfl
    · split
      · rfl
      · split <;> rfl

/-- C5, an instance: the duplicate line of the source comment changes nothing,
with the redirect marker of a redirected duplicate cut out or not. -/
theorem process_fping_output_line_duplicate_witness :
    process_fping_output_line example_env
        "8.8.8.8 : duplicate for [0], 96 bytes, 0.19 ms [<- 1.2.3.4]".toList
        [⟨"8.8.8.8".toList, 0, 0, 0, 0, 0, [false]⟩] 1 1 =
      [⟨"8.8.8.8".toList, 0, 0, 0, 0, 0, [false]⟩] :=
  process_fping_output_line_duplicate example_env _ 1 1 _
    (by
      intro lb hlb
      have h1 : lb = "8.8.8.8 : duplicate for [0], 96 bytes, 0.19 ms".toList :=
        (Option.some.inj hlb).symm
      rw [h1]
      exact ⟨"8.8.8.8 : ".toList, " [0], 96 bytes, 0.19 ms".toList, by decide⟩)

/-! ## Per-packet acknowledgments -/

theorem indexText_eq_toString (idx : Int) : indexText idx = (toString idx).toList := by
  cases idx <;> rfl

theorem digitChar_isdigit (k : Nat) (h : k < 10) :
    isdigit (Nat.digitChar k) = true ∧ digitVal (Nat.digitChar k) = k := by
  interval_cases k <;> exact ⟨by decide, by decide⟩

theorem foldl_digits (ds : List Char) (a : Nat) :
    ds.foldl (fun acc c => 10 * acc + digitVal c) a = a * 10 ^ ds.length + digitsVal ds := by
  induction ds generalizing a with
  | nil => simp [digitsVal]
  | cons d ds ih =>
    simp only [List.foldl_cons, digitsVal, List.length_cons]
    rw [ih, ih (10 * 0 + digitVal d)]
    ring

theorem digitsVal_cons (d : Char) (ds : List Char) :
    digitsVal (d :: ds) = digitVal d * 10 ^ ds.length + digitsVal ds := by
  simp only [digitsVal, List.foldl_cons]
  rw [foldl_digits]
  simp [digitsVal]

/-- The digits that `Nat.toDigitsCore` puts in front of `ds` are decimal digits
and denote `n`. -/
theorem toDigitsCore_spec (fuel : Nat) :
    ∀ (n : Nat) (ds : List Char), n < fuel → (∀ c ∈ ds, isdigit c = true) →
      (∀ c ∈ Nat.toDigitsCore 10 fuel n ds, isdigit c = true) ∧
      Nat.toDigitsCore 10 fuel n ds ≠ [] ∧
      digitsVal (Nat.toDigitsCore 10 fuel n ds) = n * 10 ^ ds.length + digitsVal ds := by
  induction fuel with
  | zero => intro n ds h; omega
  | succ fuel ih =>
    intro n ds hn hds
    have hd := digitChar_isdigit (n % 10) (Nat.mod_lt _ (by decide))
    have hds2 : ∀ c ∈ Nat.digitChar (n % 10) :: ds, isdigit c = true := by
      intro c hc
      rcases List.mem_cons.mp hc with rfl | hc
      · exact hd.1
      · exact hds c hc
    simp only [Nat.toDigitsCore]
    by_cases h0 : n / 10 = 0
    · simp only [h0, if_true]
      refine ⟨hds2, by simp, ?_⟩
      rw [digitsVal_cons, hd.2]
      have : n % 10 = n := Nat.mod_eq_of_lt (by omega)
      rw [this]
    · simp only [h0, if_false]
      obtain ⟨h1, h2, h3⟩ := ih (n / 10) (Nat.digitChar (n % 10) :: ds) (by omega) hds2
      refine ⟨h1, h2, ?_⟩
      rw [h3, digitsVal_cons, hd.2, List.length_cons, pow_succ]
      have hn10 : n = 10 * (n / 10) + n % 10 := (Nat.div_add_mod n 10).symm
      generalize n / 10 = q at hn10 ⊢
      generalize n % 10 = m at hn10 ⊢
      subst hn10
      ring

theorem toDigits_spec (n : Nat) :
    (∀ c ∈ Nat.toDigits 10 n, isdigit c = true) ∧ Nat.toDigits 10 n ≠ [] ∧
      digitsVal (Nat.toDigits 10 n) = n := by
  have := toDigitsCore_spec (n + 1) n [] (by omega) (by simp)
  simpa [Nat.toDigits, digitsVal] using this

theorem takeWhile_isdigit_digits (ds rest : List Char) (c : Char)
    (hds : ∀ d ∈ ds, isdigit d = true) (hc : isdigit c = false) :
    (ds ++ c :: rest).takeWhile isdigit = ds := by
  induction ds with
  | nil => simp [List.takeWhile_cons, hc]
  | cons d ds ih =>
    have hd : isdigit d = true := hds d (by simp)
    simp [List.takeWhile_cons, hd, ih (fun x hx => hds x (by simp [hx]))]

theorem leadingDigits_toDigits (n : Nat) (rest : List Char) :
    leadingDigits (Nat.toDigits 10 n ++ ']' :: rest) = n := by
  obtain ⟨h1, _, h3⟩ := toDigits_spec n
  rw [leadingDigits, takeWhile_isdigit_digits _ _ _ h1 (by decide), h3]

theorem isdigit_props (c : Char) (h : isdigit c = true) :
    isspace c = false ∧ c ≠ '-' ∧ c ≠ '+' ∧ c ≠ ' ' := by
  refine ⟨?_, ?_, ?_, ?_⟩
  · cases hs : isspace c with
    | false => rfl
    | true =>
      simp only [isspace, Bool.or_eq_true, beq_iff_eq] at hs
      rcases hs with ((((rfl | rfl) | rfl) | rfl) | rfl) | rfl <;> simp [isdigit] at h
  · rintro rfl; simp [isdigit] at h
  · rintro rfl; simp [isdigit] at h
  · rintro rfl; simp [isdigit] at h

/-- The function `atoi` reads back the index that is printed between the brackets. -/
theorem atoi_indexText (idx : Int) (rest : List Char) :
    atoi (indexText idx ++ ']' :: rest) = idx := by
  cases idx with
  | ofNat n =>
    obtain ⟨h1, h2, _⟩ := toDigits_spec n
    have hl := leadingDigits_toDigits n rest
    cases hd : Nat.toDigits 10 n with
    | nil => exact absurd hd h2
    | cons c cs =>
      rw [hd] at hl
      obtain ⟨p1, p2, p3, _⟩ := isdigit_props c (h1 c (by simp [hd]))
      simp only [List.cons_append] at hl
      simp [atoi, indexText, hd, List.dropWhile_cons, p1, p2, p3, hl]
  | negSucc n =>
    have hl := leadingDigits_toDigits (n + 1) rest
    simp [atoi, indexText, List.dropWhile_cons, isspace, hl, Int.negSucc_eq]

/-- A needle that starts with a space is not found inside a text without
spaces: the search goes on behind that text. -/
theorem strstr_isSome_skip (u v needle : List Char) (hu : ' ' ∉ u) :
    (strstr (u ++ v) (' ' :: needle)).isSome = (strstr v (' ' :: needle)).isSome := by
  induction u with
  | nil => rfl
  | cons c cs ih =>
    have hc : ¬ ' ' = c := fun e => hu (by subst e; exact List.mem_cons_self _ _)
    have hcs : ' ' ∉ cs := fun m => hu (by simp [m])
    simp [strstr, List.isPrefixOf, hc, ih hcs]

theorem strstr_isSome_iff (hay needle : List Char) :
    (strstr hay needle).isSome = true ↔ needle <:+: hay := by
  cases h : strstr hay needle with
  | none =>
    have := (strstr_eq_none_iff hay needle).mp h
    simp [this]
  | some off =>
    have : ¬ strstr hay needle = none := by simp [h]
    have := (not_iff_not.mpr (strstr_eq_none_iff hay needle)).mp this
    simp [not_not.mp this]

theorem indexText_tail_no_space (idx : Int) : ' ' ∉ (indexText idx).tail ++ [']'] := by
  have key : ∀ n : Nat, ∀ c ∈ Nat.toDigits 10 n, c ≠ ' ' := fun n c hc =>
    (isdigit_props c ((toDigits_spec n).1 c hc)).2.2.2
  intro hm
  rcases List.mem_append.mp hm with hm | hm
  · cases idx with
    | ofNat n => exact key n ' ' (List.mem_of_mem_tail hm) rfl
    | negSucc n => exact key (n + 1) ' ' (by simpa [indexText] using hm) rfl
  · simp at hm

theorem indexText_ne_nil (idx : Int) : indexText idx ≠ [] := by
  cases idx with
  | ofNat n => exact (toDigits_spec n).2.1
  | negSucc n => simp [indexText]

/-- The two tests of `process_response_to_individual_fping_request` on an
acknowledgment text `[<idx>]<rest>`. -/
theorem process_response_to_individual_fping_request_text (host : ZBX_FPING_HOST)
    (idx : Int) (rest : List Char) (N : Nat) :
    process_response_to_individual_fping_request host
        ('[' :: (indexText idx ++ ']' :: rest)) N =
      if 0 ≤ idx ∧ idx < (N : Int) ∧ ¬ " timed out ".toList <:+: rest then
        { host with status := host.status.set idx.toNat true }
      else host := by
  have hat : atoi (List.drop 1 ('[' :: (indexText idx ++ ']' :: rest))) = idx := by
    simpa using atoi_indexText idx rest
  have hto : (strstr (List.drop 2 ('[' :: (indexText idx ++ ']' :: rest)))
      " timed out ".toList).isSome = true ↔ " timed out ".toList <:+: rest := by
    have hd : List.drop 2 ('[' :: (indexText idx ++ ']' :: rest)) =
        ((indexText idx).tail ++ [']']) ++ rest := by
      cases h : indexText idx with
      | nil => exact absurd h (indexText_ne_nil idx)
      | cons c cs => simp
    rw [hd]
    have := strstr_isSome_skip ((indexText idx).tail ++ [']']) rest "timed out ".toList
      (indexText_tail_no_space idx)
    rw [show " timed out ".toList = ' ' :: "timed out ".toList from rfl, this]
    exact strstr_isSome_iff _ _
  unfold process_response_to_individual_fping_request
  simp only [hat]
  by_cases h1 : 0 > idx ∨ idx ≥ (N : Int)
  · have : ¬ (0 ≤ idx ∧ idx < (N : Int) ∧ ¬ " timed out ".toList <:+: rest) := by
      rintro ⟨a, b, _⟩
      rcases h1 with h1 | h1 <;> omega
    rw [if_pos h1, if_neg this]
  · have h2 : 0 ≤ idx ∧ idx < (N : Int) :=
      ⟨not_lt.mp (fun h => h1 (Or.inl h)), not_le.mp (fun h => h1 (Or.inr h))⟩
    rw [if_neg h1]
    by_cases h3 : " timed out ".toList <:+: rest
    · rw [if_pos (hto.mpr h3), if_neg (fun h => h.2.2 h3)]
    · rw [if_neg (fun h => h3 (hto.mp h)), if_pos ⟨h2.1, h2.2, h3⟩]

/-- Whatever the text, `process_response_to_individual_fping_request` either
leaves the host as it is or sets one bitmap entry below `requests_count`. -/
theorem process_response_to_individual_fping_request_range (host : ZBX_FPING_HOST)
    (p : List Char) (N : Nat) :
    process_response_to_individual_fping_request host p N = host ∨
      ∃ k, k < N ∧ process_response_to_individual_fping_request host p N =
        { host with status := host.status.set k true } := by
  unfold process_response_to_individual_fping_request
  simp only
  split
  · exact Or.inl rfl
  · rename_i h
    split
    · exact Or.inl rfl
    · refine Or.inr ⟨(atoi (List.drop 1 p)).toNat, ?_, rfl⟩
      omega

theorem strstr_cons (c : Char) (cs needle : List Char) :
    strstr (c :: cs) needle =
      if needle.isPrefixOf (c :: cs) then some 0 else (strstr cs needle).map (· + 1) := rfl

theorem strstr_skip (u v needle : List Char) (hu : ' ' ∉ u) :
    strstr (u ++ v) (' ' :: needle) = (strstr v (' ' :: needle)).map (· + u.length) := by
  induction u with
  | nil => simp
  | cons c cs ih =>
    have hc : ¬ ' ' = c := fun e => hu (by subst e; exact List.mem_cons_self _ _)
    have hcs : ' ' ∉ cs := fun m => hu (by simp [m])
    have hp : (' ' :: needle).isPrefixOf (c :: (cs ++ v)) = false := by
      simp [List.isPrefixOf, hc]
    rw [List.cons_append, strstr_cons, hp, ih hcs]
    cases strstr v (' ' :: needle) with
    | none => rfl
    | some o => simp [Nat.add_assoc]

theorem fping_statistics_sample_frame (host : ZBX_FPING_HOST) (p : List Char) (idx : Nat) :
    (fping_statistics_sample host p idx).cnt = host.cnt ∧
      (fping_statistics_sample host p idx).addr = host.addr ∧
      host.rcv ≤ (fping_statistics_sample host p idx).rcv ∧
      (fping_statistics_sample host p idx).rcv ≤ host.rcv + 1 := by
  unfold fping_statistics_sample
  split
  · simp [fping_fold_sec]
  · simp

theorem fping_statistics_loop_frame (more : Nat) :
    ∀ (idx : Nat) (p : List Char) (host : ZBX_FPING_HOST),
      (fping_statistics_loop more idx p host).cnt = host.cnt ∧
        (fping_statistics_loop more idx p host).addr = host.addr ∧
        (fping_statistics_loop more idx p host).status = host.status ∧
        host.rcv ≤ (fping_statistics_loop more idx p host).rcv ∧
        (fping_statistics_loop more idx p host).rcv ≤ host.rcv + (more + 1) := by
  induction more with
  | zero =>
    intro idx p host
    obtain ⟨h1, h2, h3, h4⟩ := fping_statistics_sample_frame host p idx
    exact ⟨h1, h2, fping_statistics_sample_status host p idx, h3, h4⟩
  | succ more ih =>
    intro idx p host
    obtain ⟨h1, h2, h3, h4⟩ := fping_statistics_sample_frame host p idx
    have hs := fping_statistics_sample_status host p idx
    simp only [fping_statistics_loop]
    cases strchr (List.drop 1 p) ' ' with
    | none => exact ⟨h1, h2, hs, h3, by dsimp only; omega⟩
    | some off =>
      dsimp only
      obtain ⟨g1, g2, g3, g4, g5⟩ := ih (idx + 1) (List.drop off (List.drop 1 p))
        (fping_statistics_sample host p idx)
      exact ⟨g1.trans h1, g2.trans h2, g3.trans hs, le_trans h3 g4, by omega⟩

theorem process_fping_statistics_frame (env : ParseEnv) (host : ZBX_FPING_HOST)
    (p : List Char) (N : Nat) :
    (process_fping_statistics env host p N).cnt = host.cnt + N ∧
      (process_fping_statistics env host p N).addr = host.addr ∧
      host.rcv ≤ (process_fping_statistics env host p N).rcv ∧
      (process_fping_statistics env host p N).rcv ≤ host.rcv + (N - 1 + 1) := by
  obtain ⟨h1, _, _, _, h5, h6⟩ := process_fping_statistics_stats env host p N
  obtain ⟨g1, g2, _, g4, g5⟩ := fping_statistics_loop_frame (N - 1) 0 p host
  rw [h1, h5, h6, g1, g2]
  exact ⟨rfl, rfl, g4, g5⟩

theorem process_response_to_individual_fping_request_frame (host : ZBX_FPING_HOST)
    (p : List Char) (N : Nat) :
    (process_response_to_individual_fping_request host p N).cnt = host.cnt ∧
      (process_response_to_individual_fping_request host p N).addr = host.addr ∧
      (process_response_to_individual_fping_request host p N).rcv = host.rcv ∧
      (process_response_to_individual_fping_request host p N).sum = host.sum ∧
      (process_response_to_individual_fping_request host p N).min = host.min ∧
      (process_response_to_individual_fping_request host p N).max = host.max := by
  rcases process_response_to_individual_fping_request_range host p N with h | ⟨k, _, h⟩ <;>
    rw [h] <;> simp

/-- What `process_fping_output_line` does to the host array: nothing, or one
host is replaced by the result of the acknowledgment function, or one host is
replaced by the result of `process_fping_statistics` on the text behind the
first `" : "` of the normalised line. -/
theorem process_fping_output_line_cases (env : ParseEnv) (line : List Char)
    (hosts : List ZBX_FPING_HOST) (N allow : Nat) :
    process_fping_output_line env line hosts N allow = hosts ∨
      (∃ i host p, hosts.get? i = some host ∧
        process_fping_output_line env line hosts N allow =
          hosts.set i (process_response_to_individual_fping_request host p N)) ∨
      (∃ i host lb off, hosts.get? i = some host ∧
        process_fping_redirected_response line allow = some lb ∧
        strstr lb " : ".toList = some off ∧
        (lb.drop (off + 3)).head? ≠ some '[' ∧
        process_fping_output_line env line hosts N allow =
          hosts.set i (process_fping_statistics env host (lb.drop (off + 3)) N)) := by
  unfold process_fping_output_line
  cases hr : process_fping_redirected_response line allow with
  | none => exact Or.inl rfl
  | some lb =>
    dsimp only
    cases hv : validate_host_address_in_fping_output lb hosts with
    | none => exact Or.inl rfl
    | some i =>
      dsimp only
      cases hh : hosts.get? i with
      | none => exact Or.inl rfl
      | some host =>
        dsimp only
        cases hs : strstr lb " : ".toList with
        | none => exact Or.inl rfl
        | some off =>
          dsimp only
          split
          · exact Or.inl rfl
          · split
            · exact Or.inr (Or.inl ⟨i, host, _, hh, rfl⟩)
            · rename_i hb
              exact Or.inr (Or.inr ⟨i, host, lb, off, hh, rfl, hs, hb, rfl⟩)

/-! ## Received never exceeds sent -/

theorem process_fping_output_line_rcv_le_cnt (env : ParseEnv) (line : List Char)
    (hosts : List ZBX_FPING_HOST) (N allow : Nat) (hN : 1 ≤ N)
    (hinv : ∀ h ∈ hosts, h.rcv ≤ h.cnt) :
    ∀ h ∈ process_fping_output_line env line hosts N allow, h.rcv ≤ h.cnt := by
  rcases process_fping_output_line_cases env line hosts N allow with
    he | ⟨i, host, p, hh, he⟩ | ⟨i, host, lb, off, hh, _, _, _, he⟩
  · rw [he]; exact hinv
  · rw [he]
    intro h hm
    rcases List.mem_or_eq_of_mem_set hm with hm | rfl
    · exact hinv h hm
    · obtain ⟨h1, _, h3, _⟩ := process_response_to_individual_fping_request_frame host p N
      rw [h1, h3]
      exact hinv host (List.get?_mem hh)
  · rw [he]
    intro h hm
    rcases List.mem_or_eq_of_mem_set hm with hm | rfl
    · exact hinv h hm
    · obtain ⟨h1, _, _, h4⟩ := process_fping_statistics_frame env host (lb.drop (off + 3)) N
      have := hinv host (List.get?_mem hh)
      omega

theorem process_fping_output_lines_rcv_le_cnt (env : ParseEnv) (lines : List (List Char))
    (N allow : Nat) (hN : 1 ≤ N) :
    ∀ hosts : List ZBX_FPING_HOST, (∀ h ∈ hosts, h.rcv ≤ h.cnt) →
      ∀ h ∈ process_fping_output_lines env lines hosts N allow, h.rcv ≤ h.cnt := by
  induction lines with
  | nil => intro hosts hinv; exact hinv
  | cons l ls ih =>
    intro hosts hinv
    exact ih _ (process_fping_output_line_rcv_le_cnt env _ hosts N allow hN hinv)

/-- C8: for `requests_count ≥ 1`, `process_fping_output_line` preserves
`rcv ≤ cnt` for every host, whatever the batch and the line; hence the hosts
satisfy it after any sequence of lines and after `process_fping_output`, in
particular when they start with zeroed statistics. -/
theorem received_le_sent (env : ParseEnv) (hosts : List ZBX_FPING_HOST) (N allow : Nat)
    (hN : 1 ≤ N) (hinv : ∀ h ∈ hosts, h.rcv ≤ h.cnt) :
    (∀ line : List Char,
        ∀ h ∈ process_fping_output_line env line hosts N allow, h.rcv ≤ h.cnt) ∧
      (∀ lines : List (List Char),
        ∀ h ∈ process_fping_output_lines env lines hosts N allow, h.rcv ≤ h.cnt) ∧
      (∀ lines : List (List Char),
        ∀ h ∈ (process_fping_output env lines hosts N allow).2, h.rcv ≤ h.cnt) := by
  refine ⟨fun line => process_fping_output_line_rcv_le_cnt env line hosts N allow hN hinv,
    fun lines => process_fping_output_lines_rcv_le_cnt env lines N allow hN hosts hinv, ?_⟩
  intro lines
  cases lines with
  | nil => exact hinv
  | cons l ls =>
    apply process_fping_output_lines_rcv_le_cnt env (l :: ls) N allow hN
    intro h hm
    obtain ⟨h0, hm0, rfl⟩ := List.mem_map.mp hm
    exact hinv h0 hm0

/-- C8, an instance: the output of the source comment for `8.8.8.8`, processed
from zeroed statistics, gives received 3 and sent 3. -/
theorem received_le_sent_witness :
    (process_fping_output example_env
        ["8.8.8.8 : [0], 64 bytes, 9.37 ms (9.37 avg, 0% loss)\n".toList,
          "8.8.8.8 : [1], 64 bytes, 8.72 ms (9.05 avg, 0% loss)\n".toList,
          "8.8.8.8 : [2], 64 bytes, 7.28 ms (8.46 avg, 0% loss)\n".toList,
          "8.8.8.8 : 9.37 8.72 7.28\n".toList]
        [⟨"8.8.8.8".toList, 0, 0, 0, 0, 0, []⟩] 3 0).2.map (fun h => (h.rcv, h.cnt)) =
        [(3, 3)] ∧
      ∀ h ∈ (process_fping_output example_env
        ["8.8.8.8 : [0], 64 bytes, 9.37 ms (9.37 avg, 0% loss)\n".toList,
          "8.8.8.8 : [1], 64 bytes, 8.72 ms (9.05 avg, 0% loss)\n".toList,
          "8.8.8.8 : [2], 64 bytes, 7.28 ms (8.46 avg, 0% loss)\n".toList,
          "8.8.8.8 : 9.37 8.72 7.28\n".toList]
        [⟨"8.8.8.8".toList, 0, 0, 0, 0, 0, []⟩] 3 0).2, h.rcv ≤ h.cnt :=
  ⟨by decide,
    (received_le_sent example_env [⟨"8.8.8.8".toList, 0, 0, 0, 0, 0, []⟩] 3 0 (by decide)
      (by intro h hm; simp only [List.mem_singleton] at hm; rw [hm])).2.2 _⟩

/-! ## The sent count -/

theorem set_of_get?_eq (l : List ZBX_FPING_HOST) (i : Nat) (a : ZBX_FPING_HOST)
    (h : l.get? i = some a) : l.set i a = l := by
  induction l generalizing i with
  | nil => rfl
  | cons x xs ih =>
    cases i with
    | zero => simp at h; simp [h]
    | succ n => simp at h; simp [ih n (by simpa using h)]

theorem process_fping_output_line_addr (env : ParseEnv) (line : List Char)
    (hosts : List ZBX_FPING_HOST) (N allow : Nat) :
    (process_fping_output_line env line hosts N allow).map (fun h => h.addr) =
      hosts.map (fun h => h.addr) := by
  have key : ∀ (i : Nat) (host h2 : ZBX_FPING_HOST), hosts.get? i = some host →
      h2.addr = host.addr →
      (hosts.set i h2).map (fun h => h.addr) = hosts.map (fun h => h.addr) := by
    intro i host h2 hh ha
    rw [List.map_set, ha]
    have : (hosts.map (fun h => h.addr)).get? i = some host.addr := by
      simp only [List.get?_eq_getElem?] at hh
      simp [hh]
    induction hosts generalizing i with
    | nil => rfl
    | cons x xs ih =>
      cases i with
      | zero => simp at this; simp [this]
      | succ n =>
        simp only [List.map_cons, List.set_cons_succ, List.cons.injEq, true_and]
        apply ih n
        · simpa using hh
        · simpa using this
  rcases process_fping_output_line_cases env line hosts N allow with
    he | ⟨i, host, p, hh, he⟩ | ⟨i, host, lb, off, hh, _, _, _, he⟩
  · rw [he]
  · rw [he]
    exact key i host _ hh (process_response_to_individual_fping_request_frame host p N).2.1
  · rw [he]
    exact key i host _ hh (process_fping_statistics_frame env host _ N).2.1

theorem find_host_congr (token : List Char) :
    ∀ hosts hosts2 : List ZBX_FPING_HOST,
      hosts.map (fun h => h.addr) = hosts2.map (fun h => h.addr) →
      find_host token hosts = find_host token hosts2 := by
  intro hosts
  induction hosts with
  | nil =>
    intro hosts2 h
    cases hosts2 with
    | nil => rfl
    | cons y ys => simp at h
  | cons x xs ih =>
    intro hosts2 h
    cases hosts2 with
    | nil => simp at h
    | cons y ys =>
      simp only [List.map_cons, List.cons.injEq] at h
      simp only [find_host, h.1, ih ys h.2]

theorem summary_line_host_congr (line : List Char) (hosts hosts2 : List ZBX_FPING_HOST)
    (allow : Nat) (h : hosts.map (fun h => h.addr) = hosts2.map (fun h => h.addr)) :
    summary_line_host line hosts allow = summary_line_host line hosts2 allow := by
  unfold summary_line_host validate_host_address_in_fping_output
  cases process_fping_redirected_response line allow with
  | none => rfl
  | some lb =>
    dsimp only
    cases strchr lb ' ' with
    | none => rfl
    | some p_end =>
      dsimp only
      rw [find_host_congr _ hosts hosts2 h]

/-- One line adds `requests_count` to the sent count of the host it is a
summary line of, and leaves every other sent count as it is. -/
theorem process_fping_output_line_cnt (env : ParseEnv) (line : List Char)
    (hosts : List ZBX_FPING_HOST) (N allow : Nat) (j : Nat) :
    ((process_fping_output_line env line hosts N allow).get? j).map (fun h => h.cnt) =
      (hosts.get? j).map (fun h =>
        h.cnt + if summary_line_host line hosts allow = some j then N else 0) := by
  unfold process_fping_output_line summary_line_host
  cases process_fping_redirected_response line allow with
  | none => simp
  | some lb =>
    dsimp only
    cases validate_host_address_in_fping_output lb hosts with
    | none => simp
    | some i =>
      dsimp only
      cases hs : strstr lb " : ".toList with
      | none =>
        cases hosts.get? i <;> simp
      | some off =>
        cases hh : hosts.get? i with
        | none =>
          dsimp only
          have hh2 : hosts[i]? = none := by simpa using hh
          by_cases hj : i = j
          · subst hj; simp [hh2]
          · have : ∀ x : Nat, ¬ (some i = some j) := fun _ e => hj (Option.some.inj e)
            split <;> [simp; (split <;> simp [hj])]
        | some host =>
          dsimp only
          split
          · simp
          · split
            · by_cases hj : i = j
              · subst hj
                have hlt : i < hosts.length := by
                  by_contra hge
                  have := List.get?_eq_none.mpr (not_lt.mp hge)
                  rw [this] at hh
                  exact absurd hh (by simp)
                have hh2 : hosts[i]? = some host := by simpa using hh
                have hget : hosts[i] = host := by
                  rw [List.getElem?_eq_getElem hlt] at hh2
                  exact Option.some.inj hh2
                simp [hh2, hlt, hget,
                  (process_response_to_individual_fping_request_frame host _ N).1]
              · simp [List.getElem?_set_ne hj]
            · by_cases hj : i = j
              · subst hj
                have hlt : i < hosts.length := by
                  by_contra hge
                  have := List.get?_eq_none.mpr (not_lt.mp hge)
                  rw [this] at hh
                  exact absurd hh (by simp)
                have hh2 : hosts[i]? = some host := by simpa using hh
                have hget : hosts[i] = host := by
                  rw [List.getElem?_eq_getElem hlt] at hh2
                  exact Option.some.inj hh2
                simp [hh2, hlt, hget, (process_fping_statistics_frame env host _ N).1]
              · simp [List.getElem?_set_ne hj, hj]

theorem process_fping_output_lines_cnt (env : ParseEnv) (N allow : Nat)
    (hosts0 : List ZBX_FPING_HOST) (lines : List (List Char)) :
    ∀ hosts : List ZBX_FPING_HOST,
      hosts.map (fun h => h.addr) = hosts0.map (fun h => h.addr) →
      ∀ j, ((process_fping_output_lines env lines hosts N allow).get? j).map (fun h => h.cnt) =
        ((hosts.get? j).map (fun h => h.cnt)).map
          (fun c => c + N * summary_line_count lines hosts0 allow j) := by
  induction lines with
  | nil =>
    intro hosts _ j
    simp only [process_fping_output_lines, summary_line_count, List.foldl_nil,
      List.countP_nil, Nat.mul_zero, Nat.add_zero]
    cases hosts.get? j <;> rfl
  | cons l ls ih =>
    intro hosts ha j
    have hstep := process_fping_output_line_cnt env (zbx_rtrim l ['\n']) hosts N allow j
    rw [summary_line_host_congr _ hosts hosts0 allow ha] at hstep
    have hrec := ih (process_fping_output_line env (zbx_rtrim l ['\n']) hosts N allow)
      ((process_fping_output_line_addr env _ hosts N allow).trans ha) j
    have hfold : process_fping_output_lines env (l :: ls) hosts N allow =
        process_fping_output_lines env ls
          (process_fping_output_line env (zbx_rtrim l ['\n']) hosts N allow) N allow := rfl
    rw [hfold, hrec, hstep]
    cases hosts.get? j with
    | none => rfl
    | some h =>
      simp only [Option.map_some', Option.some.injEq, summary_line_count, List.countP_cons,
        beq_iff_eq]
      split <;> ring

/-- C7 as stated fails: a host without summary line in the output keeps sent
count 0, and a host with two summary lines (as after the two passes of a
dual-stack run) ends with twice `requests_count`. -/
theorem sent_count_counterexample :
    (process_fping_output example_env
        ["8.8.8.8 : [0], 64 bytes, 9.37 ms (9.37 avg, 0% loss)\n".toList]
        [⟨"8.8.8.8".toList, 0, 0, 0, 0, 0, []⟩] 1 0).2.map (fun h => h.cnt) = [0] ∧
      (process_fping_output example_env
        ["8.8.8.8 : 9.37\n".toList, "8.8.8.8 : -\n".toList]
        [⟨"8.8.8.8".toList, 0, 0, 0, 0, 0, []⟩] 1 0).2.map (fun h => h.cnt) = [2] ∧
      ¬ (∀ lines : List (List Char),
        ∀ h ∈ (process_fping_output example_env lines
          [⟨"8.8.8.8".toList, 0, 0, 0, 0, 0, []⟩] 1 0).2, h.cnt = 1) := by
  refine ⟨by decide, by decide, ?_⟩
  intro hall
  have := hall ["8.8.8.8 : [0], 64 bytes, 9.37 ms (9.37 avg, 0% loss)\n".toList]
    ⟨"8.8.8.8".toList, 0, 0, 0, 0, 0, [true]⟩ (by decide)
  exact absurd this (by decide)

/-- C7, amended: after `process_fping_output` has consumed the output for a
batch whose sent counts start at zero, the sent count of every host is
`requests_count` times the number of lines that were handed to
`process_fping_statistics` for that host; it is `requests_count` when the
output has exactly one summary line of the host. -/
theorem sent_count (env : ParseEnv) (hosts : List ZBX_FPING_HOST) (N allow : Nat)
    (lines : List (List Char)) (hzero : ∀ h ∈ hosts, h.cnt = 0) :
    ∀ (j : Nat) (host : ZBX_FPING_HOST),
      (process_fping_output env lines hosts N allow).2.get? j = some host →
      host.cnt = N * summary_line_count lines hosts allow j ∧
        (summary_line_count lines hosts allow j = 1 → host.cnt = N) := by
  intro j host hj
  have hcnt : host.cnt = N * summary_line_count lines hosts allow j := by
    cases lines with
    | nil =>
      have hm : host ∈ hosts := List.get?_mem hj
      simp [summary_line_count, hzero host hm]
    | cons l ls =>
      have ha : (hosts.map
          (fun h => { h with status := List.replicate N false })).map (fun h => h.addr) =
          hosts.map (fun h => h.addr) := by
        simp [List.map_map, Function.comp_def]
      have h1 := process_fping_output_lines_cnt env N allow hosts (l :: ls) _ ha j
      have hj2 : (process_fping_output_lines env (l :: ls)
          (hosts.map (fun h => { h with status := List.replicate N false })) N allow).get? j =
          some host := hj
      rw [hj2] at h1
      cases hg : hosts.get? j with
      | none =>
        have hg2 : hosts[j]? = none := by simpa using hg
        simp [hg2] at h1
      | some h0 =>
        have hz := hzero h0 (List.get?_mem hg)
        have hg2 : hosts[j]? = some h0 := by simpa using hg
        simp [hg2, hz] at h1
        exact h1
  exact ⟨hcnt, fun h1 => by rw [hcnt, h1, Nat.mul_one]⟩

/-- C7, amended, an instance: the output of the source comment has one summary
line for `8.8.8.8`, and the sent count of `8.8.8.8` ends at 3. -/
theorem sent_count_witness :
    (process_fping_output example_env
        ["8.8.8.8 : [0], 64 bytes, 9.37 ms (9.37 avg, 0% loss)\n".toList,
          "7.7.7.7 : [0], timed out (NaN avg, 100% loss)\n".toList,
          "7.7.7.7 : - - -\n".toList,
          "8.8.8.8 : 9.37 8.72 7.28\n".toList]
        [⟨"7.7.7.7".toList, 0, 0, 0, 0, 0, []⟩,
          ⟨"8.8.8.8".toList, 0, 0, 0, 0, 0, []⟩] 3 0).2.map (fun h => h.cnt) = [3, 3] ∧
      ∀ host, (process_fping_output example_env
        ["8.8.8.8 : [0], 64 bytes, 9.37 ms (9.37 avg, 0% loss)\n".toList,
          "7.7.7.7 : [0], timed out (NaN avg, 100% loss)\n".toList,
          "7.7.7.7 : - - -\n".toList,
          "8.8.8.8 : 9.37 8.72 7.28\n".toList]
        [⟨"7.7.7.7".toList, 0, 0, 0, 0, 0, []⟩,
          ⟨"8.8.8.8".toList, 0, 0, 0, 0, 0, []⟩] 3 0).2.get? 1 = some host →
        host.cnt = 3 := by
  refine ⟨by decide, fun host hh => ?_⟩
  have h := sent_count example_env
    [⟨"7.7.7.7".toList, 0, 0, 0, 0, 0, []⟩, ⟨"8.8.8.8".toList, 0, 0, 0, 0, 0, []⟩] 3 0
    ["8.8.8.8 : [0], 64 bytes, 9.37 ms (9.37 avg, 0% loss)\n".toList,
      "7.7.7.7 : [0], timed out (NaN avg, 100% loss)\n".toList,
      "7.7.7.7 : - - -\n".toList,
      "8.8.8.8 : 9.37 8.72 7.28\n".toList]
    (by
      intro h hm
      simp only [List.mem_cons, List.mem_singleton, List.not_mem_nil, or_false] at hm
      rcases hm with rfl | rfl <;> rfl)
    1 host hh
  exact h.2 (by decide)

/-! ## Source IP option detection -/

theorem is_option_line_exclusive (p : List Char) (h : is_option_line 'I' p = true) :
    is_option_line 'S' p = false := by
  rcases p with _ | ⟨c0, _ | ⟨c1, _ | ⟨c2, rest⟩⟩⟩
  · rfl
  · rfl
  · rfl
  · simp only [is_option_line, Bool.and_eq_true, beq_iff_eq] at h
    simp [is_option_line, h.1.2]

theorem source_ip_option_scan_S (lines : List (List Char)) :
    ∀ option : Option (List Char),
      (∃ l ∈ lines, is_option_line 'S' (l.dropWhile isspace) = true) →
      source_ip_option_scan lines option = some "-S".toList := by
  induction lines with
  | nil => intro option ⟨l, hl, _⟩; simp at hl
  | cons tmp rest ih =>
    intro option ⟨l, hl, hS⟩
    simp only [source_ip_option_scan]
    by_cases hI : is_option_line 'I' (tmp.dropWhile isspace) = true
    · rw [if_pos hI]
      apply ih
      rcases List.mem_cons.mp hl with rfl | hl
      · rw [is_option_line_exclusive _ hI] at hS
        exact absurd hS (by simp)
      · exact ⟨l, hl, hS⟩
    · rw [if_neg hI]
      by_cases hS2 : is_option_line 'S' (tmp.dropWhile isspace) = true
      · rw [if_pos hS2]
      · rw [if_neg hS2]
        apply ih
        rcases List.mem_cons.mp hl with rfl | hl
        · exact absurd hS hS2
        · exact ⟨l, hl, hS⟩

theorem dropWhile_isspace_append (ws rest : List Char) (c : Char)
    (hws : ∀ x ∈ ws, isspace x = true) (hc : isspace c = false) :
    (ws ++ c :: rest).dropWhile isspace = c :: rest := by
  induction ws with
  | nil => simp [List.dropWhile_cons, hc]
  | cons w ws ih =>
    have hw : isspace w = true := hws w (by simp)
    simp [List.dropWhile_cons, hw, ih (fun x hx => hws x (by simp [hx]))]

/-- C10: when some line of the help text starts, after its leading white
space, with `-S` followed by white space or a comma, `get_source_ip_option`
yields the option `-S`, whatever other lines (with `-I` or not) stand before
or behind it and whatever option was held before the scan. -/
theorem get_source_ip_option_S (lines : List (List Char)) (option : Option (List Char))
    (checked : Nat)
    (h : ∃ l ∈ lines, ∃ (ws rest : List Char) (c : Char),
      l = ws ++ '-' :: 'S' :: c :: rest ∧ (∀ x ∈ ws, isspace x = true) ∧
        (isspace c = true ∨ c = ',')) :
    (get_source_ip_option (some lines) option checked).1 = some "-S".toList := by
  obtain ⟨l, hl, ws, rest, c, rfl, hws, hc⟩ := h
  apply source_ip_option_scan_S lines option
  refine ⟨_, hl, ?_⟩
  rw [dropWhile_isspace_append ws _ '-' hws (by decide)]
  simp only [is_option_line, beq_self_eq_true, Bool.true_and, Bool.or_eq_true, beq_iff_eq]
  exact hc

/-- C10, an instance: a help text with `-I` and `-S`, in either order, yields
`-S`, with no option or with `-I` held before. -/
theorem get_source_ip_option_S_witness :
    (get_source_ip_option
        (some ["Usage: fping [options] [targets...]\n".toList,
          "   -I, --iface=IFACE  bind to a particular interface\n".toList,
          "   -S, --src=IP       set source address\n".toList])
        none 0).1 = some "-S".toList ∧
      (get_source_ip_option
        (some ["   -S, --src=IP       set source address\n".toList,
          "   -I, --iface=IFACE  bind to a particular interface\n".toList])
        (some "-I".toList) 0).1 = some "-S".toList :=
  ⟨get_source_ip_option_S _ none 0
      ⟨"   -S, --src=IP       set source address\n".toList, by decide,
        "   ".toList, " --src=IP       set source address\n".toList, ',', by decide,
        by decide, Or.inr rfl⟩,
    get_source_ip_option_S _ (some "-I".toList) 0
      ⟨"   -S, --src=IP       set source address\n".toList, by decide,
        "   ".toList, " --src=IP       set source address\n".toList, ',', by decide,
        by decide, Or.inr rfl⟩⟩

/-! ## Minimum interval detection -/

/-- The probes in front of a probe that decides are only recorded. -/
theorem get_interval_option_loop_skip (world : PingWorld) (fping : List Char) (mel : Nat)
    (value : Int) (error : List Char) (pre : List (List Char × Nat)) :
    ∀ (rest : List (List Char × Nat)) (out : Option (List Char)) (spawned : List Spawn),
      (∀ q ∈ pre, interval_probe_verdict (interval_command world fping q.1 q.2) q.1 q.2
        (world.execute (interval_command world fping q.1 q.2)) value error mel = none) →
      ∃ out2,
        get_interval_option_loop world fping mel (pre ++ rest) out value error spawned =
          get_interval_option_loop world fping mel rest out2 value error
            (spawned ++ pre.map
              (fun q => Spawn.interval_probe (interval_command world fping q.1 q.2))) := by
  induction pre with
  | nil => intro rest out spawned _; exact ⟨out, by simp⟩
  | cons q qs ih =>
    intro rest out spawned h
    obtain ⟨dst, iv⟩ := q
    have hq : interval_probe_verdict (interval_command world fping dst iv) dst iv
        (world.execute (interval_command world fping dst iv)) value error mel = none :=
      h (dst, iv) (by simp)
    obtain ⟨out2, h2⟩ := ih rest
      (some (world.execute (interval_command world fping dst iv)).out)
      (spawned ++ [Spawn.interval_probe (interval_command world fping dst iv)])
      (fun x hx => h x (by simp [hx]))
    refine ⟨out2, ?_⟩
    have hstep : get_interval_option_loop world fping mel ((dst, iv) :: (qs ++ rest)) out value
        error spawned =
        get_interval_option_loop world fping mel (qs ++ rest)
          (some (world.execute (interval_command world fping dst iv)).out) value error
          (spawned ++ [Spawn.interval_probe (interval_command world fping dst iv)]) := by
      rw [get_interval_option_loop]
      simp only [hq]
    rw [List.cons_append, hstep, h2]
    simp

/-- C13 as stated fails: an output of one line that matches no host and no
pattern is reported as success, with every host left as it was allocated. -/
theorem process_fping_output_counterexample :
    validate_host_address_in_fping_output "fping: command not understood".toList
        [⟨"8.8.8.8".toList, 0, 0, 0, 0, 0, []⟩] = none ∧
      process_fping_output example_env ["fping: command not understood\n".toList]
        [⟨"8.8.8.8".toList, 0, 0, 0, 0, 0, []⟩] 3 0 =
        (ZbxResult.SUCCEED, [⟨"8.8.8.8".toList, 0, 0, 0, 0, 0, [false, false, false]⟩]) := by
  exact ⟨by decide, by decide⟩

/-- C13, amended: `process_fping_output` reports success if and only if at
least one line was read from the pinger, whether or not it could be parsed;
only an output without any line yields NOTSUPPORTED, and no host is touched
then. -/
theorem process_fping_output_result (env : ParseEnv) (lines : List (List Char))
    (hosts : List ZBX_FPING_HOST) (N allow : Nat) :
    ((process_fping_output env lines hosts N allow).1 = ZbxResult.SUCCEED ↔ lines ≠ []) ∧
      ((process_fping_output env lines hosts N allow).1 = ZbxResult.NOTSUPPORTED ↔
        lines = []) ∧
      (process_fping_output env [] hosts N allow).2 = hosts := by
  cases lines with
  | nil => simp [process_fping_output]
  | cons l ls => simp [process_fping_output]

/-! ## The number of bitmap entries a summary line reaches -/

theorem strchr_count (s : List Char) :
    (strchr s ' ' = none → s.count ' ' = 0) ∧
      (∀ off, strchr s ' ' = some off →
        s.count ' ' = 1 + ((s.drop off).drop 1).count ' ') := by
  refine ⟨fun h => List.count_eq_zero.mpr ((strchr_eq_none_iff s ' ').mp h), ?_⟩
  intro off h
  obtain ⟨h1, h2⟩ := strchr_some_split s ' ' off h
  have hc : (s.take off).count ' ' = 0 := List.count_eq_zero.mpr h2
  have hd : (s.drop off).drop 1 = s.drop (off + 1) := by
    rw [List.drop_drop, Nat.add_comm]
  rw [hd]
  conv => lhs; rw [h1]
  rw [List.count_append, hc, List.count_cons_self]
  omega

/-- The loop of `process_fping_statistics` adds to rcv the set entries among
those it reaches: one more than the spaces it finds behind the first
character of the text, and at most `more + 1`. -/
theorem fping_statistics_loop_rcv (more : Nat) :
    ∀ (idx : Nat) (p : List Char) (host : ZBX_FPING_HOST),
      (fping_statistics_loop more idx p host).rcv =
        host.rcv +
          ((host.status.drop idx).take (1 + min more ((p.drop 1).count ' '))).count true := by
  have hsample : ∀ (idx : Nat) (p : List Char) (host : ZBX_FPING_HOST),
      (fping_statistics_sample host p idx).rcv =
        host.rcv + ((host.status.drop idx).take 1).count true := by
    intro idx p host
    unfold fping_statistics_sample
    cases hd : host.status.drop idx with
    | nil =>
      have : host.status.getD idx false = false := by
        have hlen : host.status.length ≤ idx := by
          by_contra hlt
          have := List.drop_eq_nil_iff.mp hd
          omega
        simp [List.getD, List.getElem?_eq_none hlen]
      rw [this]
      simp
    | cons b bs =>
      have hget : host.status.getD idx false = b := by
        have := congrArg List.head? hd
        simp only [List.head?_drop, List.head?_cons] at this
        simp [List.getD, this]
      rw [hget]
      cases b <;> simp [fping_fold_sec]
  induction more with
  | zero =>
    intro idx p host
    simpa [fping_statistics_loop] using hsample idx p host
  | succ more ih =>
    intro idx p host
    have hs := hsample idx p host
    have hst := fping_statistics_sample_status host p idx
    simp only [fping_statistics_loop]
    cases hc : strchr (List.drop 1 p) ' ' with
    | none =>
      dsimp only
      rw [(strchr_count (List.drop 1 p)).1 hc, hs]
      simp
    | some off =>
      dsimp only
      rw [ih, hs, hst, (strchr_count (List.drop 1 p)).2 off hc]
      have hmin : min (more + 1) (1 + ((List.drop off (List.drop 1 p)).drop 1).count ' ') =
          1 + min more (((List.drop off (List.drop 1 p)).drop 1).count ' ') := by omega
      rw [hmin]
      generalize min more (((List.drop off (List.drop 1 p)).drop 1).count ' ') = k
      cases hd : host.status.drop idx with
      | nil =>
        have : host.status.drop (idx + 1) = [] := by
          have := List.drop_eq_nil_iff.mp hd
          exact List.drop_eq_nil_iff.mpr (by omega)
        simp [this]
      | cons b bs =>
        have : host.status.drop (idx + 1) = bs := by
          have := congrArg List.tail hd
          simpa [List.tail_drop] using this
        rw [this, show 1 + (1 + k) = (1 + k) + 1 by omega, List.take_succ_cons]
        cases b with
        | false => simp
        | true => simp; omega

/-- C20 as stated fails: with two set bitmap entries and a summary text of one
token the loop stops behind the first entry, and rcv grows by 1, not by 2. -/
theorem process_fping_statistics_rcv_counterexample :
    (process_fping_statistics example_env
        ⟨"8.8.8.8".toList, 0, 0, 0, 0, 0, [true, true]⟩ "9.37".toList 2).rcv = 1 ∧
      (⟨"8.8.8.8".toList, 0, 0, 0, 0, 0, [true, true]⟩ : ZBX_FPING_HOST).status.count true
        = 2 := by
  exact ⟨by decide, by decide⟩

/-- C20, amended: for `requests_count ≥ 1`, a bitmap of `requests_count` entries
and a summary text that is not empty (so that `linebuf_p + 1` lies within the
line), `process_fping_statistics` increases rcv by the number of set entries
among the first `k` bitmap entries, where `k` is `requests_count` or, if that
is less, one more than the number of spaces behind the first character of the
text; for a text with at least `requests_count - 1` such spaces this is the
number of all set entries. -/
theorem process_fping_statistics_rcv (env : ParseEnv) (host : ZBX_FPING_HOST)
    (p : List Char) (N : Nat) (_hp : p ≠ []) (hN : 1 ≤ N) (hlen : host.status.length = N) :
    (process_fping_statistics env host p N).rcv =
        host.rcv +
          (host.status.take (1 + min (N - 1) ((p.drop 1).count ' '))).count true ∧
      (N - 1 ≤ (p.drop 1).count ' ' →
        (process_fping_statistics env host p N).rcv = host.rcv + host.status.count true) := by
  have h1 := (process_fping_statistics_stats env host p N).1
  have h2 := fping_statistics_loop_rcv (N - 1) 0 p host
  rw [List.drop_zero] at h2
  refine ⟨h1.trans h2, fun hsp => ?_⟩
  rw [h1, h2, Nat.min_eq_left hsp, List.take_of_length_le (by omega)]

/-- C20, two instances with the bitmap `[true, true, true, false, true]` and 5
requests: a summary text of 5 tokens gives 4 received responses, one of 2
tokens gives the 2 of the first two entries. -/
theorem process_fping_statistics_rcv_witness :
    (process_fping_statistics example_env example_host "91.7 37.0 29.2 - 36.8".toList 5).rcv =
        example_host.rcv + example_host.status.count true ∧
      (process_fping_statistics example_env example_host "91.7 37.0".toList 5).rcv =
        example_host.rcv + (example_host.status.take 2).count true :=
  ⟨(process_fping_statistics_rcv example_env example_host "91.7 37.0 29.2 - 36.8".toList 5
      (by decide) (by decide) rfl).2 (by decide),
    (process_fping_statistics_rcv example_env example_host "91.7 37.0".toList 5
      (by decide) (by decide) rfl).1⟩

/-! ## The steps of the preparation -/

theorem get_interval_option_loop_spawned (world : PingWorld) (fping : List Char) (mel : Nat)
    (probes : List (List Char × Nat)) :
    ∀ (out : Option (List Char)) (value : Int) (error : List Char) (spawned : List Spawn),
      ∃ extra,
        (get_interval_option_loop world fping mel probes out value error spawned).spawned =
          spawned ++ extra ∧ ∀ e ∈ extra, isCapabilityProbe e = true := by
  induction probes with
  | nil =>
    intro out value error spawned
    refine ⟨[], ?_, by simp⟩
    unfold get_interval_option_loop
    cases out with
    | none => simp
    | some o =>
      by_cases hk : ZBX_KIBIBYTE > o.length ∧ o.length ≠ 0
      · simp only [if_pos hk, List.append_nil]
      · simp only [if_neg hk, List.append_nil]
  | cons q qs ih =>
    intro out value error spawned
    obtain ⟨dst, iv⟩ := q
    rw [get_interval_option_loop]
    cases hv : interval_probe_verdict (interval_command world fping dst iv) dst iv
        (world.execute (interval_command world fping dst iv)) value error mel with
    | some v =>
      obtain ⟨ret, v1, e1⟩ := v
      exact ⟨[Spawn.interval_probe (interval_command world fping dst iv)], rfl,
        by simp [isCapabilityProbe]⟩
    | none =>
      dsimp only
      obtain ⟨extra, h1, h2⟩ := ih (some (world.execute (interval_command world fping dst iv)).out)
        value error (spawned ++ [Spawn.interval_probe (interval_command world fping dst iv)])
      refine ⟨Spawn.interval_probe (interval_command world fping dst iv) :: extra, ?_, ?_⟩
      · rw [h1]; simp
      · intro e he
        rcases List.mem_cons.mp he with rfl | he
        · rfl
        · exact h2 e he

theorem get_interval_option_spawned (world : PingWorld) (fping : List Char)
    (hosts : List ZBX_FPING_HOST) (value : Int) (error : List Char) (mel : Nat) :
    ∀ e ∈ (get_interval_option world fping hosts value error mel).spawned,
      isCapabilityProbe e = true := by
  obtain ⟨extra, h1, h2⟩ := get_interval_option_loop_spawned world fping mel
    (interval_probes hosts) none value error []
  unfold get_interval_option
  rw [h1]
  simpa using h2

/-- What the interval step of fping does to the state, on both of its
exits. -/
theorem ping_detect_interval_spec (world : PingWorld) (mel : Nat)
    (hosts : List ZBX_FPING_HOST) (s t : PingState)
    (h : ping_detect_interval world mel hosts s = Except.ok t ∨
      ping_detect_interval world mel hosts s = Except.error t) :
    t.fping_existence = s.fping_existence ∧ t.params6 = s.params6 ∧
      t.cache = { s.cache with packet_interval := t.cache.packet_interval } ∧
      (∃ extra, t.spawned = s.spawned ++ extra ∧ ∀ e ∈ extra, isCapabilityProbe e = true) ∧
      (ping_detect_interval world mel hosts s = Except.ok t →
        t.params = if fping_in_use world s ∧ hosts.length ≠ 0 then
          append_param s.params (" -i".toList ++ indexText t.cache.packet_interval)
        else s.params) := by
  unfold ping_detect_interval at *
  simp only [fping_in_use]
  by_cases hc : (world.have_ipv6 = false ∨ s.fping_existence &&& FPING_EXISTS ≠ 0) ∧
      hosts.length ≠ 0
  · simp only [if_pos hc] at h ⊢
    by_cases hu : s.cache.packet_interval = FPING_UNINITIALIZED_VALUE
    · simp only [if_pos hu] at h ⊢
      rw [hu] at h
      have hsp := get_interval_option_spawned world world.fping_location hosts
        FPING_UNINITIALIZED_VALUE s.error mel
      by_cases hr : (get_interval_option world world.fping_location hosts
          FPING_UNINITIALIZED_VALUE s.error mel).ret = ZbxResult.SUCCEED
      · simp only [hr, ne_eq, not_true_eq_false, if_false, Except.ok.injEq, reduceCtorEq,
          or_false] at h
        subst h
        exact ⟨rfl, rfl, rfl, ⟨_, rfl, hsp⟩, fun _ => rfl⟩
      · simp only [hr, ne_eq, not_false_eq_true, if_true, Except.error.injEq, reduceCtorEq,
          false_or] at h
        subst h
        refine ⟨rfl, rfl, rfl, ⟨_, rfl, hsp⟩, fun hx => ?_⟩
        simp only [if_pos hc, if_pos hu] at hx
        rw [hu] at hx
        simp [hr] at hx
    · simp only [if_neg hu, Except.ok.injEq, reduceCtorEq, or_false] at h
      subst h
      exact ⟨rfl, rfl, rfl, ⟨[], by simp, by simp⟩, fun _ => rfl⟩
  · simp only [if_neg hc, Except.ok.injEq, reduceCtorEq, or_false] at h ⊢
    subst h
    exact ⟨rfl, rfl, rfl, ⟨[], by simp, by simp⟩, fun _ => rfl⟩

/-- What the interval step of fping6 does to the state, on both of its
exits. -/
theorem ping_detect_interval6_spec (world : PingWorld) (mel : Nat)
    (hosts : List ZBX_FPING_HOST) (s t : PingState)
    (h : ping_detect_interval6 world mel hosts s = Except.ok t ∨
      ping_detect_interval6 world mel hosts s = Except.error t) :
    t.fping_existence = s.fping_existence ∧ t.params = s.params ∧
      t.cache = { s.cache with packet_interval6 := t.cache.packet_interval6 } ∧
      (∃ extra, t.spawned = s.spawned ++ extra ∧ ∀ e ∈ extra, isCapabilityProbe e = true) ∧
      (ping_detect_interval6 world mel hosts s = Except.ok t →
        t.params6 = if fping6_in_use world s ∧ hosts.length ≠ 0 then
          append_param s.params6 (" -i".toList ++ indexText t.cache.packet_interval6)
        else s.params6) := by
  unfold ping_detect_interval6 at *
  simp only [fping6_in_use]
  by_cases hc : world.have_ipv6 = true ∧ s.fping_existence &&& FPING6_EXISTS ≠ 0 ∧
      hosts.length ≠ 0
  · have hc2 : (world.have_ipv6 = true ∧ s.fping_existence &&& FPING6_EXISTS ≠ 0) ∧
        hosts.length ≠ 0 := ⟨⟨hc.1, hc.2.1⟩, hc.2.2⟩
    simp only [if_pos hc, if_pos hc2] at h ⊢
    by_cases hu : s.cache.packet_interval6 = FPING_UNINITIALIZED_VALUE
    · simp only [if_pos hu] at h ⊢
      rw [hu] at h
      have hsp := get_interval_option_spawned world world.fping6_location hosts
        FPING_UNINITIALIZED_VALUE s.error mel
      by_cases hr : (get_interval_option world world.fping6_location hosts
          FPING_UNINITIALIZED_VALUE s.error mel).ret = ZbxResult.SUCCEED
      · simp only [hr, ne_eq, not_true_eq_false, if_false, Except.ok.injEq, reduceCtorEq,
          or_false] at h
        subst h
        exact ⟨rfl, rfl, rfl, ⟨_, rfl, hsp⟩, fun _ => rfl⟩
      · simp only [hr, ne_eq, not_false_eq_true, if_true, Except.error.injEq, reduceCtorEq,
          false_or] at h
        subst h
        refine ⟨rfl, rfl, rfl, ⟨_, rfl, hsp⟩, fun hx => ?_⟩
        rw [hu] at hx
        simp [hr] at hx
    · simp only [if_neg hu, Except.ok.injEq, reduceCtorEq, or_false] at h
      subst h
      exact ⟨rfl, rfl, rfl, ⟨[], by simp, by simp⟩, fun _ => rfl⟩
  · have hc2 : ¬ ((world.have_ipv6 = true ∧ s.fping_existence &&& FPING6_EXISTS ≠ 0) ∧
        hosts.length ≠ 0) := fun hx => hc ⟨hx.1.1, hx.1.2, hx.2⟩
    simp only [if_neg hc, if_neg hc2, Except.ok.injEq, reduceCtorEq, or_false] at h ⊢
    subst h
    exact ⟨rfl, rfl, rfl, ⟨[], by simp, by simp⟩, fun _ => rfl⟩

/-- What the source IP step of fping does to the state. -/
theorem ping_source_ip_spec (world : PingWorld) (s : PingState) :
    (ping_source_ip world s).fping_existence = s.fping_existence ∧
      (ping_source_ip world s).params6 = s.params6 ∧
      (ping_source_ip world s).error = s.error ∧
      (ping_source_ip world s).cache =
        { s.cache with
          source_ip_option := (ping_source_ip world s).cache.source_ip_option
          source_ip_checked := (ping_source_ip world s).cache.source_ip_checked } ∧
      (∃ extra, (ping_source_ip world s).spawned = s.spawned ++ extra ∧
        ∀ e ∈ extra, isCapabilityProbe e = true) ∧
      (ping_source_ip world s).params =
        (match world.source_ip, (ping_source_ip world s).cache.source_ip_option with
          | some ip, some option =>
            if fping_in_use world s then append_param s.params (' ' :: option ++ ip)
            else s.params
          | _, _ => s.params) := by
  simp only [fping_in_use]
  cases hip : world.source_ip with
  | none =>
    have key : ping_source_ip world s = s := by unfold ping_source_ip; rw [hip]
    rw [key]
    exact ⟨rfl, rfl, rfl, rfl, ⟨[], by simp, by simp⟩, rfl⟩
  | some ip =>
    by_cases hc : world.have_ipv6 = false ∨ s.fping_existence &&& FPING_EXISTS ≠ 0
    · by_cases hk : s.cache.source_ip_checked = 0
      · cases ho : (get_source_ip_option
            (world.help (help_command world world.fping_location)) s.cache.source_ip_option
            s.cache.source_ip_checked).1 with
        | none =>
          have key : ping_source_ip world s =
              { s with
                cache := { s.cache with
                  source_ip_option := none
                  source_ip_checked := (get_source_ip_option
                    (world.help (help_command world world.fping_location))
                    s.cache.source_ip_option s.cache.source_ip_checked).2 }
                spawned := s.spawned ++
                  [Spawn.help_probe (help_command world world.fping_location)] } := by
            unfold ping_source_ip
            rw [hip]
            simp only [if_pos hc, if_pos hk, ho]
          rw [key]
          exact ⟨rfl, rfl, rfl, rfl, ⟨_, rfl, by simp [isCapabilityProbe]⟩, rfl⟩
        | some o =>
          have key : ping_source_ip world s =
              { s with
                cache := { s.cache with
                  source_ip_option := some o
                  source_ip_checked := (get_source_ip_option
                    (world.help (help_command world world.fping_location))
                    s.cache.source_ip_option s.cache.source_ip_checked).2 }
                spawned := s.spawned ++
                  [Spawn.help_probe (help_command world world.fping_location)]
                params := append_param s.params (' ' :: o ++ ip) } := by
            unfold ping_source_ip
            rw [hip]
            simp only [if_pos hc, if_pos hk, ho]
          rw [key]
          exact ⟨rfl, rfl, rfl, rfl, ⟨_, rfl, by simp [isCapabilityProbe]⟩,
            by simp only [if_pos hc]⟩
      · cases ho : s.cache.source_ip_option with
        | none =>
          have key : ping_source_ip world s = s := by
            unfold ping_source_ip
            rw [hip]
            simp only [if_pos hc, if_neg hk, ho]
          rw [key]
          exact ⟨rfl, rfl, rfl, rfl, ⟨[], by simp, by simp⟩, by simp only [ho]⟩
        | some o =>
          have key : ping_source_ip world s =
              { s with params := append_param s.params (' ' :: o ++ ip) } := by
            unfold ping_source_ip
            rw [hip]
            simp only [if_pos hc, if_neg hk, ho]
          rw [key]
          exact ⟨rfl, rfl, rfl, rfl, ⟨[], by simp, by simp⟩, by simp only [ho, if_pos hc]⟩
    · have key : ping_source_ip world s = s := by
        unfold ping_source_ip
        rw [hip]
        simp only [if_neg hc]
      rw [key]
      refine ⟨rfl, rfl, rfl, rfl, ⟨[], by simp, by simp⟩, ?_⟩
      cases s.cache.source_ip_option with
      | none => rfl
      | some o => simp only [if_neg hc]

/-- What the source IP step of fping6 does to the state. -/
theorem ping_source_ip6_spec (world : PingWorld) (s : PingState) :
    (ping_source_ip6 world s).fping_existence = s.fping_existence ∧
      (ping_source_ip6 world s).params = s.params ∧
      (ping_source_ip6 world s).error = s.error ∧
      (ping_source_ip6 world s).cache =
        { s.cache with
          source_ip6_option := (ping_source_ip6 world s).cache.source_ip6_option
          source_ip6_checked := (ping_source_ip6 world s).cache.source_ip6_checked } ∧
      (∃ extra, (ping_source_ip6 world s).spawned = s.spawned ++ extra ∧
        ∀ e ∈ extra, isCapabilityProbe e = true) ∧
      (ping_source_ip6 world s).params6 =
        (match world.source_ip, (ping_source_ip6 world s).cache.source_ip6_option with
          | some ip, some option =>
            if fping6_in_use world s then append_param s.params6 (' ' :: option ++ ip)
            else s.params6
          | _, _ => s.params6) := by
  simp only [fping6_in_use]
  cases hip : world.source_ip with
  | none =>
    have key : ping_source_ip6 world s = s := by unfold ping_source_ip6; rw [hip]
    rw [key]
    exact ⟨rfl, rfl, rfl, rfl, ⟨[], by simp, by simp⟩, rfl⟩
  | some ip =>
    by_cases hc : world.have_ipv6 = true ∧ s.fping_existence &&& FPING6_EXISTS ≠ 0
    · by_cases hk : s.cache.source_ip6_checked = 0
      · cases ho : (get_source_ip_option
            (world.help (help_command world world.fping6_location)) s.cache.source_ip6_option
            s.cache.source_ip6_checked).1 with
        | none =>
          have key : ping_source_ip6 world s =
              { s with
                cache := { s.cache with
                  source_ip6_option := none
                  source_ip6_checked := (get_source_ip_option
                    (world.help (help_command world world.fping6_location))
                    s.cache.source_ip6_option s.cache.source_ip6_checked).2 }
                spawned := s.spawned ++
                  [Spawn.help_probe (help_command world world.fping6_location)] } := by
            unfold ping_source_ip6
            rw [hip]
            simp only [if_pos hc, if_pos hk, ho]
          rw [key]
          exact ⟨rfl, rfl, rfl, rfl, ⟨_, rfl, by simp [isCapabilityProbe]⟩, rfl⟩
        | some o =>
          have key : ping_source_ip6 world s =
              { s with
                cache := { s.cache with
                  source_ip6_option := some o
                  source_ip6_checked := (get_source_ip_option
                    (world.help (help_command world world.fping6_location))
                    s.cache.source_ip6_option s.cache.source_ip6_checked).2 }
                spawned := s.spawned ++
                  [Spawn.help_probe (help_command world world.fping6_location)]
                params6 := append_param s.params6 (' ' :: o ++ ip) } := by
            unfold ping_source_ip6
            rw [hip]
            simp only [if_pos hc, if_pos hk, ho]
          rw [key]
          exact ⟨rfl, rfl, rfl, rfl, ⟨_, rfl, by simp [isCapabilityProbe]⟩,
            by simp only [if_pos hc]⟩
      · cases ho : s.cache.source_ip6_option with
        | none =>
          have key : ping_source_ip6 world s = s := by
            unfold ping_source_ip6
            rw [hip]
            simp only [if_pos hc, if_neg hk, ho]
          rw [key]
          exact ⟨rfl, rfl, rfl, rfl, ⟨[], by simp, by simp⟩, by simp only [ho]⟩
        | some o =>
          have key : ping_source_ip6 world s =
              { s with params6 := append_param s.params6 (' ' :: o ++ ip) } := by
            unfold ping_source_ip6
            rw [hip]
            simp only [if_pos hc, if_neg hk, ho]
          rw [key]
          exact ⟨rfl, rfl, rfl, rfl, ⟨[], by simp, by simp⟩, by simp only [ho, if_pos hc]⟩
    · have key : ping_source_ip6 world s = s := by
        unfold ping_source_ip6
        rw [hip]
        simp only [if_neg hc]
      rw [key]
      refine ⟨rfl, rfl, rfl, rfl, ⟨[], by simp, by simp⟩, ?_⟩
      cases s.cache.source_ip6_option with
      | none => rfl
      | some o => simp only [if_neg hc]

/-- The bits of `fping_existence` for the binaries that are executable. -/
theorem existence_bits (b4 : Bool) :
    (((if b4 = true then 0 ||| FPING_EXISTS else 0) ||| FPING6_EXISTS) &&& FPING_EXISTS ≠ 0 ↔
        b4 = true) ∧
      (((if b4 = true then 0 ||| FPING_EXISTS else 0) ||| FPING6_EXISTS) &&& FPING6_EXISTS ≠ 0) ∧
      ((if b4 = true then 0 ||| FPING_EXISTS else 0) &&& FPING_EXISTS ≠ 0 ↔ b4 = true) ∧
      ((if b4 = true then 0 ||| FPING_EXISTS else 0) &&& FPING6_EXISTS = 0) := by
  cases b4 <;> decide

/-- What the check of the binaries does in the `HAVE_IPV6` build: it fails
exactly when both binaries are missing, without touching anything but the
error buffer, and otherwise records the binaries that exist. -/
theorem ping_check_binaries_dual (world : PingWorld) (mel : Nat) (s : PingState)
    (hv6 : world.have_ipv6 = true) (h0 : s.fping_existence = 0) :
    (world.fping_executable = false ∧ world.fping6_executable = false →
        ∃ t, ping_check_binaries world mel s = Except.error t ∧ t.spawned = s.spawned ∧
          t.cache = s.cache ∧
          t.error = zbx_snprintf mel
            ("At least one of '".toList ++ world.fping_location ++ "', '".toList ++
              world.fping6_location ++
              "' must exist. Both are missing in the system.".toList)) ∧
      (¬ (world.fping_executable = false ∧ world.fping6_executable = false) →
        ∃ t, ping_check_binaries world mel s = Except.ok t ∧ t.spawned = s.spawned ∧
          t.cache = s.cache ∧ t.error = s.error ∧
          (t.fping_existence &&& FPING_EXISTS ≠ 0 ↔ world.fping_executable = true) ∧
          (t.fping_existence &&& FPING6_EXISTS ≠ 0 ↔ world.fping6_executable = true)) := by
  unfold ping_check_binaries
  rw [hv6, h0]
  simp only [if_true]
  have hb := existence_bits world.fping_executable
  cases h6 : world.fping6_executable with
  | true =>
    refine ⟨fun h => by simp at h, fun _ => ⟨_, rfl, rfl, rfl, rfl, ?_, ?_⟩⟩
    · exact hb.1
    · simp only [iff_true]; exact hb.2.1
  | false =>
    simp only [Bool.false_eq_true, if_false]
    cases h4 : world.fping_executable with
    | true =>
      refine ⟨fun h => by simp at h, fun _ => ?_⟩
      rw [if_neg (by decide)]
      exact ⟨_, rfl, rfl, rfl, rfl,
        (by decide : (0 ||| FPING_EXISTS) &&& FPING_EXISTS ≠ 0 ↔ true = true),
        (by decide : (0 ||| FPING_EXISTS) &&& FPING6_EXISTS ≠ 0 ↔ False)⟩
    | false =>
      refine ⟨fun _ => ?_, fun h => by simp at h⟩
      rw [if_pos (by decide)]
      exact ⟨_, rfl, rfl, rfl, rfl⟩

/-- The exits of `ping_prepare`, step by step. -/
theorem ping_prepare_cases (world : PingWorld) (cache : FpingCache)
    (hosts : List ZBX_FPING_HOST) (N : Nat) (interval size timeout : Int)
    (error : List Char) (mel : Nat) :
    (∃ t, ping_check_binaries world mel ⟨expire_fping_options world cache, error, [], 0, [], []⟩
          = Except.error t ∧
        ping_prepare world cache hosts N interval size timeout error mel = Except.error t) ∨
      (∃ s1, ping_check_binaries world mel
            ⟨expire_fping_options world cache, error, [], 0, [], []⟩ = Except.ok s1 ∧
        ((∃ t, ping_detect_interval world mel hosts
              { s1 with
                params := ping_base_params N interval size timeout
                params6 := if world.have_ipv6 then ping_base_params N interval size timeout
                  else [] } = Except.error t ∧
            ping_prepare world cache hosts N interval size timeout error mel =
              Except.error t) ∨
          (∃ s3, ping_detect_interval world mel hosts
              { s1 with
                params := ping_base_params N interval size timeout
                params6 := if world.have_ipv6 then ping_base_params N interval size timeout
                  else [] } = Except.ok s3 ∧
            ((∃ t, ping_detect_interval6 world mel hosts s3 = Except.error t ∧
                ping_prepare world cache hosts N interval size timeout error mel =
                  Except.error t) ∨
              (∃ s4, ping_detect_interval6 world mel hosts s3 = Except.ok s4 ∧
                ping_prepare world cache hosts N interval size timeout error mel =
                  Except.ok (ping_source_ip6 world (ping_source_ip world s4))))))) := by
  unfold ping_prepare
  dsimp only
  cases h1 : ping_check_binaries world mel
      ⟨expire_fping_options world cache, error, [], 0, [], []⟩ with
  | error t => exact Or.inl ⟨t, rfl, rfl⟩
  | ok s1 =>
    refine Or.inr ⟨s1, rfl, ?_⟩
    dsimp only
    cases h2 : ping_detect_interval world mel hosts
        { s1 with
          params := ping_base_params N interval size timeout
          params6 := if world.have_ipv6 then ping_base_params N interval size timeout
            else [] } with
    | error t => exact Or.inl ⟨t, rfl, rfl⟩
    | ok s3 =>
      refine Or.inr ⟨s3, rfl, ?_⟩
      dsimp only
      cases h3 : ping_detect_interval6 world mel hosts s3 with
      | error t => exact Or.inl ⟨t, rfl, rfl⟩
      | ok s4 => exact Or.inr ⟨s4, rfl, rfl⟩

/-- The check of the binaries changes neither the static variables nor the
list of subprocess calls. -/
theorem ping_check_binaries_frame (world : PingWorld) (mel : Nat) (s t : PingState)
    (h : ping_check_binaries world mel s = Except.ok t ∨
      ping_check_binaries world mel s = Except.error t) :
    t.cache = s.cache ∧ t.spawned = s.spawned ∧ t.params = s.params ∧
      t.params6 = s.params6 := by
  have hex : ∃ u, (ping_check_binaries world mel s = Except.ok u ∨
      ping_check_binaries world mel s = Except.error u) ∧ u.cache = s.cache ∧
      u.spawned = s.spawned ∧ u.params = s.params ∧ u.params6 = s.params6 := by
    unfold ping_check_binaries
    dsimp only
    repeat' split
    all_goals first
      | exact ⟨_, Or.inl rfl, rfl, rfl, rfl, rfl⟩
      | exact ⟨_, Or.inr rfl, rfl, rfl, rfl, rfl⟩
  obtain ⟨u, hu, h1, h2, h3, h4⟩ := hex
  have : u = t := by
    rcases hu with hu | hu <;> rcases h with h | h <;> rw [hu] at h
    · exact Except.ok.inj h
    · exact absurd h (by simp)
    · exact absurd h (by simp)
    · exact Except.error.inj h
  subst this
  exact ⟨h1, h2, h3, h4⟩

theorem prepStep_of_eq (s t : PingState) (hc : t.cache = s.cache)
    (hs : t.spawned = s.spawned) : PrepStep s t :=
  ⟨by rw [hc], by rw [hc], [], by simp [hs], by simp⟩

theorem prepStep_trans (s t u : PingState) (h1 : PrepStep s t) (h2 : PrepStep t u) :
    PrepStep s u := by
  obtain ⟨a1, a2, e1, a3, a4⟩ := h1
  obtain ⟨b1, b2, e2, b3, b4⟩ := h2
  refine ⟨b1.trans a1, b2.trans a2, e1 ++ e2, by rw [b3, a3, List.append_assoc], ?_⟩
  intro e he
  rcases List.mem_append.mp he with he | he
  · exact a4 e he
  · exact b4 e he

theorem prepStep_detect_interval (world : PingWorld) (mel : Nat)
    (hosts : List ZBX_FPING_HOST) (s t : PingState)
    (h : ping_detect_interval world mel hosts s = Except.ok t ∨
      ping_detect_interval world mel hosts s = Except.error t) : PrepStep s t := by
  obtain ⟨_, _, hc, hs, _⟩ := ping_detect_interval_spec world mel hosts s t h
  exact ⟨by rw [hc], by rw [hc], hs⟩

theorem prepStep_detect_interval6 (world : PingWorld) (mel : Nat)
    (hosts : List ZBX_FPING_HOST) (s t : PingState)
    (h : ping_detect_interval6 world mel hosts s = Except.ok t ∨
      ping_detect_interval6 world mel hosts s = Except.error t) : PrepStep s t := by
  obtain ⟨_, _, hc, hs, _⟩ := ping_detect_interval6_spec world mel hosts s t h
  exact ⟨by rw [hc], by rw [hc], hs⟩

theorem prepStep_source_ip (world : PingWorld) (s : PingState) :
    PrepStep s (ping_source_ip world s) := by
  obtain ⟨_, _, _, hc, hs, _⟩ := ping_source_ip_spec world s
  exact ⟨by rw [hc], by rw [hc], hs⟩

theorem prepStep_source_ip6 (world : PingWorld) (s : PingState) :
    PrepStep s (ping_source_ip6 world s) := by
  obtain ⟨_, _, _, hc, hs, _⟩ := ping_source_ip6_spec world s
  exact ⟨by rw [hc], by rw [hc], hs⟩

/-- Whatever the exit of `ping_prepare`, the time of the last reset and the
IPv6 support flag are those left by the expiry step, and only capability
probes have been started. -/
theorem ping_prepare_frame (world : PingWorld) (cache : FpingCache)
    (hosts : List ZBX_FPING_HOST) (N : Nat) (interval size timeout : Int)
    (error : List Char) (mel : Nat) (t : PingState)
    (h : ping_prepare world cache hosts N interval size timeout error mel = Except.ok t ∨
      ping_prepare world cache hosts N interval size timeout error mel = Except.error t) :
    PrepStep ⟨expire_fping_options world cache, error, [], 0, [], []⟩ t := by
  have uniq : ∀ u, (ping_prepare world cache hosts N interval size timeout error mel =
      Except.ok u ∨ ping_prepare world cache hosts N interval size timeout error mel =
      Except.error u) → u = t := by
    intro u hu
    rcases hu with hu | hu <;> rcases h with h | h <;> rw [hu] at h
    · exact Except.ok.inj h
    · exact absurd h (by simp)
    · exact absurd h (by simp)
    · exact Except.error.inj h
  rcases ping_prepare_cases world cache hosts N interval size timeout error mel with
    ⟨u, h1, hp⟩ | ⟨s1, h1, ⟨u, h2, hp⟩ | ⟨s3, h2, ⟨u, h3, hp⟩ | ⟨s4, h3, hp⟩⟩⟩
  · have := uniq u (Or.inr hp)
    subst this
    obtain ⟨c1, c2, _, _⟩ := ping_check_binaries_frame world mel _ u (Or.inr h1)
    exact prepStep_of_eq _ _ c1 c2
  · have := uniq u (Or.inr hp)
    subst this
    obtain ⟨c1, c2, _, _⟩ := ping_check_binaries_frame world mel _ s1 (Or.inl h1)
    have hd := prepStep_detect_interval world mel hosts _ u (Or.inr h2)
    exact prepStep_trans _ _ _ (prepStep_of_eq _ s1 c1 c2)
      (prepStep_trans _ _ _ (prepStep_of_eq s1 _ rfl rfl) hd)
  · have := uniq u (Or.inr hp)
    subst this
    obtain ⟨c1, c2, _, _⟩ := ping_check_binaries_frame world mel _ s1 (Or.inl h1)
    have hd := prepStep_detect_interval world mel hosts _ s3 (Or.inl h2)
    exact prepStep_trans _ _ _ (prepStep_of_eq _ s1 c1 c2)
      (prepStep_trans _ _ _ (prepStep_of_eq s1 _ rfl rfl)
        (prepStep_trans _ _ _ hd
          (prepStep_detect_interval6 world mel hosts s3 u (Or.inr h3))))
  · have := uniq _ (Or.inl hp)
    subst this
    obtain ⟨c1, c2, _, _⟩ := ping_check_binaries_frame world mel _ s1 (Or.inl h1)
    have hd := prepStep_detect_interval world mel hosts _ s3 (Or.inl h2)
    exact prepStep_trans _ _ _ (prepStep_of_eq _ s1 c1 c2)
      (prepStep_trans _ _ _ (prepStep_of_eq s1 _ rfl rfl)
        (prepStep_trans _ _ _ hd
          (prepStep_trans _ _ _ (prepStep_detect_interval6 world mel hosts s3 s4 (Or.inl h3))
            (prepStep_trans _ _ _ (prepStep_source_ip world s4)
              (prepStep_source_ip6 world _)))))

/-! ## The command line -/

/-- The command step with a source IP adds nothing to the state but an error
text. -/
theorem ping_command_source_ip_frame (world : PingWorld) (N mel : Nat) (s : PingState) :
    (∀ u, ping_command_source_ip world N mel s = Except.error u →
        u.cache = s.cache ∧ u.spawned = s.spawned ∧ u.params = s.params ∧
          u.params6 = s.params6) ∧
      (∀ u lb, ping_command_source_ip world N mel s = Except.ok (u, lb) → u = s) := by
  unfold ping_command_source_ip
  cases world.address_family with
  | error e =>
    dsimp only
    refine ⟨fun u h => ?_, fun u lb h => by simp at h⟩
    have := Except.error.inj h
    subst this
    exact ⟨rfl, rfl, rfl, rfl⟩
  | ok is_inet =>
    dsimp only
    cases is_inet with
    | true =>
      simp only [if_true]
      split
      · refine ⟨fun u h => ?_, fun u lb h => by simp at h⟩
        have := Except.error.inj h
        subst this
        exact ⟨rfl, rfl, rfl, rfl⟩
      · refine ⟨fun u h => by simp at h, fun u lb h => ?_⟩
        have := Except.ok.inj h
        exact (congrArg Prod.fst this).symm
    | false =>
      simp only [Bool.false_eq_true, if_false]
      split
      · refine ⟨fun u h => ?_, fun u lb h => by simp at h⟩
        have := Except.error.inj h
        subst this
        exact ⟨rfl, rfl, rfl, rfl⟩
      · refine ⟨fun u h => by simp at h, fun u lb h => ?_⟩
        have := Except.ok.inj h
        exact (congrArg Prod.fst this).symm

/-- The command step without source IP changes the IPv6 support flag only,
and starts at most the IPv6 support probe. -/
theorem ping_command_dual_frame (world : PingWorld) (N : Nat)
    (hosts : List ZBX_FPING_HOST) (s : PingState) :
    (ping_command_dual world N hosts s).1.cache =
        { s.cache with
          fping_ipv6_supported :=
            (ping_command_dual world N hosts s).1.cache.fping_ipv6_supported } ∧
      (ping_command_dual world N hosts s).1.params = s.params ∧
      (ping_command_dual world N hosts s).1.params6 = s.params6 ∧
      (ping_command_dual world N hosts s).1.fping_existence = s.fping_existence ∧
      (ping_command_dual world N hosts s).1.error = s.error ∧
      ∃ extra, (ping_command_dual world N hosts s).1.spawned = s.spawned ++ extra ∧
        ∀ e ∈ extra, ∃ cmd, e = Spawn.ipv6_probe cmd := by
  unfold ping_command_dual
  dsimp only
  by_cases h4 : s.fping_existence &&& FPING_EXISTS ≠ 0
  · simp only [if_pos h4]
    cases hf : s.cache.fping_ipv6_supported with
    | none =>
      dsimp only
      split <;>
        exact ⟨rfl, rfl, rfl, rfl, rfl, _, rfl, by simp [get_ipv6_support]; split <;> simp⟩
    | some r =>
      dsimp only
      split <;> exact ⟨rfl, rfl, rfl, rfl, rfl, [], by simp, by simp⟩
  · simp only [if_neg h4]
    split <;> exact ⟨rfl, rfl, rfl, rfl, rfl, [], by simp, by simp⟩

/-- The command step keeps the time of the last reset and the parameter
buffers, and starts at most the IPv6 support probe. -/
theorem ping_build_command_frame (world : PingWorld) (N mel : Nat)
    (hosts : List ZBX_FPING_HOST) (s u : PingState)
    (h : ping_build_command world N mel hosts s = Except.error u ∨
      ∃ lb, ping_build_command world N mel hosts s = Except.ok (u, lb)) :
    u.cache.fping_check_reset_at = s.cache.fping_check_reset_at ∧ u.params = s.params ∧
      u.params6 = s.params6 ∧
      ∃ extra, u.spawned = s.spawned ++ extra ∧ ∀ e ∈ extra, ∃ cmd, e = Spawn.ipv6_probe cmd := by
  unfold ping_build_command at h
  by_cases hv : world.have_ipv6 = true
  · simp only [hv, if_true] at h
    cases hip : world.source_ip with
    | some ip =>
      rw [hip] at h
      dsimp only at h
      have hf := ping_command_source_ip_frame world N mel s
      rcases h with h | ⟨lb, h⟩
      · obtain ⟨h1, h2, h3, h4⟩ := hf.1 u h
        exact ⟨by rw [h1], h3, h4, [], by simp [h2], by simp⟩
      · have := hf.2 u lb h
        subst this
        exact ⟨rfl, rfl, rfl, [], by simp, by simp⟩
    | none =>
      rw [hip] at h
      dsimp only at h
      have hf := ping_command_dual_frame world N hosts s
      rcases h with h | ⟨lb, h⟩
      · simp at h
      · have hu : u = (ping_command_dual world N hosts s).1 :=
          (congrArg Prod.fst (Except.ok.inj h)).symm
        rw [hu]
        obtain ⟨h1, h2, h3, _, _, h6⟩ := hf
        exact ⟨by rw [h1], h2, h3, h6⟩
  · have hv2 : world.have_ipv6 = false := by simpa using hv
    simp only [hv2] at h
    rcases h with h | ⟨lb, h⟩
    · simp at h
    · have hu : u = s := (congrArg Prod.fst (Except.ok.inj h)).symm
      subst hu
      exact ⟨rfl, rfl, rfl, [], by simp, by simp⟩

/-- The last step keeps the static variables and the parameter buffers; it
starts the command in `linebuf` unless the address file cannot be opened. -/
theorem ping_run_frame (world : PingWorld) (hosts : List ZBX_FPING_HOST) (N allow mel : Nat)
    (s : PingState) (lb : List Char) :
    (ping_run world hosts N allow mel s lb).cache = s.cache ∧
      (ping_run world hosts N allow mel s lb).params = s.params ∧
      (ping_run world hosts N allow mel s lb).params6 = s.params6 ∧
      (((ping_run world hosts N allow mel s lb).spawned = s.spawned ∧
          (ping_run world hosts N allow mel s lb).command = none ∧
          (ping_run world hosts N allow mel s lb).ret = ZbxResult.NOTSUPPORTED ∧
          world.fopen_ok = false) ∨
        ((ping_run world hosts N allow mel s lb).spawned = s.spawned ++ [Spawn.ping_run lb] ∧
          (ping_run world hosts N allow mel s lb).command = some lb ∧
          world.fopen_ok = true)) := by
  unfold ping_run
  by_cases hf : world.fopen_ok = false
  · simp only [if_pos hf]
    exact ⟨rfl, rfl, rfl, Or.inl ⟨rfl, rfl, rfl, hf⟩⟩
  · simp only [if_neg hf]
    have hf2 : world.fopen_ok = true := by simpa using hf
    cases hp : world.popen lb with
    | none => exact ⟨rfl, rfl, rfl, Or.inr ⟨rfl, rfl, hf2⟩⟩
    | some r =>
      obtain ⟨lines, signaled⟩ := r
      exact ⟨rfl, rfl, rfl, Or.inr ⟨rfl, rfl, hf2⟩⟩

/-- After `process_ping` the time of the last reset is the one left by the
expiry step. -/
theorem process_ping_reset_at (world : PingWorld) (cache : FpingCache)
    (hosts : List ZBX_FPING_HOST) (N : Nat) (interval size timeout : Int) (allow : Nat)
    (error : List Char) (mel : Nat) :
    (process_ping world cache hosts N interval size timeout allow error mel).cache.fping_check_reset_at
      = (expire_fping_options world cache).fping_check_reset_at := by
  unfold process_ping
  cases hp : ping_prepare world cache hosts N interval size timeout error mel with
  | error t =>
    dsimp only
    exact (ping_prepare_frame world cache hosts N interval size timeout error mel t
      (Or.inr hp)).1
  | ok t =>
    dsimp only
    have h1 := (ping_prepare_frame world cache hosts N interval size timeout error mel t
      (Or.inl hp)).1
    cases hb : ping_build_command world N mel hosts t with
    | error u =>
      dsimp only
      have h2 := (ping_build_command_frame world N mel hosts t u (Or.inl hb)).1
      show u.cache.fping_check_reset_at = _
      rw [h2]; exact h1
    | ok r =>
      obtain ⟨u, lb⟩ := r
      dsimp only
      have h2 := (ping_build_command_frame world N mel hosts t u (Or.inr ⟨lb, hb⟩)).1
      rw [(ping_run_frame world hosts N allow mel u lb).1, h2]
      exact h1

/-- C12: the expiry step at the start of `process_ping` resets the detected
options exactly when `now - fping_check_reset_at > 3600`: then the reset time
becomes `now`, `source_ip_checked` becomes 0 and `packet_interval` the
uninitialised value, as do `source_ip6_checked`, `packet_interval6` and
`fping_ipv6_supported` (which only exist in the `HAVE_IPV6` build), while the
detected option texts stay; when at most 3600 seconds have passed, 3600
included, the step changes nothing.  The reset time that a call of
`process_ping` leaves behind is the one of this step. -/
theorem expire_fping_options_reset (world : PingWorld) (cache : FpingCache) :
    (world.now - cache.fping_check_reset_at > 3600 →
        (expire_fping_options world cache).fping_check_reset_at = world.now ∧
          (expire_fping_options world cache).source_ip_checked = 0 ∧
          (expire_fping_options world cache).packet_interval = FPING_UNINITIALIZED_VALUE ∧
          (expire_fping_options world cache).source_ip_option = cache.source_ip_option ∧
          (expire_fping_options world cache).source_ip6_option = cache.source_ip6_option ∧
          (world.have_ipv6 = true →
            (expire_fping_options world cache).source_ip6_checked = 0 ∧
              (expire_fping_options world cache).packet_interval6 = FPING_UNINITIALIZED_VALUE ∧
              (expire_fping_options world cache).fping_ipv6_supported = none) ∧
          (world.have_ipv6 = false →
            (expire_fping_options world cache).source_ip6_checked = cache.source_ip6_checked ∧
              (expire_fping_options world cache).packet_interval6 = cache.packet_interval6 ∧
              (expire_fping_options world cache).fping_ipv6_supported =
                cache.fping_ipv6_supported)) ∧
      (world.now - cache.fping_check_reset_at ≤ 3600 →
        expire_fping_options world cache = cache) ∧
      ∀ (hosts : List ZBX_FPING_HOST) (N : Nat) (interval size timeout : Int) (allow : Nat)
        (error : List Char) (mel : Nat),
        (process_ping world cache hosts N interval size timeout allow error
            mel).cache.fping_check_reset_at =
          if world.now - cache.fping_check_reset_at > 3600 then world.now
          else cache.fping_check_reset_at := by
  refine ⟨?_, ?_, ?_⟩
  · intro h
    have h2 : world.now - cache.fping_check_reset_at > FPING_CHECK_EXPIRED := h
    unfold expire_fping_options
    rw [if_pos h2]
    cases hv : world.have_ipv6 with
    | true => simp
    | false => simp
  · intro h
    have h2 : ¬ world.now - cache.fping_check_reset_at > FPING_CHECK_EXPIRED := by
      show ¬ world.now - cache.fping_check_reset_at > 3600
      omega
    unfold expire_fping_options
    rw [if_neg h2]
  · intro hosts N interval size timeout allow error mel
    rw [process_ping_reset_at]
    unfold expire_fping_options
    by_cases h : world.now - cache.fping_check_reset_at > 3600
    · have h2 : world.now - cache.fping_check_reset_at > FPING_CHECK_EXPIRED := h
      rw [if_pos h2, if_pos h]
      split <;> rfl
    · have h2 : ¬ world.now - cache.fping_check_reset_at > FPING_CHECK_EXPIRED := h
      rw [if_neg h2, if_neg h]

theorem expire_fping_options_reset_witness :
    expire_fping_options (example_world [])
        { example_cache with fping_check_reset_at := 96400, packet_interval := 1 } =
      { example_cache with fping_check_reset_at := 96400, packet_interval := 1 } ∧
    (expire_fping_options (example_world [])
        { example_cache with fping_check_reset_at := 96399, packet_interval := 1 }
      ).packet_interval = FPING_UNINITIALIZED_VALUE :=
  ⟨(expire_fping_options_reset (example_world [])
      { example_cache with fping_check_reset_at := 96400, packet_interval := 1 }).2.1
      (by decide),
    ((expire_fping_options_reset (example_world [])
      { example_cache with fping_check_reset_at := 96399, packet_interval := 1 }).1
      (by decide)).2.2.1⟩

/-- The command of a result comes from the last step: `process_ping` either
fails before `popen`, without command, or is the last step run on the state
and the command line of the steps before. -/
theorem process_ping_cases (world : PingWorld) (cache : FpingCache)
    (hosts : List ZBX_FPING_HOST) (N : Nat) (interval size timeout : Int) (allow : Nat)
    (error : List Char) (mel : Nat) :
    ((process_ping world cache hosts N interval size timeout allow error mel).command = none ∧
        (process_ping world cache hosts N interval size timeout allow error mel).ret =
          ZbxResult.NOTSUPPORTED) ∨
      ∃ s u lb, ping_prepare world cache hosts N interval size timeout error mel = Except.ok s ∧
        ping_build_command world N mel hosts s = Except.ok (u, lb) ∧
        process_ping world cache hosts N interval size timeout allow error mel =
          ping_run world hosts N allow mel u lb := by
  unfold process_ping
  cases hp : ping_prepare world cache hosts N interval size timeout error mel with
  | error t => exact Or.inl ⟨rfl, rfl⟩
  | ok t =>
    dsimp only
    cases hb : ping_build_command world N mel hosts t with
    | error u => exact Or.inl ⟨rfl, rfl⟩
    | ok r =>
      obtain ⟨u, lb⟩ := r
      exact Or.inr ⟨t, u, lb, rfl, hb, rfl⟩

/-- The return value of the last step when the subprocess has been started:
FAIL when it was ended by a signal, and otherwise what `process_fping_output`
made of its lines. -/
theorem ping_run_ret (world : PingWorld) (hosts : List ZBX_FPING_HOST) (N allow mel : Nat)
    (s : PingState) (lb : List Char) (lines : List (List Char)) (signaled : Bool)
    (hf : world.fopen_ok = true) (hp : world.popen lb = some (lines, signaled)) :
    (ping_run world hosts N allow mel s lb).ret =
      if signaled then ZbxResult.FAIL
      else if lines ≠ [] then ZbxResult.SUCCEED else ZbxResult.NOTSUPPORTED := by
  unfold ping_run
  have hf2 : ¬ world.fopen_ok = false := by simp [hf]
  rw [if_neg hf2, hp]
  dsimp only
  cases signaled with
  | true => simp
  | false =>
    cases lines with
    | nil => simp [process_fping_output]
    | cons l ls => simp [process_fping_output]

/-- C14, the deviation: whenever `process_ping` has started the command and
the subprocess is ended by a signal, `zbx_ping` returns FAIL, which is neither
SUCCEED nor NOTSUPPORTED. -/
theorem zbx_ping_signaled (world : PingWorld) (cache : FpingCache)
    (hosts : List ZBX_FPING_HOST) (N : Nat) (period size timeout : Int) (allow : Nat)
    (error : List Char) (mel : Nat) (lb : List Char) (lines : List (List Char))
    (hc : (process_ping world cache hosts N period size timeout allow error mel).command =
      some lb)
    (hp : world.popen lb = some (lines, true)) :
    zbx_ping world cache hosts N period size timeout allow error mel = ZbxResult.FAIL := by
  unfold zbx_ping
  rcases process_ping_cases world cache hosts N period size timeout allow error mel with
    h | ⟨s, u, lb1, _, _, h⟩
  · rw [h.1] at hc
    simp at hc
  · rw [h] at hc ⊢
    rcases (ping_run_frame world hosts N allow mel u lb1).2.2.2 with h1 | h1
    · rw [h1.2.1] at hc
      simp at hc
    · rw [h1.2.1] at hc
      have hl : lb1 = lb := by simpa using hc
      subst hl
      rw [ping_run_ret world hosts N allow mel u lb1 lines true h1.2.2 hp]
      simp

/-- C14, failing input: both binaries in place, one host, and a pinger that
is ended by a signal after it printed the summary line of the host. -/
theorem zbx_ping_signaled_witness :
    zbx_ping
        { example_world "8.8.8.8 : xmt/rcv/%loss = 1/1/0%".toList with
          popen := fun _ => some (["8.8.8.8 : 0.05\n".toList], true) }
        example_cache [⟨"8.8.8.8".toList, 0, 0, 0, 0, 0, [false]⟩] 1 0 0 0 0 [] 256 =
      ZbxResult.FAIL :=
  zbx_ping_signaled
    { example_world "8.8.8.8 : xmt/rcv/%loss = 1/1/0%".toList with
      popen := fun _ => some (["8.8.8.8 : 0.05\n".toList], true) }
    example_cache [⟨"8.8.8.8".toList, 0, 0, 0, 0, 0, [false]⟩] 1 0 0 0 0 [] 256
    "/usr/sbin/fping -C1 -i0 2>&1 </tmp/zabbix_server_7.pinger;".toList
    ["8.8.8.8 : 0.05\n".toList] (by decide) rfl

/-! ## The parameter buffers -/

/-- A write that fits the parameter buffer appends the whole text. -/
theorem append_param_fit (params text : List Char)
    (h : params.length + text.length ≤ PARAMS_SIZE - 1) :
    append_param params text = params ++ text := by
  unfold append_param zbx_snprintf
  rw [List.take_of_length_le]
  unfold PARAMS_SIZE at h ⊢
  omega

/-- A conditional write that fits the parameter buffer. -/
theorem append_param_cond_fit (c : Prop) [Decidable c] (params text : List Char)
    (h : params.length + (if c then text else []).length ≤ PARAMS_SIZE - 1) :
    (if c then append_param params text else params) = params ++ (if c then text else []) := by
  by_cases hc : c
  · simp only [if_pos hc] at h ⊢
    exact append_param_fit params text h
  · simp only [if_neg hc, List.append_nil]

/-- The parameters common to both binaries, when they fit the buffer. -/
theorem ping_base_params_fit (N : Nat) (interval size timeout : Int)
    (h : ("-C".toList ++ indexText (N : Int) ++
      (if interval ≠ 0 then " -p".toList ++ indexText interval else []) ++
      (if size ≠ 0 then " -b".toList ++ indexText size else []) ++
      (if timeout ≠ 0 then " -t".toList ++ indexText timeout else [])).length ≤
        PARAMS_SIZE - 1) :
    ping_base_params N interval size timeout =
      "-C".toList ++ indexText (N : Int) ++
        (if interval ≠ 0 then " -p".toList ++ indexText interval else []) ++
        (if size ≠ 0 then " -b".toList ++ indexText size else []) ++
        (if timeout ≠ 0 then " -t".toList ++ indexText timeout else []) := by
  unfold ping_base_params
  simp only [List.length_append] at h
  have h0 : zbx_snprintf PARAMS_SIZE ("-C".toList ++ indexText (N : Int)) =
      "-C".toList ++ indexText (N : Int) := by
    unfold zbx_snprintf
    rw [List.take_of_length_le]
    simp only [List.length_append]
    omega
  dsimp only
  rw [h0, append_param_cond_fit (interval ≠ 0) _ _ (by simp only [List.length_append]; omega),
    append_param_cond_fit (size ≠ 0) _ _ (by simp only [List.length_append]; omega),
    append_param_cond_fit (timeout ≠ 0) _ _ (by simp only [List.length_append]; omega)]

/-- The parameter buffers after a preparation that succeeded, in terms of
the writes into them. -/
theorem ping_prepare_ok_params (world : PingWorld) (cache : FpingCache)
    (hosts : List ZBX_FPING_HOST) (N : Nat) (interval size timeout : Int)
    (error : List Char) (mel : Nat) (s : PingState)
    (h : ping_prepare world cache hosts N interval size timeout error mel = Except.ok s) :
    s.params =
        (match world.source_ip, s.cache.source_ip_option with
          | some ip, some option =>
            if fping_in_use world s then
              append_param
                (if fping_in_use world s ∧ hosts.length ≠ 0 then
                  append_param (ping_base_params N interval size timeout)
                    (" -i".toList ++ indexText s.cache.packet_interval)
                else ping_base_params N interval size timeout)
                (' ' :: option ++ ip)
            else
              (if fping_in_use world s ∧ hosts.length ≠ 0 then
                append_param (ping_base_params N interval size timeout)
                  (" -i".toList ++ indexText s.cache.packet_interval)
              else ping_base_params N interval size timeout)
          | _, _ =>
            (if fping_in_use world s ∧ hosts.length ≠ 0 then
              append_param (ping_base_params N interval size timeout)
                (" -i".toList ++ indexText s.cache.packet_interval)
            else ping_base_params N interval size timeout)) ∧
      s.params6 =
        (match world.source_ip, s.cache.source_ip6_option with
          | some ip, some option =>
            if fping6_in_use world s then
              append_param
                (if fping6_in_use world s ∧ hosts.length ≠ 0 then
                  append_param
                    (if world.have_ipv6 then ping_base_params N interval size timeout else [])
                    (" -i".toList ++ indexText s.cache.packet_interval6)
                else if world.have_ipv6 then ping_base_params N interval size timeout else [])
                (' ' :: option ++ ip)
            else
              (if fping6_in_use world s ∧ hosts.length ≠ 0 then
                append_param
                  (if world.have_ipv6 then ping_base_params N interval size timeout else [])
                  (" -i".toList ++ indexText s.cache.packet_interval6)
              else if world.have_ipv6 then ping_base_params N interval size timeout else [])
          | _, _ =>
            (if fping6_in_use world s ∧ hosts.length ≠ 0 then
              append_param
                (if world.have_ipv6 then ping_base_params N interval size timeout else [])
                (" -i".toList ++ indexText s.cache.packet_interval6)
            else if world.have_ipv6 then ping_base_params N interval size timeout else [])) := by
  rcases ping_prepare_cases world cache hosts N interval size timeout error mel with
    ⟨t, _, ht⟩ | ⟨s1, hs1, ⟨t, _, ht⟩ | ⟨s3, hs3, ⟨t, _, ht⟩ | ⟨s4, hs4, hok⟩⟩⟩
  · rw [h] at ht; cases ht
  · rw [h] at ht; cases ht
  · rw [h] at ht; cases ht
  · rw [h] at hok
    have hs : s = ping_source_ip6 world (ping_source_ip world s4) := Except.ok.inj hok
    obtain ⟨e3, p63, c3, _, q3⟩ := ping_detect_interval_spec world mel hosts _ s3 (Or.inl hs3)
    obtain ⟨e4, p4, c4, _, q4⟩ := ping_detect_interval6_spec world mel hosts s3 s4 (Or.inl hs4)
    obtain ⟨e5, p65, _, c5, _, q5⟩ := ping_source_ip_spec world s4
    obtain ⟨e6, p6, _, c6, _, q6⟩ := ping_source_ip6_spec world (ping_source_ip world s4)
    rw [← hs] at e6 p6 c6 q6
    have q3 := q3 hs3
    have q4 := q4 hs4
    dsimp only at e3 p63 c3 q3
    have i1 : s.cache.packet_interval = s3.cache.packet_interval := by
      rw [c6, c5, c4]
    have i2 : s.cache.packet_interval6 = s4.cache.packet_interval6 := by
      rw [c6, c5]
    have o1 : s.cache.source_ip_option = (ping_source_ip world s4).cache.source_ip_option := by
      rw [c6]
    have u4 : fping_in_use world s4 ↔ fping_in_use world s := by
      simp only [fping_in_use, e6, e5]
    have u2 : fping_in_use world
        { s1 with
          params := ping_base_params N interval size timeout
          params6 := if world.have_ipv6 then ping_base_params N interval size timeout
            else [] } ↔ fping_in_use world s := by
      simp only [fping_in_use, e6, e5, e4, e3]
    have v5 : fping6_in_use world (ping_source_ip world s4) ↔ fping6_in_use world s := by
      simp only [fping6_in_use, e6]
    have v3 : fping6_in_use world s3 ↔ fping6_in_use world s := by
      simp only [fping6_in_use, e6, e5, e4]
    constructor
    · rw [p6, q5, ← o1, p4, q3, i1]
      simp only [u4, u2]
    · rw [q6, p65, q4, p63, i2]
      simp only [v5, v3]

/-- C19: after a preparation that succeeded, the parameter buffer of a binary
in use holds exactly `params_text` with the minimum interval and the source
IP flag that the static variables hold for that binary, provided this text
fits the buffer of 70 bytes; and `process_ping` leaves the buffers as the
preparation built them. -/
theorem ping_prepare_params (world : PingWorld) (cache : FpingCache)
    (hosts : List ZBX_FPING_HOST) (N : Nat) (interval size timeout : Int)
    (error : List Char) (mel : Nat) (s : PingState)
    (h : ping_prepare world cache hosts N interval size timeout error mel = Except.ok s) :
    (fping_in_use world s →
        (params_text N interval size timeout hosts.length s.cache.packet_interval
          s.cache.source_ip_option world.source_ip).length ≤ PARAMS_SIZE - 1 →
        s.params = params_text N interval size timeout hosts.length s.cache.packet_interval
          s.cache.source_ip_option world.source_ip) ∧
      (fping6_in_use world s →
        (params_text N interval size timeout hosts.length s.cache.packet_interval6
          s.cache.source_ip6_option world.source_ip).length ≤ PARAMS_SIZE - 1 →
        s.params6 = params_text N interval size timeout hosts.length s.cache.packet_interval6
          s.cache.source_ip6_option world.source_ip) ∧
      ∀ allow : Nat,
        (process_ping world cache hosts N interval size timeout allow error mel).params =
            s.params ∧
          (process_ping world cache hosts N interval size timeout allow error mel).params6 =
            s.params6 := by
  obtain ⟨hp, hp6⟩ := ping_prepare_ok_params world cache hosts N interval size timeout error
    mel s h
  refine ⟨?_, ?_, ?_⟩
  · intro hu hfit
    rw [hp]
    unfold params_text at hfit ⊢
    simp only [List.length_append] at hfit
    have hb := ping_base_params_fit N interval size timeout
      (by simp only [List.length_append]; omega)
    rw [hb]
    have hi := append_param_cond_fit (hosts.length ≠ 0)
      ("-C".toList ++ indexText (N : Int) ++
        (if interval ≠ 0 then " -p".toList ++ indexText interval else []) ++
        (if size ≠ 0 then " -b".toList ++ indexText size else []) ++
        (if timeout ≠ 0 then " -t".toList ++ indexText timeout else []))
      (" -i".toList ++ indexText s.cache.packet_interval)
      (by simp only [List.length_append]; omega)
    simp only [hu, true_and, if_true]
    rw [hi]
    cases hip : world.source_ip with
    | none => simp
    | some ip =>
      cases ho : s.cache.source_ip_option with
      | none => simp
      | some o =>
        rw [hip, ho] at hfit
        dsimp only at hfit ⊢
        rw [append_param_fit _ _ (by
          simp only [List.length_append, List.length_cons] at hfit ⊢; omega)]
  · intro hu hfit
    have hv : world.have_ipv6 = true := hu.1
    rw [hp6]
    unfold params_text at hfit ⊢
    simp only [List.length_append] at hfit
    have hb := ping_base_params_fit N interval size timeout
      (by simp only [List.length_append]; omega)
    simp only [if_pos hu, and_iff_right hu]
    simp only [hv, if_true]
    rw [hb]
    have hi := append_param_cond_fit (hosts.length ≠ 0)
      ("-C".toList ++ indexText (N : Int) ++
        (if interval ≠ 0 then " -p".toList ++ indexText interval else []) ++
        (if size ≠ 0 then " -b".toList ++ indexText size else []) ++
        (if timeout ≠ 0 then " -t".toList ++ indexText timeout else []))
      (" -i".toList ++ indexText s.cache.packet_interval6)
      (by simp only [List.length_append]; omega)
    rw [hi]
    cases hip : world.source_ip with
    | none => simp
    | some ip =>
      cases ho : s.cache.source_ip6_option with
      | none => simp
      | some o =>
        rw [hip, ho] at hfit
        dsimp only at hfit ⊢
        rw [append_param_fit _ _ (by
          simp only [List.length_append, List.length_cons] at hfit ⊢; omega)]
  · intro allow
    unfold process_ping
    rw [h]
    dsimp only
    cases hb : ping_build_command world N mel hosts s with
    | error u =>
      obtain ⟨_, h2, h3, _⟩ := ping_build_command_frame world N mel hosts s u (Or.inl hb)
      exact ⟨h2, h3⟩
    | ok r =>
      obtain ⟨u, lb⟩ := r
      obtain ⟨_, h2, h3, _⟩ := ping_build_command_frame world N mel hosts s u
        (Or.inr ⟨lb, hb⟩)
      obtain ⟨_, r2, r3, _⟩ := ping_run_frame world hosts N allow mel u lb
      dsimp only
      exact ⟨by rw [r2, h2], by rw [r3, h3]⟩

/-- C19, an instance: 3 requests, interval 1000, size 56, no timeout, one
host, minimum interval 0 and the flag `-S` for the source IP
`192.168.1.10`. -/
theorem ping_prepare_params_witness :
    example_prepared.params = "-C3 -p1000 -b56 -i0 -S192.168.1.10".toList ∧
      example_prepared.params6 = "-C3 -p1000 -b56 -i0 -S192.168.1.10".toList :=
  ⟨(ping_prepare_params example_world_source_ip example_cache
      [⟨"8.8.8.8".toList, 0, 0, 0, 0, 0, []⟩] 3 1000 56 0 [] 256 example_prepared
      rfl).1 (by decide) (by decide),
    (ping_prepare_params example_world_source_ip example_cache
      [⟨"8.8.8.8".toList, 0, 0, 0, 0, 0, []⟩] 3 1000 56 0 [] 256 example_prepared
      rfl).2.1 (by decide) (by decide)⟩

/-! ## The command line -/

/-- In the `HAVE_IPV6` build the check of the binaries records in
`fping_existence` exactly the binaries that are executable, on both of its
exits. -/
theorem ping_check_binaries_existence (world : PingWorld) (mel : Nat) (s t : PingState)
    (hv : world.have_ipv6 = true) (h0 : s.fping_existence = 0)
    (h : ping_check_binaries world mel s = Except.ok t ∨
      ping_check_binaries world mel s = Except.error t) :
    (t.fping_existence &&& FPING_EXISTS ≠ 0 ↔ world.fping_executable = true) ∧
      (t.fping_existence &&& FPING6_EXISTS ≠ 0 ↔ world.fping6_executable = true) := by
  unfold ping_check_binaries at h
  simp only [hv, if_true, h0] at h
  cases h4 : world.fping_executable <;> cases h6 : world.fping6_executable <;>
    simp [h4, h6, FPING_EXISTS, FPING6_EXISTS] at h <;>
    subst h <;> simp [FPING_EXISTS, FPING6_EXISTS]

/-- In the `HAVE_IPV6` build the preparation leaves in `fping_existence`
exactly the binaries that are executable, on both of its exits. -/
theorem ping_prepare_existence (world : PingWorld) (cache : FpingCache)
    (hosts : List ZBX_FPING_HOST) (N : Nat) (interval size timeout : Int)
    (error : List Char) (mel : Nat) (t : PingState) (hv : world.have_ipv6 = true)
    (h : ping_prepare world cache hosts N interval size timeout error mel = Except.ok t ∨
      ping_prepare world cache hosts N interval size timeout error mel = Except.error t) :
    (t.fping_existence &&& FPING_EXISTS ≠ 0 ↔ world.fping_executable = true) ∧
      (t.fping_existence &&& FPING6_EXISTS ≠ 0 ↔ world.fping6_executable = true) := by
  rcases ping_prepare_cases world cache hosts N interval size timeout error mel with
    ⟨u, hu, hp⟩ | ⟨s1, hs1, ⟨u, hu, hp⟩ | ⟨s3, hs3, ⟨u, hu, hp⟩ | ⟨s4, hs4, hp⟩⟩⟩
  · have ht : t = u := by
      rcases h with h | h <;> rw [hp] at h <;> cases h
      rfl
    subst ht
    exact ping_check_binaries_existence world mel _ t hv rfl (Or.inr hu)
  · have ht : t = u := by
      rcases h with h | h <;> rw [hp] at h <;> cases h
      rfl
    subst ht
    have e1 := ping_check_binaries_existence world mel _ s1 hv rfl (Or.inl hs1)
    have e3 := (ping_detect_interval_spec world mel hosts _ t (Or.inr hu)).1
    dsimp only at e3
    rw [e3]
    exact e1
  · have ht : t = u := by
      rcases h with h | h <;> rw [hp] at h <;> cases h
      rfl
    subst ht
    have e1 := ping_check_binaries_existence world mel _ s1 hv rfl (Or.inl hs1)
    have e3 := (ping_detect_interval_spec world mel hosts _ s3 (Or.inl hs3)).1
    have e4 := (ping_detect_interval6_spec world mel hosts s3 t (Or.inr hu)).1
    dsimp only at e3
    rw [e4, e3]
    exact e1
  · have ht : t = ping_source_ip6 world (ping_source_ip world s4) := by
      rcases h with h | h <;> rw [hp] at h <;> cases h
      rfl
    subst ht
    have e1 := ping_check_binaries_existence world mel _ s1 hv rfl (Or.inl hs1)
    have e3 := (ping_detect_interval_spec world mel hosts _ s3 (Or.inl hs3)).1
    have e4 := (ping_detect_interval6_spec world mel hosts s3 s4 (Or.inl hs4)).1
    have e5 := (ping_source_ip_spec world s4).1
    have e6 := (ping_source_ip6_spec world (ping_source_ip world s4)).1
    dsimp only at e3
    rw [e6, e5, e4, e3]
    exact e1

/-- The command line without source IP when fping exists: the IPv6 support
flag is the known one or the one detected now, the invocation of fping comes
first, and the invocation of fping6 follows when fping6 exists and the flag is
not SUCCEED. -/
theorem ping_command_dual_fping (world : PingWorld) (N : Nat) (hosts : List ZBX_FPING_HOST)
    (s : PingState) (h4 : s.fping_existence &&& FPING_EXISTS ≠ 0) :
    (ping_command_dual world N hosts s).1.cache.fping_ipv6_supported =
        some (match s.cache.fping_ipv6_supported with
          | none => (get_ipv6_support world world.fping_location
              ((hosts.head?.map (fun h => h.addr)).getD [])).1
          | some v => v) ∧
      (ping_command_dual world N hosts s).2 =
        zbx_snprintf (linebuf_size world N)
            (ping_invocation world world.fping_location s.params [';']) ++
          (if s.fping_existence &&& FPING6_EXISTS ≠ 0 ∧
              (ping_command_dual world N hosts s).1.cache.fping_ipv6_supported ≠
                some ZbxResult.SUCCEED then
            zbx_snprintf
              (linebuf_size world N -
                (zbx_snprintf (linebuf_size world N)
                  (ping_invocation world world.fping_location s.params [';'])).length)
              (ping_invocation world world.fping6_location s.params6 [';'])
          else []) := by
  unfold ping_command_dual
  simp only [if_pos h4]
  cases hf : s.cache.fping_ipv6_supported with
  | none =>
    dsimp only [Option.getD_some]
    by_cases hc : s.fping_existence &&& FPING6_EXISTS ≠ 0 ∧
        some (get_ipv6_support world world.fping_location
          ((hosts.head?.map (fun h => h.addr)).getD [])).1 ≠ some ZbxResult.SUCCEED
    · rw [if_pos hc]
      dsimp only
      rw [if_pos hc]
      exact ⟨rfl, rfl⟩
    · rw [if_neg hc]
      dsimp only
      rw [if_neg hc]
      exact ⟨rfl, by simp⟩
  | some v =>
    dsimp only [Option.getD_some]
    by_cases hc : s.fping_existence &&& FPING6_EXISTS ≠ 0 ∧
        s.cache.fping_ipv6_supported ≠ some ZbxResult.SUCCEED
    · rw [if_pos hc]
      dsimp only
      rw [if_pos hc]
      exact ⟨hf, rfl⟩
    · rw [if_neg hc]
      dsimp only
      rw [if_neg hc]
      exact ⟨hf, by simp⟩

/-- C16: in the `HAVE_IPV6` build without source IP and with both binaries
executable, a command line that `process_ping` passes to `popen` starts with
the invocation of fping with the parameters of fping, and continues with the
invocation of fping6 with the parameters of fping6 exactly when the IPv6
support flag of fping is not SUCCEED, with nothing else; the flag is the one
the expiry step left or, if that is uninitialised, the result of
`get_ipv6_support` for the first host. -/
theorem process_ping_dual_command (world : PingWorld) (cache : FpingCache)
    (hosts : List ZBX_FPING_HOST) (N : Nat) (interval size timeout : Int) (allow : Nat)
    (error : List Char) (mel : Nat) (cmd : List Char)
    (hv : world.have_ipv6 = true) (hs : world.source_ip = none)
    (h4 : world.fping_executable = true) (h6 : world.fping6_executable = true)
    (hc : (process_ping world cache hosts N interval size timeout allow error mel).command =
      some cmd) :
    (process_ping world cache hosts N interval size timeout allow error
        mel).cache.fping_ipv6_supported =
        some (match (expire_fping_options world cache).fping_ipv6_supported with
          | none => (get_ipv6_support world world.fping_location
              ((hosts.head?.map (fun h => h.addr)).getD [])).1
          | some v => v) ∧
      cmd =
        zbx_snprintf (linebuf_size world N)
            (ping_invocation world world.fping_location
              (process_ping world cache hosts N interval size timeout allow error mel).params
              [';']) ++
          (if (process_ping world cache hosts N interval size timeout allow error
              mel).cache.fping_ipv6_supported ≠ some ZbxResult.SUCCEED then
            zbx_snprintf
              (linebuf_size world N -
                (zbx_snprintf (linebuf_size world N)
                  (ping_invocation world world.fping_location
                    (process_ping world cache hosts N interval size timeout allow error
                      mel).params [';'])).length)
              (ping_invocation world world.fping6_location
                (process_ping world cache hosts N interval size timeout allow error
                  mel).params6 [';'])
          else []) := by
  rcases process_ping_cases world cache hosts N interval size timeout allow error mel with
    h | ⟨s, u, lb, hp, hb, hr⟩
  · rw [h.1] at hc
    simp at hc
  · have hpair : ping_command_dual world N hosts s = (u, lb) := by
      unfold ping_build_command at hb
      simp only [hv, hs, if_true] at hb
      exact Except.ok.inj hb
    obtain ⟨e4, e6⟩ := ping_prepare_existence world cache hosts N interval size timeout error
      mel s hv (Or.inl hp)
    have b4 : s.fping_existence &&& FPING_EXISTS ≠ 0 := e4.mpr h4
    have b6 : s.fping_existence &&& FPING6_EXISTS ≠ 0 := e6.mpr h6
    obtain ⟨d1, d2⟩ := ping_command_dual_fping world N hosts s b4
    obtain ⟨_, f2, f3, _⟩ := ping_command_dual_frame world N hosts s
    rw [hpair] at d1 d2 f2 f3
    dsimp only at d1 d2 f2 f3
    have hflag := (ping_prepare_frame world cache hosts N interval size timeout error mel s
      (Or.inl hp)).2.1
    dsimp only at hflag
    obtain ⟨r1, r2, r3, r4⟩ := ping_run_frame world hosts N allow mel u lb
    rw [hr] at hc ⊢
    rw [r1, r2, r3, f2, f3]
    rcases r4 with r4 | r4
    · rw [r4.2.1] at hc
      simp at hc
    · rw [r4.2.1] at hc
      have hl : lb = cmd := by simpa using hc
      subst hl
      refine ⟨by rw [d1, hflag], ?_⟩
      rw [d2]
      simp only [b6, true_and, ne_eq, not_false_eq_true]

/-- C16, two instances with one host and 3 requests: an fping that answers the
IPv6 support probe is started alone, an fping whose probe fails is followed
by fping6. -/
theorem process_ping_dual_command_witness :
    ((process_ping (example_world "8.8.8.8 : xmt/rcv/%loss = 1/1/0%".toList) example_cache
          [⟨"8.8.8.8".toList, 0, 0, 0, 0, 0, []⟩] 3 0 0 0 0 [] 256).command =
        some "/usr/sbin/fping -C3 -i0 2>&1 </tmp/zabbix_server_7.pinger;".toList ∧
      (process_ping (example_world "8.8.8.8 : xmt/rcv/%loss = 1/1/0%".toList) example_cache
          [⟨"8.8.8.8".toList, 0, 0, 0, 0, 0, []⟩] 3 0 0 0 0 [] 256).cache.fping_ipv6_supported =
        some ZbxResult.SUCCEED) ∧
      ((process_ping example_world_no_ipv6_support example_cache
          [⟨"8.8.8.8".toList, 0, 0, 0, 0, 0, []⟩] 3 0 0 0 0 [] 256).command =
        some ("/usr/sbin/fping -C3 -i0 2>&1 </tmp/zabbix_server_7.pinger;" ++
          "/usr/sbin/fping6 -C3 -i0 2>&1 </tmp/zabbix_server_7.pinger;").toList ∧
      (process_ping example_world_no_ipv6_support example_cache
          [⟨"8.8.8.8".toList, 0, 0, 0, 0, 0, []⟩] 3 0 0 0 0 [] 256).cache.fping_ipv6_supported =
        some ZbxResult.FAIL) :=
  ⟨⟨by decide,
      (process_ping_dual_command (example_world "8.8.8.8 : xmt/rcv/%loss = 1/1/0%".toList)
        example_cache [⟨"8.8.8.8".toList, 0, 0, 0, 0, 0, []⟩] 3 0 0 0 0 [] 256
        "/usr/sbin/fping -C3 -i0 2>&1 </tmp/zabbix_server_7.pinger;".toList
        rfl rfl rfl rfl (by decide)).1⟩,
    ⟨by decide,
      (process_ping_dual_command example_world_no_ipv6_support
        example_cache [⟨"8.8.8.8".toList, 0, 0, 0, 0, 0, []⟩] 3 0 0 0 0 [] 256
        ("/usr/sbin/fping -C3 -i0 2>&1 </tmp/zabbix_server_7.pinger;" ++
          "/usr/sbin/fping6 -C3 -i0 2>&1 </tmp/zabbix_server_7.pinger;").toList
        rfl rfl rfl rfl (by decide)).1⟩⟩

/-- C15 as stated fails: with the IPv4 source IP `192.168.1.10`, fping missing
and fping6 in place, a time-out of the interval probe of fping6 ends the call
with the diagnostic of the probe; the diagnostic `File '/usr/sbin/fping'
cannot be found in the system.` is not reached. -/
theorem process_ping_source_ip_counterexample :
    example_world_fping_missing_timeout.have_ipv6 = true ∧
      example_world_fping_missing_timeout.source_ip = some "192.168.1.10".toList ∧
      example_world_fping_missing_timeout.address_family = Except.ok true ∧
      example_world_fping_missing_timeout.fping_executable = false ∧
      example_world_fping_missing_timeout.fping6_executable = true ∧
      (process_ping example_world_fping_missing_timeout example_cache
          [⟨"8.8.8.8".toList, 0, 0, 0, 0, 0, []⟩] 3 0 0 0 0 [] 256).ret =
        ZbxResult.NOTSUPPORTED ∧
      (process_ping example_world_fping_missing_timeout example_cache
          [⟨"8.8.8.8".toList, 0, 0, 0, 0, 0, []⟩] 3 0 0 0 0 [] 256).error =
        "Timeout while executing \"/usr/sbin/fping6 -c1 -t50 -i0 8.8.8.8\"".toList ∧
      (process_ping example_world_fping_missing_timeout example_cache
          [⟨"8.8.8.8".toList, 0, 0, 0, 0, 0, []⟩] 3 0 0 0 0 [] 256).error ≠
        "File '/usr/sbin/fping' cannot be found in the system.".toList := by
  exact ⟨rfl, rfl, rfl, rfl, rfl, by decide, by decide, by decide⟩

/-- C15, amended: in the `HAVE_IPV6` build with a source IP whose address
family is known, once the preparation has succeeded, `process_ping` selects
fping for an IPv4 source IP and fping6 otherwise: if the selected binary is
executable and the address file can be written, the command line is the single
invocation of that binary with its parameters; if it is not executable, the
call ends as NOTSUPPORTED without command line and with the diagnostic
`File '<path>' cannot be found in the system.` naming it. -/
theorem process_ping_source_ip_command (world : PingWorld) (cache : FpingCache)
    (hosts : List ZBX_FPING_HOST) (N : Nat) (interval size timeout : Int) (allow : Nat)
    (error : List Char) (mel : Nat) (ip : List Char) (is_inet : Bool) (s : PingState)
    (hv : world.have_ipv6 = true) (hs : world.source_ip = some ip)
    (hfam : world.address_family = Except.ok is_inet)
    (hp : ping_prepare world cache hosts N interval size timeout error mel = Except.ok s) :
    ((if is_inet then world.fping_executable else world.fping6_executable) = true →
        world.fopen_ok = true →
        (process_ping world cache hosts N interval size timeout allow error mel).command =
          some (zbx_snprintf (linebuf_size world N)
            (ping_invocation world
              (if is_inet then world.fping_location else world.fping6_location)
              (if is_inet then s.params else s.params6) []))) ∧
      ((if is_inet then world.fping_executable else world.fping6_executable) = false →
        (process_ping world cache hosts N interval size timeout allow error mel).ret =
            ZbxResult.NOTSUPPORTED ∧
          (process_ping world cache hosts N interval size timeout allow error mel).command =
            none ∧
          (process_ping world cache hosts N interval size timeout allow error mel).error =
            zbx_snprintf mel
              ("File '".toList ++
                (if is_inet then world.fping_location else world.fping6_location) ++
                "' cannot be found in the system.".toList)) := by
  have hb : ping_build_command world N mel hosts s = ping_command_source_ip world N mel s := by
    unfold ping_build_command
    simp only [hv, hs, if_true]
  obtain ⟨e4, e6⟩ := ping_prepare_existence world cache hosts N interval size timeout error
    mel s hv (Or.inl hp)
  unfold process_ping
  rw [hp]
  dsimp only
  rw [hb]
  unfold ping_command_source_ip
  rw [hfam]
  dsimp only
  cases is_inet with
  | true =>
    simp only [if_true]
    by_cases h4 : world.fping_executable = true
    · have b4 : ¬ s.fping_existence &&& FPING_EXISTS = 0 := e4.mpr h4
      rw [if_neg b4]
      dsimp only
      refine ⟨fun _ hf => ?_, fun hx => ?_⟩
      · rcases (ping_run_frame world hosts N allow mel s (zbx_snprintf (linebuf_size world N)
          (ping_invocation world world.fping_location s.params []))).2.2.2 with r | r
        · rw [r.2.2.2] at hf
          cases hf
        · exact r.2.1
      · rw [h4] at hx
        cases hx
    · have b4 : s.fping_existence &&& FPING_EXISTS = 0 := by
        by_contra hne
        exact h4 (e4.mp hne)
      rw [if_pos b4]
      dsimp only
      exact ⟨fun hx => absurd hx h4, fun _ => ⟨rfl, rfl, rfl⟩⟩
  | false =>
    simp only [Bool.false_eq_true, if_false]
    by_cases h6 : world.fping6_executable = true
    · have b6 : ¬ s.fping_existence &&& FPING6_EXISTS = 0 := e6.mpr h6
      rw [if_neg b6]
      dsimp only
      refine ⟨fun _ hf => ?_, fun hx => ?_⟩
      · rcases (ping_run_frame world hosts N allow mel s (zbx_snprintf (linebuf_size world N)
          (ping_invocation world world.fping6_location s.params6 []))).2.2.2 with r | r
        · rw [r.2.2.2] at hf
          cases hf
        · exact r.2.1
      · rw [h6] at hx
        cases hx
    · have b6 : s.fping_existence &&& FPING6_EXISTS = 0 := by
        by_contra hne
        exact h6 (e6.mp hne)
      rw [if_pos b6]
      dsimp only
      exact ⟨fun hx => absurd hx h6, fun _ => ⟨rfl, rfl, rfl⟩⟩
/-- C15, two instances with the IPv4 source IP `192.168.1.10`: with both
binaries in place fping alone is started, and with fping missing the call
ends with the diagnostic that names it. -/
theorem process_ping_source_ip_command_witness :
    (process_ping example_world_source_ip example_cache
          [⟨"8.8.8.8".toList, 0, 0, 0, 0, 0, []⟩] 3 0 0 0 0 [] 256).command =
        some ("/usr/sbin/fping -C3 -i0 -S192.168.1.10 2>&1 " ++
          "</tmp/zabbix_server_7.pinger").toList ∧
      ((process_ping example_world_fping_missing example_cache
            [⟨"8.8.8.8".toList, 0, 0, 0, 0, 0, []⟩] 3 0 0 0 0 [] 256).ret =
          ZbxResult.NOTSUPPORTED ∧
        (process_ping example_world_fping_missing example_cache
            [⟨"8.8.8.8".toList, 0, 0, 0, 0, 0, []⟩] 3 0 0 0 0 [] 256).command = none ∧
        (process_ping example_world_fping_missing example_cache
            [⟨"8.8.8.8".toList, 0, 0, 0, 0, 0, []⟩] 3 0 0 0 0 [] 256).error =
          "File '/usr/sbin/fping' cannot be found in the system.".toList) :=
  ⟨(process_ping_source_ip_command example_world_source_ip example_cache
      [⟨"8.8.8.8".toList, 0, 0, 0, 0, 0, []⟩] 3 0 0 0 0 [] 256 "192.168.1.10".toList true
      (prepared_state (ping_prepare example_world_source_ip example_cache
        [⟨"8.8.8.8".toList, 0, 0, 0, 0, 0, []⟩] 3 0 0 0 [] 256))
      rfl rfl rfl rfl).1 rfl rfl,
    (process_ping_source_ip_command example_world_fping_missing example_cache
      [⟨"8.8.8.8".toList, 0, 0, 0, 0, 0, []⟩] 3 0 0 0 0 [] 256 "192.168.1.10".toList true
      (prepared_state (ping_prepare example_world_fping_missing example_cache
        [⟨"8.8.8.8".toList, 0, 0, 0, 0, 0, []⟩] 3 0 0 0 [] 256))
      rfl rfl rfl rfl).2 rfl⟩

/-- C17, the deviation: in the `HAVE_IPV6` build without source IP, when only
fping6 is executable and the IPv6 support flag left by the expiry step is
SUCCEED (detected when fping was still in place), `process_ping` writes
nothing into `linebuf`: after a preparation that succeeded, the command
passed to `popen` is what the buffer held when it was allocated, and fping6
is not invoked. -/
theorem process_ping_stale_ipv6_support (world : PingWorld) (cache : FpingCache)
    (hosts : List ZBX_FPING_HOST) (N : Nat) (interval size timeout : Int) (allow : Nat)
    (error : List Char) (mel : Nat) (s : PingState)
    (hv : world.have_ipv6 = true) (hs : world.source_ip = none)
    (h4 : world.fping_executable = false) (h6 : world.fping6_executable = true)
    (hflag : (expire_fping_options world cache).fping_ipv6_supported =
      some ZbxResult.SUCCEED)
    (hf : world.fopen_ok = true)
    (hp : ping_prepare world cache hosts N interval size timeout error mel = Except.ok s) :
    (process_ping world cache hosts N interval size timeout allow error mel).command =
        some world.linebuf_init ∧
      (process_ping world cache hosts N interval size timeout allow error mel).spawned =
        s.spawned ++ [Spawn.ping_run world.linebuf_init] := by
  obtain ⟨e4, e6⟩ := ping_prepare_existence world cache hosts N interval size timeout error
    mel s hv (Or.inl hp)
  have b4 : ¬ s.fping_existence &&& FPING_EXISTS ≠ 0 := by
    intro hne
    have := e4.mp hne
    rw [h4] at this
    cases this
  have b6 : s.fping_existence &&& FPING6_EXISTS ≠ 0 := e6.mpr h6
  have hfl : s.cache.fping_ipv6_supported = some ZbxResult.SUCCEED := by
    have := (ping_prepare_frame world cache hosts N interval size timeout error mel s
      (Or.inl hp)).2.1
    dsimp only at this
    rw [this, hflag]
  have hd : ping_command_dual world N hosts s = (s, world.linebuf_init) := by
    unfold ping_command_dual
    simp only [if_neg b4]
    have hc : ¬ (s.fping_existence &&& FPING6_EXISTS ≠ 0 ∧
        s.cache.fping_ipv6_supported ≠ some ZbxResult.SUCCEED) := fun h => h.2 hfl
    rw [if_neg hc]
    rfl
  have hb : ping_build_command world N mel hosts s = Except.ok (s, world.linebuf_init) := by
    unfold ping_build_command
    simp only [hv, hs, if_true, hd]
  unfold process_ping
  rw [hp]
  dsimp only
  rw [hb]
  dsimp only
  rcases (ping_run_frame world hosts N allow mel s world.linebuf_init).2.2.2 with r | r
  · rw [r.2.2.2] at hf
    cases hf
  · exact ⟨r.2.1, r.1⟩

/-- C17, failing input: a first call with both binaries in place detects IPv6
support of fping; one minute later fping has been removed, and the second
call, with only fping6 executable, starts the contents of the fresh buffer
instead of fping6. -/
theorem process_ping_stale_ipv6_support_witness :
    (process_ping example_world_fping_removed
        (process_ping (example_world "8.8.8.8 : xmt/rcv/%loss = 1/1/0%".toList) example_cache
          [⟨"8.8.8.8".toList, 0, 0, 0, 0, 0, []⟩] 3 0 0 0 0 [] 256).cache
        [⟨"8.8.8.8".toList, 0, 0, 0, 0, 0, []⟩] 3 0 0 0 0 [] 256).command =
      some "(uninitialised)".toList :=
  (process_ping_stale_ipv6_support example_world_fping_removed
    (process_ping (example_world "8.8.8.8 : xmt/rcv/%loss = 1/1/0%".toList) example_cache
      [⟨"8.8.8.8".toList, 0, 0, 0, 0, 0, []⟩] 3 0 0 0 0 [] 256).cache
    [⟨"8.8.8.8".toList, 0, 0, 0, 0, 0, []⟩] 3 0 0 0 0 [] 256
    (prepared_state (ping_prepare example_world_fping_removed
      (process_ping (example_world "8.8.8.8 : xmt/rcv/%loss = 1/1/0%".toList) example_cache
        [⟨"8.8.8.8".toList, 0, 0, 0, 0, 0, []⟩] 3 0 0 0 0 [] 256).cache
      [⟨"8.8.8.8".toList, 0, 0, 0, 0, 0, []⟩] 3 0 0 0 [] 256))
    rfl rfl rfl rfl (by decide) rfl rfl).1

/-! ## Subprocesses before a configuration error -/

/-- With a source IP whose family selects a binary that is missing, the
command step fails and leaves the subprocess calls as they were. -/
theorem ping_command_source_ip_missing (world : PingWorld) (N mel : Nat) (s : PingState)
    (is_inet : Bool) (hfam : world.address_family = Except.ok is_inet)
    (hbit : (if is_inet then s.fping_existence &&& FPING_EXISTS
      else s.fping_existence &&& FPING6_EXISTS) = 0) :
    ∃ u, ping_command_source_ip world N mel s = Except.error u ∧ u.spawned = s.spawned := by
  unfold ping_command_source_ip
  rw [hfam]
  dsimp only
  cases is_inet with
  | true =>
    simp only [if_true] at hbit ⊢
    rw [if_pos hbit]
    exact ⟨_, rfl, rfl⟩
  | false =>
    simp only [Bool.false_eq_true, if_false] at hbit ⊢
    rw [if_pos hbit]
    exact ⟨_, rfl, rfl⟩

/-- C18 as stated fails: with the IPv4 source IP `192.168.1.10`, fping missing
and fping6 in place, the call ends with the diagnostic that names fping after
an interval probe and the help probe of fping6 have been executed. -/
theorem process_ping_configuration_error_counterexample :
    (process_ping example_world_fping_missing example_cache
          [⟨"8.8.8.8".toList, 0, 0, 0, 0, 0, []⟩] 3 0 0 0 0 [] 256).error =
        "File '/usr/sbin/fping' cannot be found in the system.".toList ∧
      (process_ping example_world_fping_missing example_cache
          [⟨"8.8.8.8".toList, 0, 0, 0, 0, 0, []⟩] 3 0 0 0 0 [] 256).spawned =
        [Spawn.interval_probe "/usr/sbin/fping6 -c1 -t50 -i0 8.8.8.8".toList,
          Spawn.help_probe "/usr/sbin/fping6 -h 2>&1".toList] := by
  exact ⟨by decide, by decide⟩

/-- C18, amended: in the `HAVE_IPV6` build, when neither binary is executable
`process_ping` fails before any subprocess is executed; when it fails because
the binary selected by the address family of the source IP is missing, no IPv6
support probe and no ping run have been executed, and every subprocess that
has been executed is an interval probe or a help probe. -/
theorem process_ping_configuration_error (world : PingWorld) (cache : FpingCache)
    (hosts : List ZBX_FPING_HOST) (N : Nat) (interval size timeout : Int) (allow : Nat)
    (error : List Char) (mel : Nat) (hv : world.have_ipv6 = true) :
    (world.fping_executable = false → world.fping6_executable = false →
        (process_ping world cache hosts N interval size timeout allow error mel).ret =
            ZbxResult.NOTSUPPORTED ∧
          (process_ping world cache hosts N interval size timeout allow error mel).spawned =
            []) ∧
      (∀ (ip : List Char) (is_inet : Bool), world.source_ip = some ip →
        world.address_family = Except.ok is_inet →
        (if is_inet then world.fping_executable else world.fping6_executable) = false →
        (process_ping world cache hosts N interval size timeout allow error mel).ret =
            ZbxResult.NOTSUPPORTED ∧
          (process_ping world cache hosts N interval size timeout allow error mel).command =
            none ∧
          ∀ e ∈ (process_ping world cache hosts N interval size timeout allow error
              mel).spawned, isCapabilityProbe e = true) := by
  constructor
  · intro h4 h6
    obtain ⟨t, ht, hsp, _, _⟩ := (ping_check_binaries_dual world mel
      ⟨expire_fping_options world cache, error, [], 0, [], []⟩ hv rfl).1 ⟨h4, h6⟩
    have hp : ping_prepare world cache hosts N interval size timeout error mel =
        Except.error t := by
      unfold ping_prepare
      dsimp only
      rw [ht]
    unfold process_ping
    rw [hp]
    exact ⟨rfl, hsp⟩
  · intro ip is_inet hs hfam hx
    cases hp : ping_prepare world cache hosts N interval size timeout error mel with
    | error t =>
      obtain ⟨_, _, extra, hsp, hall⟩ := ping_prepare_frame world cache hosts N interval size
        timeout error mel t (Or.inr hp)
      unfold process_ping
      rw [hp]
      refine ⟨rfl, rfl, ?_⟩
      intro e he
      have he2 : e ∈ t.spawned := he
      rw [hsp] at he2
      exact hall e (by simpa using he2)
    | ok s =>
      obtain ⟨_, _, extra, hsp, hall⟩ := ping_prepare_frame world cache hosts N interval size
        timeout error mel s (Or.inl hp)
      obtain ⟨e4, e6⟩ := ping_prepare_existence world cache hosts N interval size timeout
        error mel s hv (Or.inl hp)
      have hbit : (if is_inet then s.fping_existence &&& FPING_EXISTS
          else s.fping_existence &&& FPING6_EXISTS) = 0 := by
        cases is_inet with
        | true =>
          simp only [if_true] at hx ⊢
          by_contra hne
          have := e4.mp hne
          rw [hx] at this
          cases this
        | false =>
          simp only [Bool.false_eq_true, if_false] at hx ⊢
          by_contra hne
          have := e6.mp hne
          rw [hx] at this
          cases this
      obtain ⟨u, hu, husp⟩ := ping_command_source_ip_missing world N mel s is_inet hfam hbit
      have hb : ping_build_command world N mel hosts s = Except.error u := by
        unfold ping_build_command
        simp only [hv, hs, if_true]
        exact hu
      unfold process_ping
      rw [hp]
      dsimp only
      rw [hb]
      refine ⟨rfl, rfl, ?_⟩
      intro e he
      have he2 : e ∈ u.spawned := he
      rw [husp, hsp] at he2
      exact hall e (by simpa using he2)

/-- C18, two instances: without binaries no subprocess is executed, and with
only fping missing for an IPv4 source IP the probes of fping6 are the only
subprocesses. -/
theorem process_ping_configuration_error_witness :
    (process_ping
        { example_world [] with fping_executable := false, fping6_executable := false }
        example_cache [⟨"8.8.8.8".toList, 0, 0, 0, 0, 0, []⟩] 3 0 0 0 0 [] 256).spawned = [] ∧
      ∀ e ∈ (process_ping example_world_fping_missing example_cache
          [⟨"8.8.8.8".toList, 0, 0, 0, 0, 0, []⟩] 3 0 0 0 0 [] 256).spawned,
        isCapabilityProbe e = true :=
  ⟨((process_ping_configuration_error
      { example_world [] with fping_executable := false, fping6_executable := false }
      example_cache [⟨"8.8.8.8".toList, 0, 0, 0, 0, 0, []⟩] 3 0 0 0 0 [] 256 rfl).1
      rfl rfl).2,
    ((process_ping_configuration_error example_world_fping_missing
      example_cache [⟨"8.8.8.8".toList, 0, 0, 0, 0, 0, []⟩] 3 0 0 0 0 [] 256 rfl).2
      "192.168.1.10".toList true rfl rfl rfl).2.2⟩

/-! ## IPv6 support detection -/

/-- C23: `get_ipv6_support` reports SUCCEED exactly when the probe timed out,
or was executed successfully with an output of fewer than 1024 characters
that contains the target address; in every other case (execution failure, an
output of 1024 characters or more, an output without the address) it reports
FAIL.  The only subprocess is the probe `"%s -6 -c1 -t50 %s"`. -/
theorem get_ipv6_support_iff (world : PingWorld) (fping dst : List Char) :
    ((get_ipv6_support world fping dst).1 = ZbxResult.SUCCEED ↔
        (world.execute (zbx_snprintf world.MAX_STRING_LEN
            (fping ++ " -6 -c1 -t50 ".toList ++ dst))).ret = ZbxResult.TIMEOUT_ERROR ∨
          ((world.execute (zbx_snprintf world.MAX_STRING_LEN
              (fping ++ " -6 -c1 -t50 ".toList ++ dst))).ret = ZbxResult.SUCCEED ∧
            (world.execute (zbx_snprintf world.MAX_STRING_LEN
              (fping ++ " -6 -c1 -t50 ".toList ++ dst))).out.length < 1024 ∧
            dst <:+: (world.execute (zbx_snprintf world.MAX_STRING_LEN
              (fping ++ " -6 -c1 -t50 ".toList ++ dst))).out)) ∧
      ((get_ipv6_support world fping dst).1 = ZbxResult.FAIL ↔
        ¬ ((world.execute (zbx_snprintf world.MAX_STRING_LEN
            (fping ++ " -6 -c1 -t50 ".toList ++ dst))).ret = ZbxResult.TIMEOUT_ERROR ∨
          ((world.execute (zbx_snprintf world.MAX_STRING_LEN
              (fping ++ " -6 -c1 -t50 ".toList ++ dst))).ret = ZbxResult.SUCCEED ∧
            (world.execute (zbx_snprintf world.MAX_STRING_LEN
              (fping ++ " -6 -c1 -t50 ".toList ++ dst))).out.length < 1024 ∧
            dst <:+: (world.execute (zbx_snprintf world.MAX_STRING_LEN
              (fping ++ " -6 -c1 -t50 ".toList ++ dst))).out))) ∧
      (get_ipv6_support world fping dst).2 =
        Spawn.ipv6_probe (zbx_snprintf world.MAX_STRING_LEN
          (fping ++ " -6 -c1 -t50 ".toList ++ dst)) := by
  have hk : ∀ n : Nat, ZBX_KIBIBYTE > n ↔ n < 1024 := fun n => Iff.rfl
  unfold get_ipv6_support
  dsimp only
  by_cases hc : ((world.execute (zbx_snprintf world.MAX_STRING_LEN
      (fping ++ " -6 -c1 -t50 ".toList ++ dst))).ret = ZbxResult.SUCCEED ∧
      ZBX_KIBIBYTE > (world.execute (zbx_snprintf world.MAX_STRING_LEN
        (fping ++ " -6 -c1 -t50 ".toList ++ dst))).out.length ∧
      (strstr (world.execute (zbx_snprintf world.MAX_STRING_LEN
        (fping ++ " -6 -c1 -t50 ".toList ++ dst))).out dst).isSome = true) ∨
      (world.execute (zbx_snprintf world.MAX_STRING_LEN
        (fping ++ " -6 -c1 -t50 ".toList ++ dst))).ret = ZbxResult.TIMEOUT_ERROR
  · rw [if_pos hc]
    rw [strstr_isSome_iff, hk] at hc
    have hc2 := Or.comm.mp hc
    exact ⟨⟨fun _ => hc2, fun _ => rfl⟩, ⟨fun h => (by cases h), fun h => absurd hc2 h⟩, rfl⟩
  · rw [if_neg hc]
    rw [strstr_isSome_iff, hk] at hc
    have hc2 : ¬ _ := fun h => hc (Or.comm.mp h)
    exact ⟨⟨fun h => (by cases h), fun h => absurd h hc2⟩, ⟨fun _ => hc2, fun _ => rfl⟩, rfl⟩

/-! ## The order of the interval probes -/

/-- The probes in the order of the two loops: the hosts in their order, and
for each host the intervals 0, 1 and 10. -/
theorem interval_probes_eq (hosts : List ZBX_FPING_HOST) :
    interval_probes hosts =
      (hosts.map (fun h => [(h.addr, 0), (h.addr, 1), (h.addr, 10)])).flatten := by
  induction hosts with
  | nil => rfl
  | cons h hs ih =>
    rw [interval_probes, ih]
    rfl

/-- The calls of `zbx_execute` that the loops make are those of a prefix of
the remaining probes, in their order. -/
theorem get_interval_option_loop_prefix (world : PingWorld) (fping : List Char) (mel : Nat)
    (probes : List (List Char × Nat)) :
    ∀ (out : Option (List Char)) (value : Int) (error : List Char) (spawned : List Spawn),
      ∃ k, (get_interval_option_loop world fping mel probes out value error spawned).spawned =
        spawned ++ (probes.take k).map
          (fun q => Spawn.interval_probe (interval_command world fping q.1 q.2)) := by
  induction probes with
  | nil =>
    intro out value error spawned
    refine ⟨0, ?_⟩
    unfold get_interval_option_loop
    cases out with
    | none => simp
    | some o =>
      dsimp only
      split <;> simp
  | cons q rest ih =>
    intro out value error spawned
    obtain ⟨dst, iv⟩ := q
    unfold get_interval_option_loop
    dsimp only
    cases hv : interval_probe_verdict (interval_command world fping dst iv) dst iv
        (world.execute (interval_command world fping dst iv)) value error mel with
    | some v =>
      obtain ⟨r, v1, e1⟩ := v
      exact ⟨1, by simp⟩
    | none =>
      obtain ⟨k, hk⟩ := ih (some (world.execute (interval_command world fping dst iv)).out)
        value error (spawned ++ [Spawn.interval_probe (interval_command world fping dst iv)])
      exact ⟨k + 1, by rw [hk]; simp⟩

/-- C24: `get_interval_option` tries the probes in the order of the hosts and,
for each host, of the intervals 0, 1 and 10; when a probe times out (the
probes before it having left the loop going), the function returns FAIL with
the diagnostic `Timeout while executing "<command>"`, leaves `*value` as it
was, and that probe is the last call of `zbx_execute`, whatever the later
probes would have answered. -/
theorem get_interval_option_timeout (world : PingWorld) (fping : List Char)
    (hosts : List ZBX_FPING_HOST) (value : Int) (error : List Char) (mel : Nat)
    (pre rest : List (List Char × Nat)) (dst : List Char) (iv : Nat)
    (hprobes : interval_probes hosts = pre ++ (dst, iv) :: rest)
    (hpre : ∀ q ∈ pre, interval_probe_verdict (interval_command world fping q.1 q.2) q.1 q.2
      (world.execute (interval_command world fping q.1 q.2)) value error mel = none)
    (htime : (world.execute (interval_command world fping dst iv)).ret =
      ZbxResult.TIMEOUT_ERROR) :
    interval_probes hosts =
        (hosts.map (fun h => [(h.addr, 0), (h.addr, 1), (h.addr, 10)])).flatten ∧
      (get_interval_option world fping hosts value error mel).ret = ZbxResult.FAIL ∧
      (get_interval_option world fping hosts value error mel).value = value ∧
      (get_interval_option world fping hosts value error mel).error =
        zbx_snprintf mel ("Timeout while executing \"".toList ++
          interval_command world fping dst iv ++ "\"".toList) ∧
      (get_interval_option world fping hosts value error mel).spawned =
        (pre ++ [(dst, iv)]).map
          (fun q => Spawn.interval_probe (interval_command world fping q.1 q.2)) := by
  obtain ⟨out2, h2⟩ := get_interval_option_loop_skip world fping mel value error pre
    ((dst, iv) :: rest) none [] hpre
  have hv : interval_probe_verdict (interval_command world fping dst iv) dst iv
      (world.execute (interval_command world fping dst iv)) value error mel =
      some (ZbxResult.FAIL, value, zbx_snprintf mel ("Timeout while executing \"".toList ++
        interval_command world fping dst iv ++ "\"".toList)) := by
    unfold interval_probe_verdict
    rw [if_pos htime]
  refine ⟨interval_probes_eq hosts, ?_⟩
  unfold get_interval_option
  rw [hprobes, h2, get_interval_option_loop]
  simp only [hv]
  simp

/-- C24, an instance: two hosts, the probes of the first host with the
intervals 0 and 1 print a line of the usage text, the probe with the interval
10 times out; the second host, whose probes would print its address,
is not tried. -/
theorem get_interval_option_timeout_witness :
    (get_interval_option example_world_timeout_at_10 "/usr/sbin/fping".toList
        [⟨"7.7.7.7".toList, 0, 0, 0, 0, 0, []⟩, ⟨"8.8.8.8".toList, 0, 0, 0, 0, 0, []⟩]
        FPING_UNINITIALIZED_VALUE [] 256).ret = ZbxResult.FAIL ∧
      (get_interval_option example_world_timeout_at_10 "/usr/sbin/fping".toList
        [⟨"7.7.7.7".toList, 0, 0, 0, 0, 0, []⟩, ⟨"8.8.8.8".toList, 0, 0, 0, 0, 0, []⟩]
        FPING_UNINITIALIZED_VALUE [] 256).value = FPING_UNINITIALIZED_VALUE ∧
      (get_interval_option example_world_timeout_at_10 "/usr/sbin/fping".toList
        [⟨"7.7.7.7".toList, 0, 0, 0, 0, 0, []⟩, ⟨"8.8.8.8".toList, 0, 0, 0, 0, 0, []⟩]
        FPING_UNINITIALIZED_VALUE [] 256).error =
          "Timeout while executing \"/usr/sbin/fping -c1 -t50 -i10 7.7.7.7\"".toList ∧
      (get_interval_option example_world_timeout_at_10 "/usr/sbin/fping".toList
        [⟨"7.7.7.7".toList, 0, 0, 0, 0, 0, []⟩, ⟨"8.8.8.8".toList, 0, 0, 0, 0, 0, []⟩]
        FPING_UNINITIALIZED_VALUE [] 256).spawned =
          [Spawn.interval_probe "/usr/sbin/fping -c1 -t50 -i0 7.7.7.7".toList,
            Spawn.interval_probe "/usr/sbin/fping -c1 -t50 -i1 7.7.7.7".toList,
            Spawn.interval_probe "/usr/sbin/fping -c1 -t50 -i10 7.7.7.7".toList] :=
  (get_interval_option_timeout example_world_timeout_at_10 "/usr/sbin/fping".toList
    [⟨"7.7.7.7".toList, 0, 0, 0, 0, 0, []⟩, ⟨"8.8.8.8".toList, 0, 0, 0, 0, 0, []⟩]
    FPING_UNINITIALIZED_VALUE [] 256
    [("7.7.7.7".toList, 0), ("7.7.7.7".toList, 1)]
    [("8.8.8.8".toList, 0), ("8.8.8.8".toList, 1), ("8.8.8.8".toList, 10)]
    "7.7.7.7".toList 10 (by decide) (by decide) (by decide)).2

/-! ## The source IP option across an expiry -/

/-- A help text without option lines leaves the option as it was. -/
theorem source_ip_option_scan_none (lines : List (List Char)) (option : Option (List Char))
    (h : ∀ l ∈ lines, is_option_line 'I' (l.dropWhile isspace) = false ∧
      is_option_line 'S' (l.dropWhile isspace) = false) :
    source_ip_option_scan lines option = option := by
  induction lines with
  | nil => rfl
  | cons l ls ih =>
    have hl := h l (by simp)
    unfold source_ip_option_scan
    simp only [hl.1, hl.2, Bool.false_eq_true, if_false]
    exact ih (fun l2 h2 => h l2 (by simp [h2]))

/-- A text on which the test of an option line succeeds starts with `-`, the
option letter and a white space character or a comma. -/
theorem is_option_line_shape (letter : Char) (p : List Char)
    (h : is_option_line letter p = true) :
    ∃ c rest, p = '-' :: letter :: c :: rest ∧ (isspace c = true ∨ c = ',') := by
  match p, h with
  | c0 :: c1 :: c2 :: rest, h =>
    simp only [is_option_line, Bool.and_eq_true, Bool.or_eq_true, beq_iff_eq] at h
    obtain ⟨⟨h0, h1⟩, h2⟩ := h
    subst h0
    subst h1
    exact ⟨c2, rest, rfl, h2⟩

/-- The source IP option of fping after a preparation that succeeded, with a
source IP and fping in use: the option and the flag left by the expiry step,
or, when the flag is 0, what `get_source_ip_option` makes of them. -/
theorem ping_prepare_ok_source_ip_option (world : PingWorld) (cache : FpingCache)
    (hosts : List ZBX_FPING_HOST) (N : Nat) (interval size timeout : Int)
    (error : List Char) (mel : Nat) (s : PingState) (ip : List Char)
    (h : ping_prepare world cache hosts N interval size timeout error mel = Except.ok s)
    (hu : fping_in_use world s) (hip : world.source_ip = some ip) :
    (s.cache.source_ip_option, s.cache.source_ip_checked) =
      if (expire_fping_options world cache).source_ip_checked = 0 then
        get_source_ip_option (world.help (help_command world world.fping_location))
          (expire_fping_options world cache).source_ip_option
          (expire_fping_options world cache).source_ip_checked
      else ((expire_fping_options world cache).source_ip_option,
        (expire_fping_options world cache).source_ip_checked) := by
  rcases ping_prepare_cases world cache hosts N interval size timeout error mel with
    ⟨t, _, ht⟩ | ⟨s1, hs1, ⟨t, _, ht⟩ | ⟨s3, hs3, ⟨t, _, ht⟩ | ⟨s4, hs4, hok⟩⟩⟩
  · rw [h] at ht; cases ht
  · rw [h] at ht; cases ht
  · rw [h] at ht; cases ht
  · rw [h] at hok
    have hs : s = ping_source_ip6 world (ping_source_ip world s4) := Except.ok.inj hok
    obtain ⟨c1, _, _, _⟩ := ping_check_binaries_frame world mel _ s1 (Or.inl hs1)
    obtain ⟨_, _, c3, _, _⟩ := ping_detect_interval_spec world mel hosts _ s3 (Or.inl hs3)
    obtain ⟨_, _, c4, _, _⟩ := ping_detect_interval6_spec world mel hosts s3 s4 (Or.inl hs4)
    obtain ⟨e5, _, _, _, _, _⟩ := ping_source_ip_spec world s4
    obtain ⟨e6, _, _, c6, _, _⟩ := ping_source_ip6_spec world (ping_source_ip world s4)
    rw [← hs] at e6 c6
    dsimp only at c1 c3
    have o4 : s4.cache.source_ip_option = (expire_fping_options world cache).source_ip_option := by
      rw [c4, c3, c1]
    have k4 : s4.cache.source_ip_checked =
        (expire_fping_options world cache).source_ip_checked := by
      rw [c4, c3, c1]
    have u4 : fping_in_use world s4 := by
      have : fping_in_use world s := hu
      simp only [fping_in_use, e6, e5] at this
      exact this
    have o6 : s.cache.source_ip_option = (ping_source_ip world s4).cache.source_ip_option := by
      rw [c6]
    have k6 : s.cache.source_ip_checked = (ping_source_ip world s4).cache.source_ip_checked := by
      rw [c6]
    rw [o6, k6, ← o4, ← k4]
    unfold ping_source_ip
    rw [hip]
    dsimp only
    rw [if_pos u4]
    by_cases hk : s4.cache.source_ip_checked = 0
    · rw [if_pos hk, if_pos hk]
      dsimp only
      split <;> rfl
    · rw [if_neg hk, if_neg hk]
      split <;> rfl

/-- A line offers an option exactly when the test of `get_source_ip_option`
behind the leading white space succeeds. -/
theorem offersOption_iff (letter : Char) (l : List Char) :
    OffersOption letter l ↔ is_option_line letter (l.dropWhile isspace) = true := by
  constructor
  · rintro ⟨ws, rest, c, rfl, hws, hc⟩
    rw [dropWhile_isspace_append ws _ '-' hws (by decide)]
    simp only [is_option_line, beq_self_eq_true, Bool.true_and, Bool.or_eq_true, beq_iff_eq]
    exact hc
  · intro h
    obtain ⟨c, rest, hp, hc⟩ := is_option_line_shape letter _ h
    refine ⟨l.takeWhile isspace, rest, c, ?_, ?_, hc⟩
    · rw [← hp, List.takeWhile_append_dropWhile]
    · intro x hx
      exact (List.mem_takeWhile_imp hx)

/-- C26: for a help text in which no line offers `-I` or `-S`,
`get_source_ip_option` returns the option it was given and sets the checked
flag.  The expiry step keeps both option texts, so after an expiry a call with
a source IP, fping in use and such a help text still holds the option detected
before, and writes it with the source IP behind the parameters of fping. -/
theorem get_source_ip_option_no_flag (lines : List (List Char)) (option : Option (List Char))
    (checked : Nat)
    (hlines : ∀ l ∈ lines, ¬ OffersOption 'I' l ∧ ¬ OffersOption 'S' l) :
    get_source_ip_option (some lines) option checked = (option, 1) ∧
      (∀ (world : PingWorld) (cache : FpingCache),
        (expire_fping_options world cache).source_ip_option = cache.source_ip_option ∧
          (expire_fping_options world cache).source_ip6_option = cache.source_ip6_option) ∧
      (∀ (world : PingWorld) (cache : FpingCache) (hosts : List ZBX_FPING_HOST) (N : Nat)
        (interval size timeout : Int) (error : List Char) (mel : Nat) (s : PingState)
        (ip flag : List Char),
        world.source_ip = some ip → cache.source_ip_option = some flag →
        world.now - cache.fping_check_reset_at > 3600 →
        world.help (help_command world world.fping_location) = some lines →
        ping_prepare world cache hosts N interval size timeout error mel = Except.ok s →
        fping_in_use world s →
        s.cache.source_ip_option = some flag ∧ s.cache.source_ip_checked = 1 ∧
          s.params =
            append_param
              (if hosts.length ≠ 0 then
                append_param (ping_base_params N interval size timeout)
                  (" -i".toList ++ indexText s.cache.packet_interval)
              else ping_base_params N interval size timeout)
              (' ' :: flag ++ ip)) := by
  have hscan : ∀ o : Option (List Char), source_ip_option_scan lines o = o := by
    intro o
    apply source_ip_option_scan_none
    intro l hl
    obtain ⟨hI, hS⟩ := hlines l hl
    rw [offersOption_iff] at hI hS
    exact ⟨by simpa using hI, by simpa using hS⟩
  have hexp : ∀ (world : PingWorld) (cache : FpingCache),
      (expire_fping_options world cache).source_ip_option = cache.source_ip_option ∧
        (expire_fping_options world cache).source_ip6_option = cache.source_ip6_option := by
    intro world cache
    unfold expire_fping_options
    split
    · split <;> exact ⟨rfl, rfl⟩
    · exact ⟨rfl, rfl⟩
  refine ⟨?_, hexp, ?_⟩
  · unfold get_source_ip_option
    dsimp only
    rw [hscan]
  · intro world cache hosts N interval size timeout error mel s ip flag hip hflag hold hhelp
      hp hu
    have hk : (expire_fping_options world cache).source_ip_checked = 0 := by
      have h2 : world.now - cache.fping_check_reset_at > FPING_CHECK_EXPIRED := hold
      unfold expire_fping_options
      rw [if_pos h2]
      split <;> rfl
    have hpair := ping_prepare_ok_source_ip_option world cache hosts N interval size timeout
      error mel s ip hp hu hip
    rw [if_pos hk, hhelp, (hexp world cache).1, hflag] at hpair
    unfold get_source_ip_option at hpair
    dsimp only at hpair
    rw [hscan] at hpair
    have ho : s.cache.source_ip_option = some flag := congrArg Prod.fst hpair
    have hc : s.cache.source_ip_checked = 1 := congrArg Prod.snd hpair
    refine ⟨ho, hc, ?_⟩
    rw [(ping_prepare_ok_params world cache hosts N interval size timeout error mel s hp).1,
      hip, ho]
    dsimp only
    rw [if_pos hu]
    simp only [and_iff_right hu]

/-- C26, an instance: the option `-S` was detected before; two hours later
the help text of fping offers neither `-I` nor `-S`, and the call still passes
`-S192.168.1.10` to fping. -/
theorem get_source_ip_option_no_flag_witness :
    get_source_ip_option
        (some ["Usage: fping [options] [targets...]\n".toList,
          "   -c, --count=N      count mode (send N pings to each target)\n".toList])
        (some "-S".toList) 0 = (some "-S".toList, 1) ∧
      (prepared_state (ping_prepare example_world_no_flag
          { example_cache with source_ip_option := some "-S".toList, source_ip_checked := 1 }
          [⟨"8.8.8.8".toList, 0, 0, 0, 0, 0, []⟩] 3 0 0 0 [] 256)).params =
        "-C3 -i0 -S192.168.1.10".toList :=
  ⟨(get_source_ip_option_no_flag
      ["Usage: fping [options] [targets...]\n".toList,
        "   -c, --count=N      count mode (send N pings to each target)\n".toList]
      (some "-S".toList) 0
      (by
        intro l hl
        rw [offersOption_iff, offersOption_iff]
        simp only [List.mem_cons, List.mem_singleton, List.not_mem_nil, or_false] at hl
        rcases hl with rfl | rfl <;> decide)).1,
    ((get_source_ip_option_no_flag
      ["Usage: fping [options] [targets...]\n".toList,
        "   -c, --count=N      count mode (send N pings to each target)\n".toList]
      (some "-S".toList) 0
      (by
        intro l hl
        rw [offersOption_iff, offersOption_iff]
        simp only [List.mem_cons, List.mem_singleton, List.not_mem_nil, or_false] at hl
        rcases hl with rfl | rfl <;> decide)).2.2
      example_world_no_flag
      { example_cache with source_ip_option := some "-S".toList, source_ip_checked := 1 }
      [⟨"8.8.8.8".toList, 0, 0, 0, 0, 0, []⟩] 3 0 0 0 [] 256
      (prepared_state (ping_prepare example_world_no_flag
        { example_cache with source_ip_option := some "-S".toList, source_ip_checked := 1 }
        [⟨"8.8.8.8".toList, 0, 0, 0, 0, 0, []⟩] 3 0 0 0 [] 256))
      "192.168.1.10".toList "-S".toList rfl rfl (by decide) rfl rfl (by decide)).2.2⟩

/-! ## The reset of the bitmap -/

/-- C21: after `process_fping_statistics` the bitmap of the host (of
`requests_count` entries) is all false when `cnt` has just become
`requests_count`, no source IP is configured and both bits of
`fping_existence` are set, which only the `HAVE_IPV6` build computes; in every
other case it is the bitmap from before the line.  The summary text and the
statistics of the host have no part in it, and the detected IPv6 support is
not among the inputs of the function. -/
theorem process_fping_statistics_bitmap (env : ParseEnv) (host : ZBX_FPING_HOST)
    (p : List Char) (N : Nat) (hlen : host.status.length = N) :
    (process_fping_statistics env host p N).status =
        (if env.have_ipv6 = true ∧ host.cnt + N = N ∧ env.source_ip = none ∧
            env.fping_existence &&& FPING_EXISTS ≠ 0 ∧
            env.fping_existence &&& FPING6_EXISTS ≠ 0 then
          List.replicate N false
        else host.status) ∧
      ∀ (host2 : ZBX_FPING_HOST) (p2 : List Char),
        host2.status = host.status → host2.cnt = host.cnt →
        (process_fping_statistics env host2 p2 N).status =
          (process_fping_statistics env host p N).status := by
  have key : ∀ (h : ZBX_FPING_HOST) (q : List Char), h.status.length = N →
      (process_fping_statistics env h q N).status =
        (if env.have_ipv6 = true ∧ h.cnt + N = N ∧ env.source_ip = none ∧
            env.fping_existence &&& FPING_EXISTS ≠ 0 ∧
            env.fping_existence &&& FPING6_EXISTS ≠ 0 then
          List.replicate N false
        else h.status) := by
    intro h q hl
    obtain ⟨hc, _, hs, _, _⟩ := fping_statistics_loop_frame (N - 1) 0 q h
    unfold process_fping_statistics
    dsimp only
    rw [hc, hs]
    split
    · dsimp only
      rw [List.drop_of_length_le (by omega), List.append_nil]
    · dsimp only
  refine ⟨key host p hlen, ?_⟩
  intro host2 p2 hs2 hc2
  rw [key host p hlen, key host2 p2 (by rw [hs2]; exact hlen), hs2, hc2]

/-- C21, two instances with the host of the example, 5 requests, both
binaries in place: without source IP the first summary line clears the bitmap,
with a source IP it does not. -/
theorem process_fping_statistics_bitmap_witness :
    (process_fping_statistics example_env example_host "91.7 37.0 29.2 - 36.8".toList
        5).status = [false, false, false, false, false] ∧
      (process_fping_statistics ⟨true, some "192.168.1.10".toList, 3⟩ example_host
        "91.7 37.0 29.2 - 36.8".toList 5).status = [true, true, true, false, true] :=
  ⟨(process_fping_statistics_bitmap example_env example_host "91.7 37.0 29.2 - 36.8".toList 5
      rfl).1,
    (process_fping_statistics_bitmap ⟨true, some "192.168.1.10".toList, 3⟩ example_host
      "91.7 37.0 29.2 - 36.8".toList 5 rfl).1⟩

/-! ## The bitmap indices read by the summary loop -/

/-- The loop is the fold of its body over its iterations. -/
theorem fping_statistics_loop_eq_trace (more : Nat) :
    ∀ (idx : Nat) (p : List Char) (host : ZBX_FPING_HOST),
      fping_statistics_loop more idx p host =
        (fping_statistics_trace more idx p).foldl
          (fun h r => fping_statistics_sample h r.2 r.1) host := by
  induction more with
  | zero =>
    intro idx p host
    rfl
  | succ m ih =>
    intro idx p host
    unfold fping_statistics_loop fping_statistics_trace
    cases hs : strchr (p.drop 1) ' ' with
    | none => rfl
    | some off =>
      dsimp only
      rw [ih]
      rfl

/-- The iterations read consecutive indices from `idx` on, at least one and at
most `more + 1` of them. -/
theorem fping_statistics_trace_indices (more : Nat) :
    ∀ (idx : Nat) (p : List Char),
      (fping_statistics_trace more idx p).map Prod.fst =
          (List.range (fping_statistics_trace more idx p).length).map (fun k => idx + k) ∧
        1 ≤ (fping_statistics_trace more idx p).length ∧
        (fping_statistics_trace more idx p).length ≤ more + 1 := by
  induction more with
  | zero =>
    intro idx p
    simp [fping_statistics_trace, List.range_succ]
  | succ m ih =>
    intro idx p
    unfold fping_statistics_trace
    cases hs : strchr (p.drop 1) ' ' with
    | none => simp [List.range_succ]
    | some off =>
      dsimp only
      obtain ⟨h1, h2, h3⟩ := ih (idx + 1) ((p.drop 1).drop off)
      refine ⟨?_, by simp, by simp only [List.length_cons]; omega⟩
      rw [List.map_cons, h1, List.length_cons, List.range_succ_eq_map, List.map_cons,
        List.map_map]
      refine congrArg₂ List.cons (by simp) ?_
      apply List.map_congr_left
      intro k _
      simp only [Function.comp]
      omega

/-- C27: for `requests_count ≥ 1` and a bitmap of `requests_count` entries, the
loop of `process_fping_statistics` is the fold of its body over at least one
and at most `requests_count` iterations, which read the bitmap at the indices
0, 1, 2, ... in turn; every index read is below `requests_count`, the length
of the bitmap, whatever the summary text is. -/
theorem fping_statistics_loop_in_bounds (host : ZBX_FPING_HOST) (p : List Char) (N : Nat)
    (hN : 1 ≤ N) (hlen : host.status.length = N) :
    fping_statistics_loop (N - 1) 0 p host =
        (fping_statistics_trace (N - 1) 0 p).foldl
          (fun h r => fping_statistics_sample h r.2 r.1) host ∧
      (fping_statistics_trace (N - 1) 0 p).map Prod.fst =
        List.range (fping_statistics_trace (N - 1) 0 p).length ∧
      1 ≤ (fping_statistics_trace (N - 1) 0 p).length ∧
      (fping_statistics_trace (N - 1) 0 p).length ≤ N ∧
      ∀ r ∈ fping_statistics_trace (N - 1) 0 p, r.1 < N ∧ r.1 < host.status.length := by
  obtain ⟨h1, h2, h3⟩ := fping_statistics_trace_indices (N - 1) 0 p
  have h1b : (fping_statistics_trace (N - 1) 0 p).map Prod.fst =
      List.range (fping_statistics_trace (N - 1) 0 p).length := by
    rw [h1]
    simp
  refine ⟨fping_statistics_loop_eq_trace (N - 1) 0 p host, h1b, h2, by omega, ?_⟩
  intro r hr
  have hm : r.1 ∈ (fping_statistics_trace (N - 1) 0 p).map Prod.fst :=
    List.mem_map_of_mem Prod.fst hr
  rw [h1b, List.mem_range] at hm
  rw [hlen]
  exact ⟨by omega, by omega⟩

/-- C27, two instances with the bitmap of the example and 5 requests: a
summary text of 5 tokens is read with the indices 0 to 4, and one of 8 tokens
as well. -/
theorem fping_statistics_loop_in_bounds_witness :
    (fping_statistics_trace (5 - 1) 0 "91.7 37.0 29.2 - 36.8".toList).map Prod.fst =
        List.range 5 ∧
      (fping_statistics_trace (5 - 1) 0 "1 2 3 4 5 6 7 8".toList).length ≤ 5 :=
  ⟨(fping_statistics_loop_in_bounds example_host "91.7 37.0 29.2 - 36.8".toList 5
      (by decide) rfl).2.1,
    (fping_statistics_loop_in_bounds example_host "1 2 3 4 5 6 7 8".toList 5
      (by decide) rfl).2.2.2.1⟩

/-! ## Where the sent count accrues -/

theorem find_host_lt (token : List Char) :
    ∀ (hosts : List ZBX_FPING_HOST) (i : Nat), find_host token hosts = some i →
      i < hosts.length := by
  intro hosts
  induction hosts with
  | nil =>
    intro i h
    simp [find_host] at h
  | cons a as ih =>
    intro i h
    unfold find_host at h
    by_cases ht : token = a.addr
    · rw [if_pos ht] at h
      cases h
      simp
    · rw [if_neg ht] at h
      cases hf : find_host token as with
      | none => rw [hf] at h; simp at h
      | some k =>
        rw [hf] at h
        have := ih k hf
        have hk : k + 1 = i := by simpa using h
        subst hk
        simp only [List.length_cons]
        omega

/-- The index that `validate_host_address_in_fping_output` yields is one of
the batch. -/
theorem validate_host_address_lt (lb : List Char) (hosts : List ZBX_FPING_HOST) (i : Nat)
    (h : validate_host_address_in_fping_output lb hosts = some i) : i < hosts.length := by
  unfold validate_host_address_in_fping_output at h
  cases hs : strchr lb ' ' with
  | none => rw [hs] at h; cases h
  | some p_end =>
    rw [hs] at h
    exact find_host_lt _ hosts i h

/-- The dispatch of a line: when `summary_line_host` names host `i`, the line
is processed by `process_fping_statistics` for host `i`; otherwise the batch
is left as it is or the line is processed as an acknowledgment. -/
theorem process_fping_output_line_dispatch (env : ParseEnv) (line : List Char)
    (hosts : List ZBX_FPING_HOST) (N allow : Nat) :
    (∀ i, summary_line_host line hosts allow = some i →
        ∃ host lb off, hosts.get? i = some host ∧
          process_fping_redirected_response line allow = some lb ∧
          strstr lb " : ".toList = some off ∧
          process_fping_output_line env line hosts N allow =
            hosts.set i (process_fping_statistics env host (lb.drop (off + 3)) N)) ∧
      (summary_line_host line hosts allow = none →
        process_fping_output_line env line hosts N allow = hosts ∨
          ∃ i host p, hosts.get? i = some host ∧
            process_fping_output_line env line hosts N allow =
              hosts.set i (process_response_to_individual_fping_request host p N)) := by
  unfold process_fping_output_line summary_line_host
  cases hr : process_fping_redirected_response line allow with
  | none => exact ⟨fun i h => (by cases h), fun _ => Or.inl rfl⟩
  | some lb =>
    dsimp only
    cases hv : validate_host_address_in_fping_output lb hosts with
    | none => exact ⟨fun i h => (by cases h), fun _ => Or.inl rfl⟩
    | some i =>
      dsimp only
      have hlt := validate_host_address_lt lb hosts i hv
      have hh : hosts.get? i = some (hosts.get ⟨i, hlt⟩) := List.get?_eq_get hlt
      rw [hh]
      dsimp only
      cases hs : strstr lb " : ".toList with
      | none => exact ⟨fun i h => (by cases h), fun _ => Or.inl rfl⟩
      | some off =>
        dsimp only
        by_cases hd : (strstr lb "duplicate for".toList).isSome = true
        · rw [if_pos hd, if_pos hd]
          exact ⟨fun i h => (by cases h), fun _ => Or.inl rfl⟩
        · rw [if_neg hd, if_neg hd]
          by_cases hb : (lb.drop (off + 3)).head? = some '['
          · rw [if_pos hb, if_pos hb]
            exact ⟨fun i h => (by cases h), fun _ => Or.inr ⟨i, _, _, hh, rfl⟩⟩
          · rw [if_neg hb, if_neg hb]
            refine ⟨fun k h => ?_, fun h => by cases h⟩
            have hk : i = k := Option.some.inj h
            subst hk
            exact ⟨_, lb, off, hh, rfl, hs, rfl⟩

/-- After `process_fping_output` on a batch whose sent counts start at zero,
the sent count of a host is `requests_count` times the number of its summary
lines. -/
theorem process_fping_output_cnt (env : ParseEnv) (hosts : List ZBX_FPING_HOST)
    (N allow : Nat) (lines : List (List Char)) (hzero : ∀ h ∈ hosts, h.cnt = 0)
    (j : Nat) (host : ZBX_FPING_HOST)
    (hj : (process_fping_output env lines hosts N allow).2.get? j = some host) :
    host.cnt = N * summary_line_count lines hosts allow j := by
  cases lines with
  | nil =>
    have hm : host ∈ hosts := List.get?_mem hj
    simp [summary_line_count, hzero host hm]
  | cons l ls =>
    have ha : (hosts.map
        (fun h => { h with status := List.replicate N false })).map (fun h => h.addr) =
        hosts.map (fun h => h.addr) := by
      simp [List.map_map, Function.comp_def]
    have h1 := process_fping_output_lines_cnt env N allow hosts (l :: ls) _ ha j
    have hj2 : (process_fping_output_lines env (l :: ls)
        (hosts.map (fun h => { h with status := List.replicate N false })) N allow).get? j =
        some host := hj
    rw [hj2] at h1
    cases hg : hosts.get? j with
    | none =>
      have hg2 : hosts[j]? = none := by simpa using hg
      simp [hg2] at h1
    | some h0 =>
      have hz := hzero h0 (List.get?_mem hg)
      have hg2 : hosts[j]? = some h0 := by simpa using hg
      simp [hg2, hz] at h1
      exact h1

/-- C25: after `process_fping_output` on a batch whose sent counts start at
zero, the sent count of every host is `requests_count` times the number of
lines that were handed to `process_fping_statistics` for that host.  Line by
line: a line handed to `process_fping_statistics` for host `i` is processed by
that function, which adds `requests_count` to the sent count of host `i`;
every other line (an acknowledgment, a discarded line) and every line of
another host leaves the sent count of a host as it is. -/
theorem sent_count_accrual (env : ParseEnv) (hosts : List ZBX_FPING_HOST) (N allow : Nat)
    (lines : List (List Char)) (hzero : ∀ h ∈ hosts, h.cnt = 0) :
    (∀ (j : Nat) (host : ZBX_FPING_HOST),
        (process_fping_output env lines hosts N allow).2.get? j = some host →
        host.cnt = N * summary_line_count lines hosts allow j) ∧
      (∀ (line : List Char) (hs : List ZBX_FPING_HOST) (i : Nat),
        summary_line_host line hs allow = some i →
        ∃ host p, hs.get? i = some host ∧
          process_fping_output_line env line hs N allow =
            hs.set i (process_fping_statistics env host p N) ∧
          (process_fping_statistics env host p N).cnt = host.cnt + N) ∧
      (∀ (line : List Char) (hs : List ZBX_FPING_HOST) (j : Nat) (h : ZBX_FPING_HOST),
        hs.get? j = some h → summary_line_host line hs allow ≠ some j →
        ((process_fping_output_line env line hs N allow).get? j).map (fun x => x.cnt) =
          some h.cnt) := by
  refine ⟨fun j host hj => process_fping_output_cnt env hosts N allow lines hzero j host hj,
    ?_, ?_⟩
  · intro line hs i hi
    obtain ⟨host, lb, off, hh, _, _, hl⟩ :=
      (process_fping_output_line_dispatch env line hs N allow).1 i hi
    exact ⟨host, _, hh, hl, (process_fping_statistics_frame env host _ N).1⟩
  · intro line hs j h hh hne
    rw [process_fping_output_line_cnt env line hs N allow j, hh, if_neg hne]
    rfl
/-- C25, the output of the source comment for 3 requests: `7.7.7.7` has one
summary line and ends with the sent count 3; the acknowledgment line of
`8.8.8.8` leaves the sent count of `8.8.8.8` at 0. -/
theorem sent_count_accrual_witness :
    (⟨"7.7.7.7".toList, 0, 0, 0, 0, 3, [false, false, false]⟩ : ZBX_FPING_HOST).cnt =
        3 * summary_line_count
          ["8.8.8.8 : [0], 64 bytes, 9.37 ms (9.37 avg, 0% loss)\n".toList,
            "7.7.7.7 : [0], timed out (NaN avg, 100% loss)\n".toList,
            "7.7.7.7 : - - -\n".toList,
            "8.8.8.8 : 9.37 8.72 7.28\n".toList]
          [⟨"7.7.7.7".toList, 0, 0, 0, 0, 0, []⟩, ⟨"8.8.8.8".toList, 0, 0, 0, 0, 0, []⟩] 0 0 ∧
      ((process_fping_output_line example_env
          "8.8.8.8 : [0], 64 bytes, 9.37 ms (9.37 avg, 0% loss)".toList
          [⟨"7.7.7.7".toList, 0, 0, 0, 0, 0, [false, false, false]⟩,
            ⟨"8.8.8.8".toList, 0, 0, 0, 0, 0, [false, false, false]⟩] 3 0).get? 1).map
        (fun x => x.cnt) = some 0 :=
  ⟨(sent_count_accrual example_env
      [⟨"7.7.7.7".toList, 0, 0, 0, 0, 0, []⟩, ⟨"8.8.8.8".toList, 0, 0, 0, 0, 0, []⟩] 3 0
      ["8.8.8.8 : [0], 64 bytes, 9.37 ms (9.37 avg, 0% loss)\n".toList,
        "7.7.7.7 : [0], timed out (NaN avg, 100% loss)\n".toList,
        "7.7.7.7 : - - -\n".toList,
        "8.8.8.8 : 9.37 8.72 7.28\n".toList]
      (by
        intro h hm
        simp only [List.mem_cons, List.mem_singleton, List.not_mem_nil, or_false] at hm
        rcases hm with rfl | rfl <;> rfl)).1 0
      ⟨"7.7.7.7".toList, 0, 0, 0, 0, 3, [false, false, false]⟩ (by decide),
    (sent_count_accrual example_env
      [⟨"7.7.7.7".toList, 0, 0, 0, 0, 0, []⟩, ⟨"8.8.8.8".toList, 0, 0, 0, 0, 0, []⟩] 3 0
      ["8.8.8.8 : [0], 64 bytes, 9.37 ms (9.37 avg, 0% loss)\n".toList,
        "7.7.7.7 : [0], timed out (NaN avg, 100% loss)\n".toList,
        "7.7.7.7 : - - -\n".toList,
        "8.8.8.8 : 9.37 8.72 7.28\n".toList]
      (by
        intro h hm
        simp only [List.mem_cons, List.mem_singleton, List.not_mem_nil, or_false] at hm
        rcases hm with rfl | rfl <;> rfl)).2.2
      "8.8.8.8 : [0], 64 bytes, 9.37 ms (9.37 avg, 0% loss)".toList
      [⟨"7.7.7.7".toList, 0, 0, 0, 0, 0, [false, false, false]⟩,
        ⟨"8.8.8.8".toList, 0, 0, 0, 0, 0, [false, false, false]⟩] 1
      ⟨"8.8.8.8".toList, 0, 0, 0, 0, 0, [false, false, false]⟩ rfl (by decide)⟩

/-! ## Two passes over one host -/

/-- Trimming the line feed that ends a line gives the line back when it has no
other line feed. -/
theorem zbx_rtrim_line (l : List Char) (h : '\n' ∉ l) : zbx_rtrim (l ++ ['\n']) ['\n'] = l := by
  unfold zbx_rtrim
  rw [List.reverse_append]
  have h1 : (['\n'].reverse ++ l.reverse).dropWhile (fun c => ['\n'].contains c) =
      l.reverse.dropWhile (fun c => ['\n'].contains c) := by
    simp [List.dropWhile_cons]
  rw [h1]
  have h2 : l.reverse.dropWhile (fun c => ['\n'].contains c) = l.reverse := by
    cases hr : l.reverse with
    | nil => rfl
    | cons c cs =>
      have hc : c ∈ l := by
        have : c ∈ l.reverse := by rw [hr]; simp
        simpa using this
      have hne : c ≠ '\n' := fun e => h (e ▸ hc)
      simp [List.dropWhile_cons, hne]
  rw [h2, List.reverse_reverse]

/-- The dispatch of a plain line `<addr> : <body>` of a host of the batch: the
body is an acknowledgment when it starts with `[`, and a summary text
otherwise. -/
theorem process_fping_output_line_body (env : ParseEnv) (hosts : List ZBX_FPING_HOST)
    (N allow : Nat) (addr body : List Char) (i : Nat) (host : ZBX_FPING_HOST)
    (haddr : ' ' ∉ addr) (hi : find_host addr hosts = some i)
    (hh : hosts.get? i = some host)
    (hmark : ¬ redirect_marker <:+: addr ++ (" : ".toList ++ body))
    (hdup : ¬ "duplicate for".toList <:+: addr ++ (" : ".toList ++ body)) :
    process_fping_output_line env (addr ++ (" : ".toList ++ body)) hosts N allow =
      hosts.set i
        (if body.head? = some '[' then
          process_response_to_individual_fping_request host body N
        else process_fping_statistics env host body N) := by
  have hr := process_fping_redirected_response_of_no_marker _ allow hmark
  have hv : validate_host_address_in_fping_output
      (addr ++ (" : ".toList ++ body)) hosts = some i := by
    unfold validate_host_address_in_fping_output
    have := strchr_append_of_not_mem addr (": ".toList ++ body) ' ' haddr
    rw [show addr ++ (" : ".toList ++ body) = addr ++ ' ' :: (": ".toList ++ body) from rfl,
      this]
    simp only [List.take_left]
    exact hi
  have hs : strstr (addr ++ (" : ".toList ++ body)) " : ".toList = some addr.length := by
    have := strstr_skip addr (" : ".toList ++ body) ": ".toList haddr
    show strstr (addr ++ (" : ".toList ++ body)) (' ' :: ": ".toList) = some addr.length
    rw [this]
    simp [strstr, List.isPrefixOf]
  have hd : strstr (addr ++ (" : ".toList ++ body)) "duplicate for".toList = none :=
    (strstr_eq_none_iff _ _).mpr hdup
  have hdrop : List.drop (addr.length + 3) (addr ++ (" : ".toList ++ body)) = body := by
    rw [show addr ++ (" : ".toList ++ body) = (addr ++ " : ".toList) ++ body by simp]
    exact List.drop_left' (by simp)
  unfold process_fping_output_line
  simp only [hr, hv, hh, hs, hd, hdrop, Option.isSome_none, Bool.false_eq_true, if_false]
  split <;> rfl
/-- Replacing a host by one with the same address keeps the addresses of the
batch. -/
theorem set_map_addr (hosts : List ZBX_FPING_HOST) (i : Nat) (host h1 : ZBX_FPING_HOST)
    (hh : hosts.get? i = some host) (ha : h1.addr = host.addr) :
    (hosts.set i h1).map (fun h => h.addr) = hosts.map (fun h => h.addr) := by
  rw [List.map_set, ha]
  have hh2 : (hosts.map (fun h => h.addr)).get? i = some host.addr := by
    simp only [List.get?_eq_getElem?] at hh ⊢
    rw [List.getElem?_map, hh]
    rfl
  apply List.ext_get?
  intro n
  by_cases hn : i = n
  · subst hn
    rw [hh2]
    have hlt : i < (hosts.map (fun h => h.addr)).length := by
      by_contra hge
      have := List.get?_eq_none.mpr (not_lt.mp hge)
      rw [this] at hh2
      cases hh2
    simp only [List.get?_eq_getElem?]
    rw [List.getElem?_set_self]
    exact hlt
  · simp only [List.get?_eq_getElem?]
    rw [List.getElem?_set_ne hn]

/-- The host at an index after it has been replaced. -/
theorem get?_set_self (hosts : List ZBX_FPING_HOST) (i : Nat) (host h1 : ZBX_FPING_HOST)
    (hh : hosts.get? i = some host) : (hosts.set i h1).get? i = some h1 := by
  have hlt : i < hosts.length := by
    by_contra hge
    have := List.get?_eq_none.mpr (not_lt.mp hge)
    rw [this] at hh
    cases hh
  simp only [List.get?_eq_getElem?]
  rw [List.getElem?_set_self]
  exact hlt

/-- The output lines one after the other. -/
theorem process_fping_output_lines_cons (env : ParseEnv) (l : List Char)
    (ls : List (List Char)) (hosts : List ZBX_FPING_HOST) (N allow : Nat) :
    process_fping_output_lines env (l :: ls) hosts N allow =
      process_fping_output_lines env ls
        (process_fping_output_line env (zbx_rtrim l ['\n']) hosts N allow) N allow := rfl

theorem process_fping_output_lines_append (env : ParseEnv) (l1 l2 : List (List Char))
    (hosts : List ZBX_FPING_HOST) (N allow : Nat) :
    process_fping_output_lines env (l1 ++ l2) hosts N allow =
      process_fping_output_lines env l2 (process_fping_output_lines env l1 hosts N allow)
        N allow := by
  unfold process_fping_output_lines
  rw [List.foldl_append]

/-- A run of acknowledgment lines of one host sets the bitmap entries of their
indices, and nothing else. -/
theorem process_fping_output_lines_acks (env : ParseEnv) (N allow : Nat) (addr : List Char)
    (haddr : ' ' ∉ addr) (acks : List (Nat × List Char)) :
    ∀ (hosts : List ZBX_FPING_HOST) (i : Nat) (host : ZBX_FPING_HOST),
      find_host addr hosts = some i → hosts.get? i = some host →
      (∀ a ∈ acks, a.1 < N ∧ ¬ " timed out ".toList <:+: a.2 ∧
        PlainLine (ack_line addr a.1 a.2)) →
      process_fping_output_lines env (acks.map (fun a => ack_line addr a.1 a.2 ++ ['\n']))
          hosts N allow =
        hosts.set i
          { host with
            status := (acks.map Prod.fst).foldl (fun st k => st.set k true) host.status } := by
  induction acks with
  | nil =>
    intro hosts i host _ hh _
    exact (set_of_get?_eq hosts i host hh).symm
  | cons a rest ih =>
    intro hosts i host hi hh hall
    obtain ⟨hlt, htime, hm, hd, hn⟩ := hall a (by simp)
    rw [List.map_cons, process_fping_output_lines_cons, zbx_rtrim_line _ hn]
    have hline := process_fping_output_line_body env hosts N allow addr
      ('[' :: (indexText (a.1 : Int) ++ ']' :: a.2)) i host haddr hi hh hm hd
    have hreq := process_response_to_individual_fping_request_text host (a.1 : Int) a.2 N
    rw [if_pos ⟨Int.ofNat_nonneg _, by exact_mod_cast hlt, htime⟩] at hreq
    have hline2 : process_fping_output_line env (ack_line addr a.1 a.2) hosts N allow =
        hosts.set i { host with status := host.status.set a.1 true } := by
      unfold ack_line
      rw [hline]
      simp only [List.head?_cons, if_true, hreq, Int.toNat_ofNat]
    rw [hline2]
    have hi2 : find_host addr (hosts.set i { host with status := host.status.set a.1 true }) =
        some i := by
      rw [find_host_congr addr (hosts.set i { host with status := host.status.set a.1 true })
        hosts (set_map_addr hosts i host _ hh rfl)]
      exact hi
    rw [ih _ i _ hi2 (get?_set_self hosts i host _ hh)
      (fun b hb => hall b (by simp [hb])), List.set_set]
    rfl
/-- A plain summary line of a host of the batch is processed by
`process_fping_statistics` for that host. -/
theorem process_fping_output_lines_summary (env : ParseEnv) (N allow : Nat) (addr : List Char)
    (haddr : ' ' ∉ addr) (tokens : List (List Char)) (hosts : List ZBX_FPING_HOST) (i : Nat)
    (host : ZBX_FPING_HOST) (hi : find_host addr hosts = some i)
    (hh : hosts.get? i = some host) (hplain : PlainLine (summary_line addr tokens))
    (hhead : (joinTokens tokens).head? ≠ some '[') :
    process_fping_output_lines env [summary_line addr tokens ++ ['\n']] hosts N allow =
      hosts.set i (process_fping_statistics env host (joinTokens tokens) N) := by
  obtain ⟨hm, hd, hn⟩ := hplain
  rw [process_fping_output_lines_cons, zbx_rtrim_line _ hn]
  have hline := process_fping_output_line_body env hosts N allow addr (joinTokens tokens) i host
    haddr hi hh hm hd
  rw [if_neg hhead] at hline
  exact hline

/-- One pass over a host: its acknowledgment lines, then its summary line. -/
theorem process_fping_output_lines_pass (env : ParseEnv) (N allow : Nat) (addr : List Char)
    (haddr : ' ' ∉ addr) (acks : List (Nat × List Char)) (tokens : List (List Char))
    (hosts : List ZBX_FPING_HOST) (i : Nat) (host : ZBX_FPING_HOST)
    (hi : find_host addr hosts = some i) (hh : hosts.get? i = some host)
    (hacks : ∀ a ∈ acks, a.1 < N ∧ ¬ " timed out ".toList <:+: a.2 ∧
      PlainLine (ack_line addr a.1 a.2))
    (hplain : PlainLine (summary_line addr tokens))
    (hhead : (joinTokens tokens).head? ≠ some '[') :
    process_fping_output_lines env
        (acks.map (fun a => ack_line addr a.1 a.2 ++ ['\n']) ++
          [summary_line addr tokens ++ ['\n']]) hosts N allow =
      hosts.set i
        (process_fping_statistics env
          { host with
            status := (acks.map Prod.fst).foldl (fun st k => st.set k true) host.status }
          (joinTokens tokens) N) := by
  rw [process_fping_output_lines_append,
    process_fping_output_lines_acks env N allow addr haddr acks hosts i host hi hh hacks]
  have hi2 : find_host addr (hosts.set i
      { host with
        status := (acks.map Prod.fst).foldl (fun st k => st.set k true) host.status }) =
      some i := by
    rw [find_host_congr addr (hosts.set i
      { host with
        status := (acks.map Prod.fst).foldl (fun st k => st.set k true) host.status })
      hosts (set_map_addr hosts i host _ hh rfl)]
    exact hi
  rw [process_fping_output_lines_summary env N allow addr haddr tokens _ i _ hi2
    (get?_set_self hosts i host _ hh) hplain hhead, List.set_set]

/-- The bitmap after a run of acknowledgments: an entry is set when it was set
before or its index has been acknowledged. -/
theorem foldl_set_true (N : Nat) (idxs : List Nat) :
    ∀ st : List Bool, st.length = N → (∀ k ∈ idxs, k < N) →
      idxs.foldl (fun st k => st.set k true) st =
        (List.range N).map (fun k => st.getD k false || decide (k ∈ idxs)) := by
  induction idxs with
  | nil =>
    intro st hl _
    apply List.ext_getElem
    · simp [hl]
    · intro n h1 h2
      have h3 : n < st.length := h1
      simp [List.getD_eq_getElem?_getD, List.getElem?_eq_getElem h3]
  | cons a rest ih =>
    intro st hl hall
    rw [List.foldl_cons, ih (st.set a true) (by simp [hl]) (fun k hk => hall k (by simp [hk]))]
    apply List.map_congr_left
    intro k hk
    have ha : a < st.length := by rw [hl]; exact hall a (by simp)
    by_cases hak : a = k
    · subst hak
      simp [List.getD_eq_getElem?_getD, List.getElem?_set_self ha]
    · have hka : ¬ k = a := fun e => hak e.symm
      simp [List.getD_eq_getElem?_getD, List.getElem?_set_ne hak, hka]

/-- The number of set entries of the bitmap of an index set. -/
theorem count_indicator (N : Nat) (idxs : List Nat) (hall : ∀ k ∈ idxs, k < N) :
    ((List.range N).map (fun k => decide (k ∈ idxs))).count true = idxs.toFinset.card := by
  rw [List.count_eq_countP, List.countP_map, List.countP_eq_length_filter]
  have hnd : ((List.range N).filter ((fun x => x == true) ∘ fun k => decide (k ∈ idxs))).Nodup :=
    (List.nodup_range N).filter _
  rw [← List.toFinset_card_of_nodup hnd]
  congr 1
  ext k
  simp only [List.mem_toFinset, List.mem_filter, List.mem_range, Function.comp,
    beq_iff_eq, decide_eq_true_eq]
  exact ⟨fun h => h.2, fun h => ⟨hall k h, h⟩⟩

/-- What a summary line of `requests_count` tokens does to a host whose bitmap
has `requests_count` entries: rcv grows by the number of set entries, cnt by
`requests_count`, and the bitmap is cleared under the condition of the
`HAVE_IPV6` build. -/
theorem process_fping_statistics_pass (env : ParseEnv) (host : ZBX_FPING_HOST)
    (tokens : List (List Char)) (N : Nat) (hN : 1 ≤ N) (hlen : host.status.length = N)
    (ht : tokens.length = N) (htok : ∀ t ∈ tokens, IsToken t) :
    (process_fping_statistics env host (joinTokens tokens) N).rcv =
        host.rcv + host.status.count true ∧
      (process_fping_statistics env host (joinTokens tokens) N).cnt = host.cnt + N ∧
      (process_fping_statistics env host (joinTokens tokens) N).addr = host.addr ∧
      (process_fping_statistics env host (joinTokens tokens) N).status =
        (if env.have_ipv6 = true ∧ host.cnt + N = N ∧ env.source_ip = none ∧
            env.fping_existence &&& FPING_EXISTS ≠ 0 ∧
            env.fping_existence &&& FPING6_EXISTS ≠ 0 then
          List.replicate N false
        else host.status) := by
  obtain ⟨hr, _, _, _, _, _⟩ := process_fping_statistics_stats env host (joinTokens tokens) N
  obtain ⟨hc, ha, _, _⟩ := process_fping_statistics_frame env host (joinTokens tokens) N
  refine ⟨?_, hc, ha, ?_⟩
  · rw [hr, fping_statistics_loop_summary host tokens N hN hlen ht htok,
      foldl_fping_fold_sec_rcv, sampleSeconds_length host.status tokens (by rw [hlen, ht])]
  · obtain ⟨hc2, _, hs2, _, _⟩ := fping_statistics_loop_frame (N - 1) 0 (joinTokens tokens) host
    unfold process_fping_statistics
    dsimp only
    rw [hc2, hs2]
    split
    · dsimp only
      rw [List.drop_of_length_le (by omega), List.append_nil]
    · dsimp only

/-- The bitmap of an index set, built from the cleared bitmap. -/
theorem foldl_set_true_replicate (N : Nat) (idxs : List Nat) (hall : ∀ k ∈ idxs, k < N) :
    idxs.foldl (fun st k => st.set k true) (List.replicate N false) =
      (List.range N).map (fun k => decide (k ∈ idxs)) := by
  rw [foldl_set_true N idxs (List.replicate N false) (by simp) hall]
  apply List.map_congr_left
  intro k hk
  have hk2 : k < N := List.mem_range.mp hk
  simp [List.getD_eq_getElem?_getD, List.getElem?_replicate, hk2]

/-- The lines of two passes, pass by pass. -/
theorem two_pass_output_eq (addr : List Char) (acks1 acks2 : List (Nat × List Char))
    (tokens1 tokens2 : List (List Char)) :
    two_pass_output addr acks1 tokens1 acks2 tokens2 =
      (acks1.map (fun a => ack_line addr a.1 a.2 ++ ['\n']) ++
          [summary_line addr tokens1 ++ ['\n']]) ++
        (acks2.map (fun a => ack_line addr a.1 a.2 ++ ['\n']) ++
          [summary_line addr tokens2 ++ ['\n']]) := by
  simp [two_pass_output, Function.comp_def]

/-- On an output that is not empty, `process_fping_output` processes the lines
from the cleared bitmaps. -/
theorem process_fping_output_of_ne_nil (env : ParseEnv) (lines : List (List Char))
    (hosts : List ZBX_FPING_HOST) (N allow : Nat) (h : lines ≠ []) :
    (process_fping_output env lines hosts N allow).2 =
      process_fping_output_lines env lines
        (hosts.map (fun h => { h with status := List.replicate N false })) N allow := by
  cases lines with
  | nil => exact absurd rfl h
  | cons l ls => rfl

/-- The host after two passes: the first summary line counts the indices
acknowledged before it and clears the bitmap, the second one counts the
indices acknowledged between the two and keeps the bitmap. -/
theorem process_fping_statistics_two_passes (env : ParseEnv) (host : ZBX_FPING_HOST)
    (N : Nat) (idxs1 idxs2 : List Nat) (tokens1 tokens2 : List (List Char))
    (hv : env.have_ipv6 = true) (hs : env.source_ip = none)
    (h4 : env.fping_existence &&& FPING_EXISTS ≠ 0)
    (h6 : env.fping_existence &&& FPING6_EXISTS ≠ 0)
    (hN : 1 ≤ N) (hzero : host.rcv = 0 ∧ host.cnt = 0)
    (hidx1 : ∀ k ∈ idxs1, k < N) (hidx2 : ∀ k ∈ idxs2, k < N)
    (ht1 : tokens1.length = N) (htok1 : ∀ t ∈ tokens1, IsToken t)
    (ht2 : tokens2.length = N) (htok2 : ∀ t ∈ tokens2, IsToken t) :
    (process_fping_statistics env
        { process_fping_statistics env
            { host with
              status := idxs1.foldl (fun st k => st.set k true) (List.replicate N false) }
            (joinTokens tokens1) N with
          status := idxs2.foldl (fun st k => st.set k true)
            (process_fping_statistics env
              { host with
                status := idxs1.foldl (fun st k => st.set k true) (List.replicate N false) }
              (joinTokens tokens1) N).status }
        (joinTokens tokens2) N).status = (List.range N).map (fun k => decide (k ∈ idxs2)) ∧
      (process_fping_statistics env
        { process_fping_statistics env
            { host with
              status := idxs1.foldl (fun st k => st.set k true) (List.replicate N false) }
            (joinTokens tokens1) N with
          status := idxs2.foldl (fun st k => st.set k true)
            (process_fping_statistics env
              { host with
                status := idxs1.foldl (fun st k => st.set k true) (List.replicate N false) }
              (joinTokens tokens1) N).status }
        (joinTokens tokens2) N).rcv = idxs1.toFinset.card + idxs2.toFinset.card ∧
      (process_fping_statistics env
        { process_fping_statistics env
            { host with
              status := idxs1.foldl (fun st k => st.set k true) (List.replicate N false) }
            (joinTokens tokens1) N with
          status := idxs2.foldl (fun st k => st.set k true)
            (process_fping_statistics env
              { host with
                status := idxs1.foldl (fun st k => st.set k true) (List.replicate N false) }
              (joinTokens tokens1) N).status }
        (joinTokens tokens2) N).cnt = 2 * N := by
  have hb1 := foldl_set_true_replicate N idxs1 hidx1
  have key1 := process_fping_statistics_pass env
    { host with status := idxs1.foldl (fun st k => st.set k true) (List.replicate N false) }
    tokens1 N hN (by dsimp only; rw [hb1]; simp) ht1 htok1
  generalize process_fping_statistics env
    { host with status := idxs1.foldl (fun st k => st.set k true) (List.replicate N false) }
    (joinTokens tokens1) N = P at key1 ⊢
  obtain ⟨r2, c2, _, s2⟩ := key1
  dsimp only at r2 c2 s2
  rw [hzero.2] at c2 s2
  rw [hzero.1, hb1, count_indicator N _ hidx1, Nat.zero_add] at r2
  rw [if_pos ⟨hv, by omega, hs, h4, h6⟩] at s2
  have hb2 := foldl_set_true_replicate N idxs2 hidx2
  rw [← s2] at hb2
  have key2 := process_fping_statistics_pass env
    { P with status := idxs2.foldl (fun st k => st.set k true) P.status }
    tokens2 N hN (by dsimp only; rw [hb2]; simp) ht2 htok2
  generalize process_fping_statistics env
    { P with status := idxs2.foldl (fun st k => st.set k true) P.status }
    (joinTokens tokens2) N = E at key2 ⊢
  obtain ⟨r3, c3, _, s3⟩ := key2
  dsimp only at r3 c3 s3
  rw [c2] at c3 s3
  rw [r2, hb2, count_indicator N _ hidx2] at r3
  rw [if_neg (fun h => by omega), hb2] at s3
  exact ⟨s3, r3, by rw [c3]; omega⟩

/-- The batch after the lines of two passes for one host. -/
theorem process_fping_output_two_pass_lines (env : ParseEnv) (hosts : List ZBX_FPING_HOST)
    (N allow i : Nat) (addr : List Char) (host : ZBX_FPING_HOST)
    (acks1 acks2 : List (Nat × List Char)) (tokens1 tokens2 : List (List Char))
    (haddr : ' ' ∉ addr) (hi : find_host addr hosts = some i)
    (hh : hosts.get? i = some host)
    (hacks1 : ∀ a ∈ acks1, a.1 < N ∧ ¬ " timed out ".toList <:+: a.2 ∧
      PlainLine (ack_line addr a.1 a.2))
    (hacks2 : ∀ a ∈ acks2, a.1 < N ∧ ¬ " timed out ".toList <:+: a.2 ∧
      PlainLine (ack_line addr a.1 a.2))
    (hplain1 : PlainLine (summary_line addr tokens1))
    (hhead1 : (joinTokens tokens1).head? ≠ some '[')
    (hplain2 : PlainLine (summary_line addr tokens2))
    (hhead2 : (joinTokens tokens2).head? ≠ some '[') :
    (process_fping_output env (two_pass_output addr acks1 tokens1 acks2 tokens2) hosts N
        allow).2.get? i =
      some (process_fping_statistics env
        { process_fping_statistics env
            { host with
              status := (acks1.map Prod.fst).foldl (fun st k => st.set k true)
                (List.replicate N false) }
            (joinTokens tokens1) N with
          status := (acks2.map Prod.fst).foldl (fun st k => st.set k true)
            (process_fping_statistics env
              { host with
                status := (acks1.map Prod.fst).foldl (fun st k => st.set k true)
                  (List.replicate N false) }
              (joinTokens tokens1) N).status }
        (joinTokens tokens2) N) := by
  have hmap : (hosts.map (fun h => { h with status := List.replicate N false })).map
      (fun h => h.addr) = hosts.map (fun h => h.addr) := by
    simp [List.map_map, Function.comp_def]
  have hi0 : find_host addr (hosts.map (fun h => { h with status := List.replicate N false })) =
      some i := by
    rw [find_host_congr addr _ hosts hmap]
    exact hi
  have hh0 : (hosts.map (fun h => { h with status := List.replicate N false })).get? i =
      some { host with status := List.replicate N false } := by
    simp only [List.get?_eq_getElem?] at hh ⊢
    rw [List.getElem?_map, hh]
    rfl
  have hne : two_pass_output addr acks1 tokens1 acks2 tokens2 ≠ [] := by
    rw [two_pass_output_eq]
    simp
  rw [process_fping_output_of_ne_nil env _ hosts N allow hne, two_pass_output_eq,
    process_fping_output_lines_append,
    process_fping_output_lines_pass env N allow addr haddr acks1 tokens1 _ i _ hi0 hh0 hacks1
      hplain1 hhead1]
  have ha2 : (process_fping_statistics env
      { ({ host with status := List.replicate N false } : ZBX_FPING_HOST) with
        status := (acks1.map Prod.fst).foldl (fun st k => st.set k true)
          ({ host with status := List.replicate N false } : ZBX_FPING_HOST).status }
      (joinTokens tokens1) N).addr =
      ({ host with status := List.replicate N false } : ZBX_FPING_HOST).addr :=
    (process_fping_statistics_frame env _ (joinTokens tokens1) N).2.1
  have hi1 := hi0
  rw [← find_host_congr addr _ (hosts.map (fun h => { h with status := List.replicate N false }))
    (set_map_addr _ i _ _ hh0 ha2)] at hi1
  rw [process_fping_output_lines_pass env N allow addr haddr acks2 tokens2 _ i _ hi1
    (get?_set_self _ i _ _ hh0) hacks2 hplain2 hhead2, List.set_set]
  exact get?_set_self _ i _ _ hh0

/-- C22: in the `HAVE_IPV6` build without source IP and with both binaries, for
`requests_count ≥ 1` and a host of the batch with zeroed counters, an output
of two passes (acknowledgment lines for the indices of `acks1` and a summary
line of `requests_count` tokens, then acknowledgment lines for the indices of
`acks2` and a second summary line of `requests_count` tokens) leaves the host
with the bitmap of the indices of the second pass alone, with rcv the number
of indices acknowledged in the first pass plus the number acknowledged in the
second pass, and with cnt twice `requests_count`. -/
theorem process_fping_output_two_passes (env : ParseEnv) (hosts : List ZBX_FPING_HOST)
    (N allow i : Nat) (addr : List Char) (host : ZBX_FPING_HOST)
    (acks1 acks2 : List (Nat × List Char)) (tokens1 tokens2 : List (List Char))
    (hv : env.have_ipv6 = true) (hs : env.source_ip = none)
    (h4 : env.fping_existence &&& FPING_EXISTS ≠ 0)
    (h6 : env.fping_existence &&& FPING6_EXISTS ≠ 0)
    (hN : 1 ≤ N) (haddr : ' ' ∉ addr) (hi : find_host addr hosts = some i)
    (hh : hosts.get? i = some host) (hzero : host.rcv = 0 ∧ host.cnt = 0)
    (hacks1 : ∀ a ∈ acks1, a.1 < N ∧ ¬ " timed out ".toList <:+: a.2 ∧
      PlainLine (ack_line addr a.1 a.2))
    (hacks2 : ∀ a ∈ acks2, a.1 < N ∧ ¬ " timed out ".toList <:+: a.2 ∧
      PlainLine (ack_line addr a.1 a.2))
    (htokens1 : tokens1.length = N ∧ (∀ t ∈ tokens1, IsToken t) ∧
      (joinTokens tokens1).head? ≠ some '[' ∧ PlainLine (summary_line addr tokens1))
    (htokens2 : tokens2.length = N ∧ (∀ t ∈ tokens2, IsToken t) ∧
      (joinTokens tokens2).head? ≠ some '[' ∧ PlainLine (summary_line addr tokens2)) :
    ∃ final : ZBX_FPING_HOST,
      (process_fping_output env (two_pass_output addr acks1 tokens1 acks2 tokens2) hosts N
          allow).2.get? i = some final ∧
        final.status = (List.range N).map (fun k => decide (k ∈ acks2.map Prod.fst)) ∧
        final.rcv = (acks1.map Prod.fst).toFinset.card + (acks2.map Prod.fst).toFinset.card ∧
        final.cnt = 2 * N := by
  obtain ⟨ht1, htok1, hhead1, hplain1⟩ := htokens1
  obtain ⟨ht2, htok2, hhead2, hplain2⟩ := htokens2
  have hidx1 : ∀ k ∈ acks1.map Prod.fst, k < N := by
    intro k hk
    obtain ⟨a, ha, rfl⟩ := List.mem_map.mp hk
    exact (hacks1 a ha).1
  have hidx2 : ∀ k ∈ acks2.map Prod.fst, k < N := by
    intro k hk
    obtain ⟨a, ha, rfl⟩ := List.mem_map.mp hk
    exact (hacks2 a ha).1
  exact ⟨_, process_fping_output_two_pass_lines env hosts N allow i addr host acks1 acks2
      tokens1 tokens2 haddr hi hh hacks1 hacks2 hplain1 hhead1 hplain2 hhead2,
    process_fping_statistics_two_passes env host N _ _ tokens1 tokens2 hv hs h4 h6 hN hzero
      hidx1 hidx2 ht1 htok1 ht2 htok2⟩

/-- C22, an instance with 3 requests: in the first pass `8.8.8.8` acknowledges
the requests 0 and 2, in the second pass the request 1; the host ends with the
bitmap of the second pass, 3 responses received and 6 requests sent. -/
theorem process_fping_output_two_passes_witness :
    ∃ final : ZBX_FPING_HOST,
      (process_fping_output example_env
          (two_pass_output "8.8.8.8".toList
            [(0, ", 64 bytes, 9.37 ms (9.37 avg, 0% loss)".toList),
              (2, ", 64 bytes, 7.28 ms (8.32 avg, 33% loss)".toList)]
            ["9.37".toList, "-".toList, "7.28".toList]
            [(1, ", 64 bytes, 8.72 ms (8.72 avg, 50% loss)".toList)]
            ["-".toList, "8.72".toList, "-".toList])
          [⟨"7.7.7.7".toList, 0, 0, 0, 0, 0, []⟩, ⟨"8.8.8.8".toList, 0, 0, 0, 0, 0, []⟩] 3
          0).2.get? 1 = some final ∧
        final.status = [false, true, false] ∧ final.rcv = 3 ∧ final.cnt = 6 := by
  have hno : ∀ l n : List Char, strstr l n = none → ¬ n <:+: l :=
    fun l n h => (strstr_eq_none_iff l n).mp h
  obtain ⟨final, h1, h2, h3, h4⟩ := process_fping_output_two_passes example_env
    [⟨"7.7.7.7".toList, 0, 0, 0, 0, 0, []⟩, ⟨"8.8.8.8".toList, 0, 0, 0, 0, 0, []⟩] 3 0 1
    "8.8.8.8".toList ⟨"8.8.8.8".toList, 0, 0, 0, 0, 0, []⟩
    [(0, ", 64 bytes, 9.37 ms (9.37 avg, 0% loss)".toList),
      (2, ", 64 bytes, 7.28 ms (8.32 avg, 33% loss)".toList)]
    [(1, ", 64 bytes, 8.72 ms (8.72 avg, 50% loss)".toList)]
    ["9.37".toList, "-".toList, "7.28".toList] ["-".toList, "8.72".toList, "-".toList]
    rfl rfl (by decide) (by decide) (by decide) (by decide) (by decide) rfl ⟨rfl, rfl⟩
    (by
      intro a ha
      simp only [List.mem_cons, List.mem_singleton, List.not_mem_nil, or_false] at ha
      rcases ha with rfl | rfl
      · exact ⟨by decide, hno _ _ (by decide), hno _ _ (by decide), hno _ _ (by decide),
          by decide⟩
      · exact ⟨by decide, hno _ _ (by decide), hno _ _ (by decide), hno _ _ (by decide),
          by decide⟩)
    (by
      intro a ha
      simp only [List.mem_cons, List.mem_singleton, List.not_mem_nil, or_false] at ha
      subst ha
      exact ⟨by decide, hno _ _ (by decide), hno _ _ (by decide), hno _ _ (by decide),
        by decide⟩)
    ⟨rfl, by
      intro t ht
      simp only [List.mem_cons, List.mem_singleton, List.not_mem_nil, or_false] at ht
      rcases ht with rfl | rfl | rfl <;> exact ⟨by decide, by decide⟩,
      by decide, hno _ _ (by decide), hno _ _ (by decide), by decide⟩
    ⟨rfl, by
      intro t ht
      simp only [List.mem_cons, List.mem_singleton, List.not_mem_nil, or_false] at ht
      rcases ht with rfl | rfl | rfl <;> exact ⟨by decide, by decide⟩,
      by decide, hno _ _ (by decide), hno _ _ (by decide), by decide⟩
  exact ⟨final, h1, by rw [h2]; decide, by rw [h3]; decide, by rw [h4]⟩

/-! ## The latencies of a summary line as decimals -/

end Icmpping
